import Mathlib

/-!
# Layer balancer (`layer/scripts/layer-balancer/main.go`)

A shallow embedding of the layer balancer.  The program talks to a cloud
provider; the provider is a record of response functions (`Provider`), each
of which sees the list of all events issued so far, so a provider may answer
in any history-dependent way.  The program state is the event trace together
with the mutable global `canonicalLayers` (the per-layer `sync.Once` flag and
cached content).  A `*LayerInfo` is an index into `canonicalLayers`.

The functions that one goroutine runs from call to return (`getLayerVersion`,
`downloadCanonicalLayerZip`, `balanceRegionToVersion`) are embedded as state-passing
functions.  The goroutines of an `errgroup` run concurrently: each is a machine that
takes atomic steps (at most one call, or one access to shared memory, per step), and a
schedule, a list of goroutine indices, says which goroutine takes the next step.
`getGreatestVersion`, `balanceRegions` and `main` take such schedules, and the claims
about them hold for every schedule.  `g.Go` only starts a goroutine and the loops
that call it touch nothing else, so all goroutines of a group are started before the
first of them takes a step.  Cancelling the context makes later calls of the provider
fail, which a provider may do at any time anyway, so it is not a separate mechanism.
A nil-pointer dereference or an index out of range is a panic, which ends the process.
-/

set_option autoImplicit false

namespace LayerBalancer

/-! ## Data model -/

/-- Go `error` values, identified with their message. -/
abbrev Error := String

/-- Go byte slices; the nil slice is the empty list. -/
abbrev Bytes := List UInt8

/-- The SDK constant `types.ArchitectureX8664`. -/
def ArchitectureX8664 : String := "x86_64"

/-- The SDK constant `types.ArchitectureArm64`. -/
def ArchitectureArm64 : String := "arm64"

/-- The SDK constant `types.RuntimePython37`. -/
def RuntimePython37 : String := "python3.7"

/-- The SDK constant `types.RuntimePython38`. -/
def RuntimePython38 : String := "python3.8"

/-- The SDK constant `types.RuntimePython39`. -/
def RuntimePython39 : String := "python3.9"

/-- The struct `LayerInfo`; `LayerContentOnce` is true once `sync.Once.Do` has run. -/
structure LayerInfo where
  Name : String
  Description : String
  Architecture : String
  LayerContentOnce : Bool := false
  LayerContent : Bytes := []
  deriving DecidableEq, Repr, Inhabited

/-- The layers that are kept in sync across all regions. -/
def canonicalLayers : List LayerInfo :=
  [ { Name := "AWSLambdaPowertoolsPythonV2",
      Description := "Lambda Powertools for Python [x86_64] with extra dependencies version bump",
      Architecture := ArchitectureX8664 },
    { Name := "AWSLambdaPowertoolsPythonV2-Arm64",
      Description := "Lambda Powertools for Python [arm64] with extra dependencies version bump",
      Architecture := ArchitectureArm64 } ]

/-- The regions that are kept in sync. -/
def regions : List String :=
  [ "af-south-1", "ap-east-1", "ap-northeast-1", "ap-northeast-2", "ap-northeast-3",
    "ap-south-1", "ap-south-2", "ap-southeast-1", "ap-southeast-2", "ap-southeast-3",
    "ap-southeast-4", "ca-central-1", "eu-central-1", "eu-central-2", "eu-north-1",
    "eu-south-1", "eu-south-2", "eu-west-1", "eu-west-2", "eu-west-3", "me-central-1",
    "me-south-1", "sa-east-1", "us-east-1", "us-east-2", "us-west-1", "us-west-2" ]

/-- Regions that do not take an architecture constraint. -/
def singleArchitectureRegions : List String :=
  [ "ap-south-2", "ap-southeast-4", "eu-central-2", "eu-south-2", "me-central-1" ]

/-! ## Provider interface -/

/-- The SDK type `aws.Config`, of which only the region matters here. -/
structure Config where
  Region : String := ""
  deriving DecidableEq, Repr, Inhabited

structure ListLayerVersionsInput where
  LayerName : String
  MaxItems : Int
  deriving DecidableEq, Repr

structure LayerVersionsListItem where
  Version : Int
  deriving DecidableEq, Repr

structure ListLayerVersionsOutput where
  LayerVersions : List LayerVersionsListItem
  deriving DecidableEq, Repr

structure GetLayerVersionInput where
  LayerName : String
  VersionNumber : Int
  deriving DecidableEq, Repr

/-- The SDK type `types.LayerVersionContentOutput`; `Location` is a `*string`. -/
structure LayerVersionContentOutput where
  Location : Option String
  deriving DecidableEq, Repr

/-- The SDK type `lambda.GetLayerVersionOutput`; `Content` is a pointer. -/
structure GetLayerVersionOutput where
  Content : Option LayerVersionContentOutput
  deriving DecidableEq, Repr

structure LayerVersionContentInput where
  ZipFile : Bytes
  deriving DecidableEq, Repr

/-- The SDK type `lambda.PublishLayerVersionInput`; an unset `CompatibleArchitectures` is the nil slice. -/
structure PublishLayerVersionInput where
  Content : LayerVersionContentInput
  LayerName : String
  CompatibleArchitectures : List String := []
  CompatibleRuntimes : List String
  Description : String
  LicenseInfo : String
  deriving DecidableEq, Repr

structure PublishLayerVersionOutput where
  Version : Int
  deriving DecidableEq, Repr

structure AddLayerVersionPermissionInput where
  Action : String
  LayerName : String
  Principal : String
  StatementId : String
  VersionNumber : Int
  deriving DecidableEq, Repr

/-- An HTTP response body as a reader: the bytes that can be read from it and
the error, if any, that ends the read instead of EOF. -/
structure Body where
  data : Bytes
  err : Option Error
  deriving DecidableEq, Repr

/-- The type `http.Response`. -/
structure Response where
  Body : Body
  deriving DecidableEq, Repr

/-- The function `ioutil.ReadAll`: the bytes read so far together with the read error. -/
def ReadAll (b : Body) : Bytes × Option Error := (b.data, b.err)

/-- A call issued by the program together with what came back; `Go` is a call of `g.Go`,
which starts the goroutine for a layer (its index) and a region. -/
inductive Event where
  | LoadDefaultConfig (region : String) (cfg : Config) (err : Option Error)
  | ListLayerVersions (cfg : Config) (input : ListLayerVersionsInput)
      (result : Except Error ListLayerVersionsOutput)
  | GetLayerVersion (cfg : Config) (input : GetLayerVersionInput)
      (result : Except Error GetLayerVersionOutput)
  | Get (url : String) (resp : Option Response) (err : Option Error)
  | PublishLayerVersion (cfg : Config) (input : PublishLayerVersionInput)
      (result : Except Error PublishLayerVersionOutput)
  | AddLayerVersionPermission (cfg : Config) (input : AddLayerVersionPermissionInput)
      (result : Except Error Unit)
  | Go (layer : Nat) (region : String)

/-- The outside world.  Every response may depend on all events so far.  An
SDK operation returns either an output or an error (the SDK returns a nil
output with an error); `LoadDefaultConfig` and `http.Get` return both of
their Go results. -/
structure Provider where
  LoadDefaultConfig : List Event → String → Config × Option Error
  ListLayerVersions : List Event → Config → ListLayerVersionsInput →
    Except Error ListLayerVersionsOutput
  GetLayerVersion : List Event → Config → GetLayerVersionInput →
    Except Error GetLayerVersionOutput
  Get : List Event → String → Option Response × Option Error
  PublishLayerVersion : List Event → Config → PublishLayerVersionInput →
    Except Error PublishLayerVersionOutput
  AddLayerVersionPermission : List Event → Config → AddLayerVersionPermissionInput →
    Except Error Unit

/-- Program state: the events so far (oldest first) and the global `canonicalLayers`. -/
structure State where
  trace : List Event
  canonicalLayers : List LayerInfo

/-- Record an event. -/
def State.log (s : State) (e : Event) : State :=
  { s with trace := s.trace ++ [e] }

/-- Dereference a `*LayerInfo`. -/
def State.layerAt (s : State) (layer : Nat) : LayerInfo :=
  s.canonicalLayers.getD layer default

/-- Write through a `*LayerInfo`. -/
def State.setLayer (s : State) (layer : Nat) (l : LayerInfo) : State :=
  { s with canonicalLayers := s.canonicalLayers.set layer l }

/-- How a Go function call ends: it returns, or the goroutine panics. -/
inductive Outcome (α : Type) where
  | returned (a : α)
  | panicked (msg : String)

/-! ## The program -/

/-- Function `getLayerVersion`: returns the latest version of a layer in a region. -/
def getLayerVersion (P : Provider) (s : State) (layerName region : String) :
    State × Except Error Int :=
  match P.LoadDefaultConfig s.trace region with
  | (cfg, some err) => (s.log (.LoadDefaultConfig region cfg (some err)), .error err)
  | (cfg, none) =>
    let s := s.log (.LoadDefaultConfig region cfg none)
    let input : ListLayerVersionsInput := { LayerName := layerName, MaxItems := 1 }
    let layerVersionsResult := P.ListLayerVersions s.trace cfg input
    let s := s.log (.ListLayerVersions cfg input layerVersionsResult)
    match layerVersionsResult with
    | .error err => (s, .error err)
    | .ok out =>
      match out.LayerVersions with
      | [] => (s, .error ("no layer meets the search criteria " ++ layerName ++ " - " ++ region))
      | item :: _ => (s, .ok item.Version)

/-- The test of the `continue` in both fan-out loops. -/
def excluded (layer : LayerInfo) (region : String) : Bool :=
  layer.Architecture == ArchitectureArm64 && singleArchitectureRegions.contains region

/-- The (layer, region) pairs for which `getGreatestVersion` calls `g.Go`. -/
def getGreatestVersion.tasks (layers : List LayerInfo) : List (Nat × String) :=
  (List.range layers.length).flatMap fun idx =>
    (regions.filter fun region => !excluded (layers.getD idx default) region).map
      fun region => (idx, region)

/-- The input of the publish call in `balanceRegionToVersion`, one literal per branch. -/
def publishInput (region : String) (l : LayerInfo) (payload : Bytes) : PublishLayerVersionInput :=
  if singleArchitectureRegions.contains region then
    { Content := { ZipFile := payload },
      LayerName := l.Name,
      CompatibleRuntimes := [RuntimePython37, RuntimePython38, RuntimePython39],
      Description := l.Description,
      LicenseInfo := "MIT-0" }
  else
    { Content := { ZipFile := payload },
      LayerName := l.Name,
      CompatibleArchitectures := [l.Architecture],
      CompatibleRuntimes := [RuntimePython37, RuntimePython38, RuntimePython39],
      Description := l.Description,
      LicenseInfo := "MIT-0" }

/-- The input of the permission grant in `balanceRegionToVersion`. -/
def permissionInput (l : LayerInfo) (version : Int) : AddLayerVersionPermissionInput :=
  { Action := "lambda:GetLayerVersion",
    LayerName := l.Name,
    Principal := "*",
    StatementId := "PublicLayerAccess",
    VersionNumber := version }

/-- Function `downloadCanonicalLayerZip`: downloads the canonical layer zip file that is
used to bump the versions later.  The closure given to `Once.Do` records a
failure in `innerErr` and goes on; using a nil result panics. -/
def downloadCanonicalLayerZip (P : Provider) (s : State) (layer : Nat) :
    State × Outcome (Bytes × Option Error) :=
  if (s.layerAt layer).LayerContentOnce then
    (s, .returned ((s.layerAt layer).LayerContent, none))
  else
    let done (s : State) : State :=
      s.setLayer layer { s.layerAt layer with LayerContentOnce := true }
    let innerErr : Option Error := none
    let (cfg, err) := P.LoadDefaultConfig s.trace "eu-central-1"
    let s := s.log (.LoadDefaultConfig "eu-central-1" cfg err)
    let innerErr := match err with
      | some err => some err
      | none => innerErr
    let (s, r) := getLayerVersion P s (s.layerAt layer).Name "eu-central-1"
    let version : Int := match r with
      | .error _ => 0
      | .ok version => version
    let innerErr := match r with
      | .error err => some ("error getting eu-central-1 layer version: " ++ err)
      | .ok _ => innerErr
    let input : GetLayerVersionInput :=
      { LayerName := (s.layerAt layer).Name, VersionNumber := version }
    let getLayerVersionResult := P.GetLayerVersion s.trace cfg input
    let s := s.log (.GetLayerVersion cfg input getLayerVersionResult)
    match getLayerVersionResult with
    | .error _ => (done s, .panicked "nil pointer dereference")
    | .ok out =>
      match out.Content with
      | none => (done s, .panicked "nil pointer dereference")
      | some content =>
        match content.Location with
        | none => (done s, .panicked "nil pointer dereference")
        | some s3LayerUrl =>
          let (resp, err) := P.Get s.trace s3LayerUrl
          let s := s.log (.Get s3LayerUrl resp err)
          let innerErr := match err with
            | some err => some err
            | none => innerErr
          match resp with
          | none => (done s, .panicked "nil pointer dereference")
          | some resp =>
            let (body, err) := ReadAll resp.Body
            let innerErr := match err with
              | some err => some err
              | none => innerErr
            let s := s.setLayer layer { s.layerAt layer with LayerContent := body }
            (done s, .returned ((s.layerAt layer).LayerContent, innerErr))

/-- The loop of `balanceRegionToVersion`, entered with `i` as the loop counter. -/
def balanceLoop (P : Provider) (region : String) (layer : Nat) (cfg : Config)
    (maxVersion : Int) (i : Int) (s : State) : State × Outcome (Option Error) :=
  if i < maxVersion then
    match downloadCanonicalLayerZip P s layer with
    | (s, .panicked msg) => (s, .panicked msg)
    | (s, .returned (_, some err)) =>
      (s, .returned (some ("error downloading canonical zip: " ++ err)))
    | (s, .returned (payload, none)) =>
      let input := publishInput region (s.layerAt layer) payload
      let r := P.PublishLayerVersion s.trace cfg input
      let s := s.log (.PublishLayerVersion cfg input r)
      match r with
      | .error err => (s, .returned (some ("error publishing layer version: " ++ err)))
      | .ok layerVersionResponse =>
        let input := permissionInput (s.layerAt layer) layerVersionResponse.Version
        let r := P.AddLayerVersionPermission s.trace cfg input
        let s := s.log (.AddLayerVersionPermission cfg input r)
        match r with
        | .error err => (s, .returned (some ("error making layer public: " ++ err)))
        | .ok _ => balanceLoop P region layer cfg maxVersion (i + 1) s
  else
    (s, .returned none)
termination_by (maxVersion - i).toNat
decreasing_by omega

/-- Function `balanceRegionToVersion`: creates new layer versions in a region with the
contents of the canonical layer until the region matches `maxVersion`. -/
def balanceRegionToVersion (P : Provider) (s : State) (region : String) (layer : Nat)
    (maxVersion : Int) : State × Outcome (Option Error) :=
  match getLayerVersion P s (s.layerAt layer).Name region with
  | (s, .error err) => (s, .returned (some ("error getting layer version: " ++ err)))
  | (s, .ok currentLayerVersion) =>
    match P.LoadDefaultConfig s.trace region with
    | (cfg, some err) => (s.log (.LoadDefaultConfig region cfg (some err)), .returned (some err))
    | (cfg, none) =>
      balanceLoop P region layer cfg maxVersion currentLayerVersion
        (s.log (.LoadDefaultConfig region cfg none))

/-- The (layer, region) pairs for which `balanceRegions` calls `g.Go`. -/
def balanceRegions.tasks (layers : List LayerInfo) : List (Nat × String) :=
  (List.range layers.length).flatMap fun idx =>
    (regions.filter fun region => !excluded (layers.getD idx default) region).map
      fun region => (idx, region)

/-- The state in which the process starts. -/
def initialState : State := { trace := [], canonicalLayers := canonicalLayers }

/-- A run of `n` calls of the fetcher for one layer, one after the other as the guard
serialises them, with the result of every call; a panic ends the process. -/
def downloadTimes (P : Provider) (layer : Nat) :
    Nat → State → State × List (Outcome (Bytes × Option Error))
  | 0, s => (s, [])
  | n + 1, s =>
    match downloadCanonicalLayerZip P s layer with
    | (s1, .panicked msg) => (s1, [.panicked msg])
    | (s1, .returned r) =>
      ((downloadTimes P layer n s1).1, .returned r :: (downloadTimes P layer n s1).2)

/-! ## Goroutines and groups -/

/-- What one atomic step of a goroutine does to the shared memory `σ` and to the
goroutine itself: it goes on, its closure returns an error value, it panics, or it has
to wait for a lock and nothing happens. -/
inductive Step (σ τ : Type) where
  | next (m : σ) (t : τ)
  | ret (m : σ) (t : τ) (err : Option Error)
  | panic (m : σ) (t : τ) (msg : String)
  | wait

/-- A goroutine of a group: still running, returned with its error value, or panicked. -/
inductive Goroutine (τ : Type) where
  | running (t : τ)
  | returned (t : τ) (err : Option Error)
  | panicked (t : τ) (msg : String)

/-- The goroutine itself, in the state it is in or ended in. -/
def Goroutine.task {τ : Type} : Goroutine τ → τ
  | .running t => t
  | .returned t _ => t
  | .panicked t _ => t

/-- Whether the goroutine is still running. -/
def Goroutine.isRunning {τ : Type} : Goroutine τ → Bool
  | .running _ => true
  | _ => false

/-- Whether the closure of the goroutine has returned. -/
def Goroutine.isReturned {τ : Type} : Goroutine τ → Bool
  | .returned _ _ => true
  | _ => false

/-- An `errgroup.Group` with its goroutines and the memory they share; `err` is the
first non-nil error a goroutine returned (what `Wait` reports) and `crashed` is the
message of the panic that ended the process, if any. -/
structure Group (σ τ : Type) where
  shared : σ
  goroutines : List (Goroutine τ)
  err : Option Error
  crashed : Option String

/-- Goroutine `i` takes one step.  Nothing happens after a panic, for a goroutine that
has ended, or for one that waits. -/
def Group.stepAt {σ τ : Type} (step : τ → σ → Step σ τ) (i : Nat) (g : Group σ τ) :
    Group σ τ :=
  match g.crashed with
  | some _ => g
  | none =>
    match g.goroutines[i]? with
    | some (.running t) =>
      match step t g.shared with
      | .next m t1 => { g with shared := m, goroutines := g.goroutines.set i (.running t1) }
      | .ret m t1 err =>
        { g with
          shared := m
          goroutines := g.goroutines.set i (.returned t1 err)
          err := match g.err with
            | some first => some first
            | none => err }
      | .panic m t1 msg =>
        { g with
          shared := m
          goroutines := g.goroutines.set i (.panicked t1 msg)
          crashed := some msg }
      | .wait => g
    | _ => g

/-- The goroutines take steps in the order of the schedule. -/
def Group.run {σ τ : Type} (step : τ → σ → Step σ τ) (sched : List Nat) (g : Group σ τ) :
    Group σ τ :=
  sched.foldl (fun g i => g.stepAt step i) g

/-- Goroutine `i` takes `n` steps in a row. -/
def Group.stepTimes {σ τ : Type} (step : τ → σ → Step σ τ) (i : Nat) :
    Nat → Group σ τ → Group σ τ
  | 0, g => g
  | n + 1, g => Group.stepTimes step i n (g.stepAt step i)

/-- The number of steps goroutine `i` is given by `bound`, none if it has ended. -/
def Group.budget {σ τ : Type} (bound : τ → Nat) (i : Nat) (g : Group σ τ) : Nat :=
  match g.goroutines[i]? with
  | some (.running t) => bound t
  | _ => 0

/-- Each goroutine in turn takes the steps that `bound` gives it. -/
def Group.pass {σ τ : Type} (step : τ → σ → Step σ τ) (bound : τ → Nat) (g : Group σ τ) :
    Group σ τ :=
  (List.range g.goroutines.length).foldl
    (fun g i => g.stepTimes step i (g.budget bound i)) g

/-- The rest of a run once the schedule is used up: the goroutines run to their end, in
two passes (a goroutine that waited in the first pass ends in the second). -/
def Group.drain {σ τ : Type} (step : τ → σ → Step σ τ) (bound : τ → Nat) (g : Group σ τ) :
    Group σ τ :=
  (g.pass step bound).pass step bound

/-- The end of `g.Wait()`: the process has died of a panic, or every closure has returned
and `Wait` returns the first error; goroutines that never end are the deadlock that the
runtime reports. -/
def Group.wait {σ τ : Type} (g : Group σ τ) : Outcome (Option Error) :=
  match g.crashed with
  | some msg => .panicked msg
  | none =>
    if g.goroutines.all Goroutine.isReturned then .returned g.err
    else .panicked "all goroutines are asleep - deadlock!"

/-- Record the calls of `g.Go`, one per task. -/
def State.go (s : State) (tasks : List (Nat × String)) : State :=
  { s with trace := s.trace ++ tasks.map fun p => .Go p.1 p.2 }

/-! ### Discovery -/

/-- Where the closure of `getGreatestVersion` stands: before the configuration load and
before the listing call of `getLayerVersion`, before it reads `versions` for the append,
and before it writes the appended slice back. -/
inductive ProberPC where
  | config
  | list (cfg : Config)
  | read (version : Int)
  | write (version : Int) (versions : List Int)

/-- A goroutine of `getGreatestVersion` with the variables its closure captured. -/
structure Prober where
  layerName : String
  region : String
  pc : ProberPC

/-- The memory the goroutines of `getGreatestVersion` share: the program state and the
slice `versions`. -/
structure Discovery where
  state : State
  versions : List Int

/-- One step of the closure of `getGreatestVersion`.  The append
`versions = append(versions, version)` is not guarded by a lock: it reads the slice in
one step and writes the longer slice in another. -/
def getGreatestVersion.step (P : Provider) (t : Prober) (m : Discovery) :
    Step Discovery Prober :=
  match t.pc with
  | .config =>
    match P.LoadDefaultConfig m.state.trace t.region with
    | (cfg, some err) =>
      .ret { m with state := m.state.log (.LoadDefaultConfig t.region cfg (some err)) } t
        (some err)
    | (cfg, none) =>
      .next { m with state := m.state.log (.LoadDefaultConfig t.region cfg none) }
        { t with pc := .list cfg }
  | .list cfg =>
    let input : ListLayerVersionsInput := { LayerName := t.layerName, MaxItems := 1 }
    let layerVersionsResult := P.ListLayerVersions m.state.trace cfg input
    let m := { m with state := m.state.log (.ListLayerVersions cfg input layerVersionsResult) }
    match layerVersionsResult with
    | .error err => .ret m t (some err)
    | .ok out =>
      match out.LayerVersions with
      | [] =>
        .ret m t
          (some ("no layer meets the search criteria " ++ t.layerName ++ " - " ++ t.region))
      | item :: _ => .next m { t with pc := .read item.Version }
  | .read version => .next m { t with pc := .write version m.versions }
  | .write version versions => .ret { m with versions := versions ++ [version] } t none

/-- The steps a goroutine of `getGreatestVersion` has left at most. -/
def getGreatestVersion.bound (t : Prober) : Nat :=
  match t.pc with
  | .config => 4
  | .list _ => 3
  | .read _ => 2
  | .write _ _ => 1

/-- The group of `getGreatestVersion` when `g.Wait()` returns: every task is started,
the goroutines step as the schedule says and then run to their end. -/
def getGreatestVersion.group (P : Provider) (sched : List Nat) (s : State) :
    Group Discovery Prober :=
  let tasks := getGreatestVersion.tasks s.canonicalLayers
  let g : Group Discovery Prober :=
    { shared := { state := s.go tasks, versions := [] }
      goroutines := tasks.map fun p =>
        .running { layerName := (s.layerAt p.1).Name, region := p.2, pc := .config }
      err := none
      crashed := none }
  (g.run (getGreatestVersion.step P) sched).drain (getGreatestVersion.step P)
    getGreatestVersion.bound

/-- Function `getGreatestVersion`: returns the greatest version of a layer across all regions. -/
def getGreatestVersion (P : Provider) (sched : List Nat) (s : State) :
    State × Outcome (Except Error Int) :=
  let g := getGreatestVersion.group P sched s
  match g.wait with
  | .panicked msg => (g.shared.state, .panicked msg)
  | .returned (some err) => (g.shared.state, .returned (.error err))
  | .returned none =>
    match g.shared.versions.insertionSort (fun a b => a ≥ b) with
    | [] => (g.shared.state, .panicked "index out of range [0] with length 0")
    | v :: _ => (g.shared.state, .returned (.ok v))

/-! ### Harmonization -/

/-- Where the closure of `balanceRegions`, a call of `balanceRegionToVersion`, stands:
before each call it makes.  `probeConfig` and `probeList` are the two calls of
`getLayerVersion`, `config` is the configuration load of the region, `loop` is the loop
test with the entry of `Once.Do`, the `fetch` points are the calls of the closure of
`downloadCanonicalLayerZip` (with `innerErr` as it stands), and `publish` and `grant`
are the two calls of the loop body. -/
inductive HarmonizerPC where
  | probeConfig
  | probeList (cfg : Config)
  | config (currentLayerVersion : Int)
  | loop (cfg : Config) (i : Int)
  | fetchConfig (cfg : Config) (i : Int)
  | fetchProbeConfig (cfg : Config) (i : Int) (cfgc : Config) (innerErr : Option Error)
  | fetchProbeList (cfg : Config) (i : Int) (cfgc : Config) (innerErr : Option Error)
      (cfgp : Config)
  | fetchMetadata (cfg : Config) (i : Int) (cfgc : Config) (innerErr : Option Error)
      (version : Int)
  | fetchGet (cfg : Config) (i : Int) (innerErr : Option Error) (s3LayerUrl : String)
  | publish (cfg : Config) (i : Int) (payload : Bytes)
  | grant (cfg : Config) (i : Int) (version : Int)

/-- A goroutine of `balanceRegions` with the variables its closure captured and the
events it has issued itself. -/
structure Harmonizer where
  region : String
  layer : Nat
  maxVersion : Int
  pc : HarmonizerPC
  events : List Event

/-- The memory the goroutines of `balanceRegions` share: the program state, and the
layers whose `LayerContentOnce` is held by a goroutine running its closure. -/
structure Memory where
  state : State
  held : List Nat

/-- Issue an event: it enters the trace of the program. -/
def Memory.emit (m : Memory) (e : Event) : Memory := { m with state := m.state.log e }

/-- Issue an event: the goroutine keeps it among its own. -/
def Harmonizer.emit (t : Harmonizer) (e : Event) (pc : HarmonizerPC) : Harmonizer :=
  { t with pc := pc, events := t.events ++ [e] }

/-- The closure of `Once.Do` is left: the guard has fired and is released. -/
def Memory.release (m : Memory) (layer : Nat) : Memory :=
  { state := m.state.setLayer layer { m.state.layerAt layer with LayerContentOnce := true }
    held := m.held.erase layer }

/-- One step of `balanceRegionToVersion` in a goroutine of `balanceRegions`. -/
def balanceRegionToVersion.step (P : Provider) (t : Harmonizer) (m : Memory) :
    Step Memory Harmonizer :=
  match t.pc with
  | .probeConfig =>
    match P.LoadDefaultConfig m.state.trace t.region with
    | (cfg, some err) =>
      .ret (m.emit (.LoadDefaultConfig t.region cfg (some err)))
        (t.emit (.LoadDefaultConfig t.region cfg (some err)) t.pc)
        (some ("error getting layer version: " ++ err))
    | (cfg, none) =>
      .next (m.emit (.LoadDefaultConfig t.region cfg none))
        (t.emit (.LoadDefaultConfig t.region cfg none) (.probeList cfg))
  | .probeList cfg =>
    let input : ListLayerVersionsInput :=
      { LayerName := (m.state.layerAt t.layer).Name, MaxItems := 1 }
    let layerVersionsResult := P.ListLayerVersions m.state.trace cfg input
    let e := Event.ListLayerVersions cfg input layerVersionsResult
    match layerVersionsResult with
    | .error err => .ret (m.emit e) (t.emit e t.pc) (some ("error getting layer version: " ++ err))
    | .ok out =>
      match out.LayerVersions with
      | [] =>
        .ret (m.emit e) (t.emit e t.pc)
          (some ("error getting layer version: " ++
            ("no layer meets the search criteria " ++ (m.state.layerAt t.layer).Name ++ " - " ++
              t.region)))
      | item :: _ => .next (m.emit e) (t.emit e (.config item.Version))
  | .config currentLayerVersion =>
    match P.LoadDefaultConfig m.state.trace t.region with
    | (cfg, some err) =>
      .ret (m.emit (.LoadDefaultConfig t.region cfg (some err)))
        (t.emit (.LoadDefaultConfig t.region cfg (some err)) t.pc) (some err)
    | (cfg, none) =>
      .next (m.emit (.LoadDefaultConfig t.region cfg none))
        (t.emit (.LoadDefaultConfig t.region cfg none) (.loop cfg currentLayerVersion))
  | .loop cfg i =>
    if i < t.maxVersion then
      if (m.state.layerAt t.layer).LayerContentOnce then
        .next m { t with pc := .publish cfg i (m.state.layerAt t.layer).LayerContent }
      else if m.held.contains t.layer then
        .wait
      else
        .next { m with held := t.layer :: m.held } { t with pc := .fetchConfig cfg i }
    else
      .ret m t none
  | .fetchConfig cfg i =>
    match P.LoadDefaultConfig m.state.trace "eu-central-1" with
    | (cfgc, err) =>
      .next (m.emit (.LoadDefaultConfig "eu-central-1" cfgc err))
        (t.emit (.LoadDefaultConfig "eu-central-1" cfgc err) (.fetchProbeConfig cfg i cfgc err))
  | .fetchProbeConfig cfg i cfgc innerErr =>
    match P.LoadDefaultConfig m.state.trace "eu-central-1" with
    | (cfgp, some err) =>
      .next (m.emit (.LoadDefaultConfig "eu-central-1" cfgp (some err)))
        (t.emit (.LoadDefaultConfig "eu-central-1" cfgp (some err))
          (.fetchMetadata cfg i cfgc
            (some ("error getting eu-central-1 layer version: " ++ err)) 0))
    | (cfgp, none) =>
      .next (m.emit (.LoadDefaultConfig "eu-central-1" cfgp none))
        (t.emit (.LoadDefaultConfig "eu-central-1" cfgp none)
          (.fetchProbeList cfg i cfgc innerErr cfgp))
  | .fetchProbeList cfg i cfgc innerErr cfgp =>
    let input : ListLayerVersionsInput :=
      { LayerName := (m.state.layerAt t.layer).Name, MaxItems := 1 }
    let layerVersionsResult := P.ListLayerVersions m.state.trace cfgp input
    let e := Event.ListLayerVersions cfgp input layerVersionsResult
    match layerVersionsResult with
    | .error err =>
      .next (m.emit e)
        (t.emit e (.fetchMetadata cfg i cfgc
          (some ("error getting eu-central-1 layer version: " ++ err)) 0))
    | .ok out =>
      match out.LayerVersions with
      | [] =>
        .next (m.emit e)
          (t.emit e (.fetchMetadata cfg i cfgc
            (some ("error getting eu-central-1 layer version: " ++
              ("no layer meets the search criteria " ++ (m.state.layerAt t.layer).Name ++
                " - " ++ "eu-central-1"))) 0))
      | item :: _ => .next (m.emit e) (t.emit e (.fetchMetadata cfg i cfgc innerErr item.Version))
  | .fetchMetadata cfg i cfgc innerErr version =>
    let input : GetLayerVersionInput :=
      { LayerName := (m.state.layerAt t.layer).Name, VersionNumber := version }
    let getLayerVersionResult := P.GetLayerVersion m.state.trace cfgc input
    let e := Event.GetLayerVersion cfgc input getLayerVersionResult
    match getLayerVersionResult with
    | .error _ => .panic ((m.emit e).release t.layer) (t.emit e t.pc) "nil pointer dereference"
    | .ok out =>
      match out.Content with
      | none => .panic ((m.emit e).release t.layer) (t.emit e t.pc) "nil pointer dereference"
      | some content =>
        match content.Location with
        | none => .panic ((m.emit e).release t.layer) (t.emit e t.pc) "nil pointer dereference"
        | some s3LayerUrl => .next (m.emit e) (t.emit e (.fetchGet cfg i innerErr s3LayerUrl))
  | .fetchGet cfg i innerErr s3LayerUrl =>
    match P.Get m.state.trace s3LayerUrl with
    | (resp, err) =>
      let e := Event.Get s3LayerUrl resp err
      let innerErr := match err with
        | some err => some err
        | none => innerErr
      match resp with
      | none => .panic ((m.emit e).release t.layer) (t.emit e t.pc) "nil pointer dereference"
      | some resp =>
        match ReadAll resp.Body with
        | (body, err) =>
          let innerErr := match err with
            | some err => some err
            | none => innerErr
          let m := m.emit e
          let m := { m with state :=
            m.state.setLayer t.layer { m.state.layerAt t.layer with LayerContent := body } }
          match innerErr with
          | some err =>
            .ret (m.release t.layer) (t.emit e t.pc)
              (some ("error downloading canonical zip: " ++ err))
          | none =>
            .next (m.release t.layer)
              (t.emit e (.publish cfg i (m.state.layerAt t.layer).LayerContent))
  | .publish cfg i payload =>
    let input := publishInput t.region (m.state.layerAt t.layer) payload
    let r := P.PublishLayerVersion m.state.trace cfg input
    let e := Event.PublishLayerVersion cfg input r
    match r with
    | .error err => .ret (m.emit e) (t.emit e t.pc) (some ("error publishing layer version: " ++ err))
    | .ok layerVersionResponse =>
      .next (m.emit e) (t.emit e (.grant cfg i layerVersionResponse.Version))
  | .grant cfg i version =>
    let input := permissionInput (m.state.layerAt t.layer) version
    let r := P.AddLayerVersionPermission m.state.trace cfg input
    let e := Event.AddLayerVersionPermission cfg input r
    match r with
    | .error err => .ret (m.emit e) (t.emit e t.pc) (some ("error making layer public: " ++ err))
    | .ok _ => .next (m.emit e) (t.emit e (.loop cfg (i + 1)))

/-- The steps a goroutine of `balanceRegions` has left at most when it never waits;
before the loop, the steps up to the loop. -/
def balanceRegionToVersion.bound (t : Harmonizer) : Nat :=
  match t.pc with
  | .probeConfig => 3
  | .probeList _ => 2
  | .config _ => 1
  | .loop _ i => 8 * (t.maxVersion - i).toNat + 1
  | .fetchConfig _ i => 8 * (t.maxVersion - (i + 1)).toNat + 8
  | .fetchProbeConfig _ i _ _ => 8 * (t.maxVersion - (i + 1)).toNat + 7
  | .fetchProbeList _ i _ _ _ => 8 * (t.maxVersion - (i + 1)).toNat + 6
  | .fetchMetadata _ i _ _ _ => 8 * (t.maxVersion - (i + 1)).toNat + 5
  | .fetchGet _ i _ _ => 8 * (t.maxVersion - (i + 1)).toNat + 4
  | .publish _ i _ => 8 * (t.maxVersion - (i + 1)).toNat + 3
  | .grant _ i _ => 8 * (t.maxVersion - (i + 1)).toNat + 2

/-- The group of `balanceRegions` when `g.Wait()` returns. -/
def balanceRegions.group (P : Provider) (sched : List Nat) (s : State) (maxVersion : Int) :
    Group Memory Harmonizer :=
  let tasks := balanceRegions.tasks s.canonicalLayers
  let g : Group Memory Harmonizer :=
    { shared := { state := s.go tasks, held := [] }
      goroutines := tasks.map fun p =>
        .running
          { region := p.2, layer := p.1, maxVersion := maxVersion, pc := .probeConfig,
            events := [] }
      err := none
      crashed := none }
  (g.run (balanceRegionToVersion.step P) sched).drain (balanceRegionToVersion.step P)
    balanceRegionToVersion.bound

/-- Function `balanceRegions`: brings every region up to `maxVersion`. -/
def balanceRegions (P : Provider) (sched : List Nat) (s : State) (maxVersion : Int) :
    State × Outcome (Option Error) :=
  ((balanceRegions.group P sched s maxVersion).shared.state,
    (balanceRegions.group P sched s maxVersion).wait)

/-- Function `main`: the state at exit and the exit status (2 for a panic), with the
schedules of the two groups. -/
def main (P : Provider) (sched1 sched2 : List Nat) (s : State) : State × Nat :=
  match getGreatestVersion P sched1 s with
  | (s, .panicked _) => (s, 2)
  | (s, .returned (.error _)) => (s, 1)
  | (s, .returned (.ok greatestVersion)) =>
    match balanceRegions P sched2 s greatestVersion with
    | (s, .panicked _) => (s, 2)
    | (s, .returned (some _)) => (s, 1)
    | (s, .returned none) => (s, 0)

/-! ## Observations on traces -/

/-- A publish call. -/
def Event.isPublish : Event → Bool
  | .PublishLayerVersion _ _ _ => true
  | _ => false

/-- A permission-grant call. -/
def Event.isGrant : Event → Bool
  | .AddLayerVersionPermission _ _ _ => true
  | _ => false

/-- A call that changes the provider: a publish or a permission grant. -/
def Event.isWrite (e : Event) : Bool := e.isPublish || e.isGrant

/-- A version-metadata request (for the download location). -/
def Event.isGetLayerVersion : Event → Bool
  | .GetLayerVersion _ _ _ => true
  | _ => false

/-- An HTTP GET. -/
def Event.isGet : Event → Bool
  | .Get _ _ _ => true
  | _ => false

/-- A call of the content download: the metadata request or the HTTP GET. -/
def Event.isDownload (e : Event) : Bool := e.isGetLayerVersion || e.isGet

/-- A version-listing call (a probe). -/
def Event.isList : Event → Bool
  | .ListLayerVersions _ _ _ => true
  | _ => false

/-- The fields of a layer that are fixed at startup. -/
def LayerInfo.static (l : LayerInfo) : String × String × String :=
  (l.Name, l.Description, l.Architecture)

/-- A successful publish of `layerName` in `region`. -/
def Event.isPublished (layerName region : String) : Event → Bool
  | .PublishLayerVersion cfg input (.ok _) =>
    cfg.Region == region && input.LayerName == layerName
  | _ => false

/-- The number of versions of `layerName` published in `region` along a trace. -/
def publishedCount (tr : List Event) (layerName region : String) : Nat :=
  tr.countP (Event.isPublished layerName region)

/-- The probe of a layer in a region fails when its configuration is loaded at trace
`tr` and its listing call is made at trace `tr1`: the configuration does not load, or
the listing call fails, or it lists no version at all. -/
def probeFailsAt (P : Provider) (layerName region : String) (tr tr1 : List Event) : Bool :=
  match P.LoadDefaultConfig tr region with
  | (_, some _) => true
  | (cfg, none) =>
    match P.ListLayerVersions tr1 cfg { LayerName := layerName, MaxItems := 1 } with
    | .error _ => true
    | .ok out => out.LayerVersions.isEmpty

/-- From trace `tr` to `tr1` nothing but configuration and listing events happened: an
observation blind to these two kinds sees the same events in both. -/
def ProbesOnly (tr tr1 : List Event) : Prop :=
  ∀ q : Event → Bool, (∀ r c e, q (.LoadDefaultConfig r c e) = false) →
    (∀ c i r, q (.ListLayerVersions c i r) = false) → tr1.filter q = tr.filter q

/-- No provider call fails: the configuration loads, a listing call lists at least one
version, the metadata request yields a download location, the GET yields a body that
reads to its end, and publish and permission grant succeed. -/
structure Provider.NoFailure (P : Provider) : Prop where
  loadDefaultConfig : ∀ tr region, (P.LoadDefaultConfig tr region).2 = none
  listLayerVersions : ∀ tr cfg input, ∃ item rest,
    P.ListLayerVersions tr cfg input = .ok { LayerVersions := item :: rest }
  getLayerVersion : ∀ tr cfg input, ∃ url,
    P.GetLayerVersion tr cfg input = .ok { Content := some { Location := some url } }
  get : ∀ tr url, ∃ data,
    P.Get tr url = (some { Body := { data := data, err := none } }, none)
  publishLayerVersion : ∀ tr cfg input, ∃ out, P.PublishLayerVersion tr cfg input = .ok out
  addLayerVersionPermission : ∀ tr cfg input, P.AddLayerVersionPermission tr cfg input = .ok ()

/-- The content fetch for a layer cannot fail: the configuration of the canonical region
loads, the probe of the layer there returns a version, the metadata request yields a
download location and the GET yields a body that reads to its end. -/
structure FetchOK (P : Provider) (layerName : String) : Prop where
  loadDefaultConfig : ∀ tr, (P.LoadDefaultConfig tr "eu-central-1").2 = none
  probe : ∀ s, ∃ v, (getLayerVersion P s layerName "eu-central-1").2 = .ok v
  getLayerVersion : ∀ tr cfg input, ∃ url,
    P.GetLayerVersion tr cfg input = .ok { Content := some { Location := some url } }
  get : ∀ tr url, ∃ data,
    P.Get tr url = (some { Body := { data := data, err := none } }, none)

/-- The write events of completed rounds of the harmonizer loop, one round per entry
(the payload published and the output of the publish): the publish, then the grant for
the version the publish returned. -/
def rounds (cfg : Config) (region : String) (l : LayerInfo) :
    List (Bytes × PublishLayerVersionOutput) → List Event
  | [] => []
  | (payload, out) :: rs =>
    .PublishLayerVersion cfg (publishInput region l payload) (.ok out) ::
      .AddLayerVersionPermission cfg (permissionInput l out.Version) (.ok ()) ::
      rounds cfg region l rs

/-- The ways the harmonizer loop ends, each with the write events that follow its
completed rounds and with what the loop returns: the target is reached; the fetcher
fails or panics; a publish fails; a publish succeeds and its grant fails.  Every payload
of a publish satisfies `good`. -/
inductive LoopEnd (cfg : Config) (region : String) (l : LayerInfo) (good : Bytes → Prop) :
    List Event → Outcome (Option Error) → Prop
  | reached : LoopEnd cfg region l good [] (.returned none)
  | fetchFailed (e : Error) :
    LoopEnd cfg region l good [] (.returned (some ("error downloading canonical zip: " ++ e)))
  | fetchPanicked (msg : String) : LoopEnd cfg region l good [] (.panicked msg)
  | publishFailed (payload : Bytes) (e : Error) (h : good payload) :
    LoopEnd cfg region l good
      [.PublishLayerVersion cfg (publishInput region l payload) (.error e)]
      (.returned (some ("error publishing layer version: " ++ e)))
  | grantFailed (payload : Bytes) (out : PublishLayerVersionOutput) (e : Error)
      (h : good payload) :
    LoopEnd cfg region l good
      [.PublishLayerVersion cfg (publishInput region l payload) (.ok out),
        .AddLayerVersionPermission cfg (permissionInput l out.Version) (.error e)]
      (.returned (some ("error making layer public: " ++ e)))

/-- A call of `g.Go`. -/
def Event.isGo : Event → Bool
  | .Go _ _ => true
  | _ => false

/-! ## Providers -/

/-- The provider of the end-to-end claim, a map from (layer, region) to the latest
version number: the pair starts at `initial` (0: no version yet), each publish raises it
by one and returns the new number, and nothing else writes.  No call fails; a pair
without versions lists none.  The download location of a layer is its name and `zip` is
what a GET yields. -/
def mapProvider (initial : String → String → Nat) (zip : String → Bytes) : Provider where
  LoadDefaultConfig _ region := ({ Region := region }, none)
  ListLayerVersions tr cfg input :=
    match initial input.LayerName cfg.Region + publishedCount tr input.LayerName cfg.Region with
    | 0 => .ok { LayerVersions := [] }
    | v + 1 => .ok { LayerVersions := [{ Version := ((v + 1 : Nat) : Int) }] }
  GetLayerVersion _ _ input := .ok { Content := some { Location := some input.LayerName } }
  Get _ url := (some { Body := { data := zip url, err := none } }, none)
  PublishLayerVersion tr cfg input :=
    .ok { Version :=
      ((initial input.LayerName cfg.Region + publishedCount tr input.LayerName cfg.Region + 1 : Nat)
        : Int) }
  AddLayerVersionPermission _ _ _ := .ok ()

/-- A provider at version 3 everywhere whose download breaks off: the body yields two
bytes and then a read error. -/
def truncatedBodyProvider : Provider :=
  { mapProvider (fun _ _ => 3) (fun _ => []) with
    Get := fun _ _ => (some { Body := { data := [1, 2], err := some "unexpected EOF" } }, none) }

/-- A provider at version 3 everywhere whose body read fails before the first byte. -/
def failedBodyProvider : Provider :=
  { mapProvider (fun _ _ => 3) (fun _ => []) with
    Get := fun _ _ => (some { Body := { data := [], err := some "connection reset" } }, none) }

/-- A provider at version 3 everywhere that refuses every listing call and every
version-metadata request. -/
def failedProbeProvider : Provider :=
  { mapProvider (fun _ _ => 3) (fun _ => [7]) with
    ListLayerVersions := fun _ _ _ => .error "AccessDenied"
    GetLayerVersion := fun _ _ _ => .error "AccessDenied" }

/-- A provider at version 3 everywhere that refuses the version-metadata request. -/
def failedMetadataProvider : Provider :=
  { mapProvider (fun _ _ => 3) (fun _ => [7]) with
    GetLayerVersion := fun _ _ _ => .error "AccessDenied" }

/-- A provider at version 3 everywhere that accepts the first publish of a run and
refuses every later one. -/
def failedPublishProvider : Provider :=
  { mapProvider (fun _ _ => 3) (fun _ => [9]) with
    PublishLayerVersion := fun tr _ _ =>
      if tr.countP Event.isPublish = 0 then .ok { Version := 4 } else .error "TooManyRequests" }

/-- A provider with the x86 layer at version 5 in af-south-1 and every other pair at
version 3, in which no call fails. -/
def raceProvider : Provider :=
  mapProvider (fun l r => if l = "AWSLambdaPowertoolsPythonV2" ∧ r = "af-south-1" then 5 else 3)
    (fun _ => [9])

/-! ## Observations on groups -/

/-- The records a group keeps: a goroutine that returned an error left a first error,
and a goroutine that panicked ended the process. -/
def Group.Kept {σ τ : Type} (g : Group σ τ) : Prop :=
  (∀ t e, Goroutine.returned t (some e) ∈ g.goroutines → g.err ≠ none) ∧
  (∀ t msg, Goroutine.panicked t msg ∈ g.goroutines → g.crashed ≠ none)

/-- Goroutine `i` has come to rest: the process has ended or the goroutine has. -/
def Group.Settled {σ τ : Type} (g : Group σ τ) (i : Nat) : Prop :=
  g.crashed ≠ none ∨ ∀ G, g.goroutines[i]? = some G → G.isRunning = false

/-- A goroutine of discovery whose probe is bound to fail while the write events of the
trace are `writes`: it has not listed yet and its listing call will fail or list nothing,
or it has returned an error. -/
def Prober.Fails (P : Provider) (writes : List Event) : Goroutine Prober → Prop
  | .running t =>
    match t.pc with
    | .config =>
      ∀ tr tr1 : List Event, tr.filter Event.isWrite = writes →
        tr1.filter Event.isWrite = writes → probeFailsAt P t.layerName t.region tr tr1 = true
    | .list cfg =>
      ∀ tr1 : List Event, tr1.filter Event.isWrite = writes →
        match P.ListLayerVersions tr1 cfg { LayerName := t.layerName, MaxItems := 1 } with
        | .error _ => True
        | .ok out => out.LayerVersions = []
    | .read _ => False
    | .write _ _ => False
  | .returned _ err => err ≠ none
  | .panicked _ _ => False

/-- What a step leaves behind: the shared memory and the goroutine after it, nothing for
a goroutine that waits. -/
def Step.result {σ τ : Type} : Step σ τ → Option (σ × Goroutine τ)
  | .next m t => some (m, .running t)
  | .ret m t err => some (m, .returned t err)
  | .panic m t msg => some (m, .panicked t msg)
  | .wait => none

/-- The steps a goroutine has left by `bound`, none once it has ended. -/
def Goroutine.left {τ : Type} (bound : τ → Nat) : Goroutine τ → Nat
  | .running t => bound t
  | _ => 0

/-- What the goroutines of `balanceRegions` keep of the memory they share, from the state
`s0` in which they start: the fixed fields of every layer, the trace so far, and the
`Go` events. -/
def Memory.Inv (s0 : State) (m : Memory) : Prop :=
  m.state.canonicalLayers.map LayerInfo.static = s0.canonicalLayers.map LayerInfo.static ∧
  s0.trace <+: m.state.trace ∧
  m.state.trace.filter Event.isGo = s0.trace.filter Event.isGo

/-- The write events with which a goroutine of `balanceRegions` may end after its
completed rounds, with the error it returns: none; a failed publish; a publish and its
failed grant. -/
def Harmonizer.End (cfg : Config) (region : String) (l : LayerInfo) (tail : List Event)
    (err : Option Error) : Prop :=
  tail = [] ∨
  (∃ payload e,
    tail = [.PublishLayerVersion cfg (publishInput region l payload) (.error e)] ∧
    err = some ("error publishing layer version: " ++ e)) ∨
  (∃ payload out e,
    tail = [.PublishLayerVersion cfg (publishInput region l payload) (.ok out),
      .AddLayerVersionPermission cfg (permissionInput l out.Version) (.error e)] ∧
    err = some ("error making layer public: " ++ e))

/-- The write events a goroutine of `balanceRegions` for layer `l` has issued, by where
it stands: none before the loop, completed rounds in the loop, completed rounds and a
publish before the grant, and completed rounds with one of the endings once it has
returned. -/
def Harmonizer.Log (l : LayerInfo) : Goroutine Harmonizer → Prop
  | .running t =>
    match t.pc with
    | .probeConfig => t.events.filter Event.isWrite = []
    | .probeList _ => t.events.filter Event.isWrite = []
    | .config _ => t.events.filter Event.isWrite = []
    | .loop cfg _ => ∃ rs, t.events.filter Event.isWrite = rounds cfg t.region l rs
    | .fetchConfig cfg _ => ∃ rs, t.events.filter Event.isWrite = rounds cfg t.region l rs
    | .fetchProbeConfig cfg _ _ _ =>
      ∃ rs, t.events.filter Event.isWrite = rounds cfg t.region l rs
    | .fetchProbeList cfg _ _ _ _ =>
      ∃ rs, t.events.filter Event.isWrite = rounds cfg t.region l rs
    | .fetchMetadata cfg _ _ _ _ =>
      ∃ rs, t.events.filter Event.isWrite = rounds cfg t.region l rs
    | .fetchGet cfg _ _ _ => ∃ rs, t.events.filter Event.isWrite = rounds cfg t.region l rs
    | .publish cfg _ _ => ∃ rs, t.events.filter Event.isWrite = rounds cfg t.region l rs
    | .grant cfg _ version =>
      ∃ rs payload out, out.Version = version ∧
        t.events.filter Event.isWrite = rounds cfg t.region l rs ++
          [.PublishLayerVersion cfg (publishInput t.region l payload) (.ok out)]
  | .returned t err =>
    ∃ cfg rs tail, t.events.filter Event.isWrite = rounds cfg t.region l rs ++ tail ∧
      Harmonizer.End cfg t.region l tail err
  | .panicked t _ => ∃ cfg rs, t.events.filter Event.isWrite = rounds cfg t.region l rs

/-- The goroutine has not entered the loop body yet: it is at one of the calls before the
loop or at the loop test. -/
def HarmonizerPC.isEntry : HarmonizerPC → Bool
  | .probeConfig => true
  | .probeList _ => true
  | .config _ => true
  | .loop _ _ => true
  | _ => false

/-- The goroutine is inside the closure of `Once.Do`. -/
def HarmonizerPC.isFetch : HarmonizerPC → Bool
  | .fetchConfig _ _ => true
  | .fetchProbeConfig _ _ _ _ => true
  | .fetchProbeList _ _ _ _ _ => true
  | .fetchMetadata _ _ _ _ _ => true
  | .fetchGet _ _ _ _ => true
  | _ => false

/-- The goroutine is running inside the closure of `Once.Do`. -/
def Goroutine.inFetch : Goroutine Harmonizer → Bool
  | .running t => t.pc.isFetch
  | _ => false

/-- Whether the guard of a layer has fired. -/
def Memory.once (m : Memory) (layer : Nat) : Bool := (m.state.layerAt layer).LayerContentOnce

/-- A goroutine that will have to wait at the loop test as things stand: it has not
entered the loop body, the guard of its layer has not fired and another goroutine holds
it. -/
def Harmonizer.Blocked (m : Memory) (t : Harmonizer) : Prop :=
  t.pc.isEntry = true ∧ m.once t.layer = false ∧ t.layer ∈ m.held

/-- How the guards are held in a group of `balanceRegions`: every goroutine is for a layer
that exists; a guard that is held is held by a goroutine running inside the closure of
`Once.Do` for that layer, and held once; a goroutine past the closure has seen the guard
fire. -/
def Guarded (g : Group Memory Harmonizer) : Prop :=
  (∀ G ∈ g.goroutines, G.task.layer < g.shared.state.canonicalLayers.length) ∧
  (∀ layer ∈ g.shared.held, ∃ (j : Nat) (t : Harmonizer), g.goroutines[j]? = some (.running t) ∧
    t.pc.isFetch = true ∧ t.layer = layer) ∧
  (∀ t, Goroutine.running t ∈ g.goroutines → t.pc.isEntry = false → t.pc.isFetch = false →
    g.shared.once t.layer = true) ∧
  g.shared.held.Nodup

/-- The goroutine is at the loop test. -/
def HarmonizerPC.isLoop : HarmonizerPC → Bool
  | .loop _ _ => true
  | _ => false

/-- Goroutine `i` has come to rest or stands at the loop test. -/
def AtLoop (g : Group Memory Harmonizer) (i : Nat) : Prop :=
  g.Settled i ∨ ∃ t : Harmonizer, g.goroutines[i]? = some (.running t) ∧ t.pc.isLoop = true

/-- A goroutine that runs alone goes from one place to another in steps none of which
waits, returns or panics. -/
inductive Steps {σ τ : Type} (step : τ → σ → Step σ τ) : τ → σ → τ → σ → Prop where
  | refl (t : τ) (m : σ) : Steps step t m t m
  | next {t t1 t2 : τ} {m m1 m2 : σ} (h : step t m = .next m1 t1)
      (hs : Steps step t1 m1 t2 m2) : Steps step t m t2 m2

/-- A goroutine that runs alone comes to its end: it returns or panics after steps none
of which waits, and leaves the shared memory `m1`. -/
inductive Runs {σ τ : Type} (step : τ → σ → Step σ τ) : τ → σ → σ → Goroutine τ → Prop where
  | ret {t t1 : τ} {m m1 : σ} {err : Option Error} (h : step t m = .ret m1 t1 err) :
    Runs step t m m1 (.returned t1 err)
  | panic {t t1 : τ} {m m1 : σ} {msg : String} (h : step t m = .panic m1 t1 msg) :
    Runs step t m m1 (.panicked t1 msg)
  | next {t t1 : τ} {m m1 m2 : σ} {G : Goroutine τ} (h : step t m = .next m1 t1)
      (hs : Runs step t1 m1 m2 G) : Runs step t m m2 G

/-- How the call that a goroutine runs has ended. -/
def Goroutine.outcome {τ : Type} : Goroutine τ → Outcome (Option Error)
  | .running _ => .panicked "all goroutines are asleep - deadlock!"
  | .returned _ err => .returned err
  | .panicked _ msg => .panicked msg

/-! ## Basic facts -/

@[simp] theorem State.log_trace (s : State) (e : Event) : (s.log e).trace = s.trace ++ [e] := rfl

@[simp] theorem State.log_canonicalLayers (s : State) (e : Event) :
    (s.log e).canonicalLayers = s.canonicalLayers := rfl

@[simp] theorem State.log_layerAt (s : State) (e : Event) (layer : Nat) :
    (s.log e).layerAt layer = s.layerAt layer := rfl

@[simp] theorem State.setLayer_trace (s : State) (layer : Nat) (l : LayerInfo) :
    (s.setLayer layer l).trace = s.trace := rfl

@[simp] theorem State.setLayer_canonicalLayers (s : State) (layer : Nat) (l : LayerInfo) :
    (s.setLayer layer l).canonicalLayers = s.canonicalLayers.set layer l := rfl

/-- A probe leaves the layers alone. -/
theorem getLayerVersion_canonicalLayers (P : Provider) (s : State) (layerName region : String) :
    (getLayerVersion P s layerName region).1.canonicalLayers = s.canonicalLayers := by
  unfold getLayerVersion
  split
  · rfl
  · dsimp only
    split
    · rfl
    · split <;> rfl

/-- A probe only appends events. -/
theorem getLayerVersion_grows (P : Provider) (s : State) (layerName region : String) :
    s.trace <+: (getLayerVersion P s layerName region).1.trace := by
  unfold getLayerVersion
  split
  · simp
  · dsimp only
    split
    · simp [List.append_assoc]
    · split <;> simp [List.append_assoc]

/-- A probe appends only configuration and listing events: any observation blind to
these sees the same trace before and after. -/
theorem getLayerVersion_filter (p : Event → Bool)
    (hp1 : ∀ r c e, p (.LoadDefaultConfig r c e) = false)
    (hp2 : ∀ c i r, p (.ListLayerVersions c i r) = false)
    (P : Provider) (s : State) (layerName region : String) :
    (getLayerVersion P s layerName region).1.trace.filter p = s.trace.filter p := by
  unfold getLayerVersion
  split
  · simp [hp1]
  · dsimp only
    split
    · simp [hp1, hp2]
    · split <;> simp [hp1, hp2]

/-- A probe issues at most one listing call. -/
theorem getLayerVersion_countP_isList (P : Provider) (s : State) (layerName region : String) :
    (getLayerVersion P s layerName region).1.trace.countP Event.isList ≤
      s.trace.countP Event.isList + 1 := by
  unfold getLayerVersion
  split
  · simp [Event.isList]
  · dsimp only
    split
    · simp [Event.isList]
    · split <;> simp [Event.isList]

/-- Once the guard has fired, the fetcher returns the cached bytes with a nil error and
does nothing else. -/
theorem downloadCanonicalLayerZip_once (P : Provider) (s : State) (layer : Nat)
    (h : (s.layerAt layer).LayerContentOnce = true) :
    downloadCanonicalLayerZip P s layer = (s, .returned ((s.layerAt layer).LayerContent, none)) := by
  unfold downloadCanonicalLayerZip
  simp [h]

/-- The fetcher only appends events. -/
theorem downloadCanonicalLayerZip_grows (P : Provider) (s : State) (layer : Nat) :
    s.trace <+: (downloadCanonicalLayerZip P s layer).1.trace := by
  unfold downloadCanonicalLayerZip
  split
  · simp
  · dsimp only
    obtain ⟨ext, hext⟩ := getLayerVersion_grows P
      (s.log (Event.LoadDefaultConfig "eu-central-1" (P.LoadDefaultConfig s.trace "eu-central-1").1
        (P.LoadDefaultConfig s.trace "eu-central-1").2))
      (s.layerAt layer).Name "eu-central-1"
    repeat' split
    all_goals simp [← hext, List.append_assoc]

/-- The fetcher appends only configuration, listing, metadata and HTTP events. -/
theorem downloadCanonicalLayerZip_filter (p : Event → Bool)
    (hp1 : ∀ r c e, p (.LoadDefaultConfig r c e) = false)
    (hp2 : ∀ c i r, p (.ListLayerVersions c i r) = false)
    (hp3 : ∀ c i r, p (.GetLayerVersion c i r) = false)
    (hp4 : ∀ u r e, p (.Get u r e) = false)
    (P : Provider) (s : State) (layer : Nat) :
    (downloadCanonicalLayerZip P s layer).1.trace.filter p = s.trace.filter p := by
  unfold downloadCanonicalLayerZip
  split
  · rfl
  · dsimp only
    repeat' split
    all_goals simp [hp1, hp2, hp3, hp4, getLayerVersion_filter p hp1 hp2]


/-- One call of the fetcher issues at most one probe, one metadata request and one
HTTP GET. -/
theorem downloadCanonicalLayerZip_counts (P : Provider) (s : State) (layer : Nat) :
    (downloadCanonicalLayerZip P s layer).1.trace.countP Event.isList ≤
        s.trace.countP Event.isList + 1 ∧
      (downloadCanonicalLayerZip P s layer).1.trace.countP Event.isGetLayerVersion ≤
        s.trace.countP Event.isGetLayerVersion + 1 ∧
      (downloadCanonicalLayerZip P s layer).1.trace.countP Event.isGet ≤
        s.trace.countP Event.isGet + 1 := by
  unfold downloadCanonicalLayerZip
  split
  · simp
  · generalize hc : P.LoadDefaultConfig s.trace "eu-central-1" = c
    obtain ⟨cfg, err⟩ := c
    simp only [State.log_layerAt]
    have hl := getLayerVersion_countP_isList P
      (s.log (Event.LoadDefaultConfig "eu-central-1" cfg err)) (s.layerAt layer).Name "eu-central-1"
    have hm := getLayerVersion_filter Event.isGetLayerVersion (fun _ _ _ => rfl) (fun _ _ _ => rfl) P
      (s.log (Event.LoadDefaultConfig "eu-central-1" cfg err)) (s.layerAt layer).Name "eu-central-1"
    have hg := getLayerVersion_filter Event.isGet (fun _ _ _ => rfl) (fun _ _ _ => rfl) P
      (s.log (Event.LoadDefaultConfig "eu-central-1" cfg err)) (s.layerAt layer).Name "eu-central-1"
    generalize getLayerVersion P
      (s.log (Event.LoadDefaultConfig "eu-central-1" cfg err)) (s.layerAt layer).Name "eu-central-1" = g
      at hl hm hg ⊢
    obtain ⟨s2, r⟩ := g
    simp only [List.countP_eq_length_filter, State.log_trace, List.filter_append,
      List.length_append] at hl hm hg ⊢
    repeat' split
    all_goals simp_all [Event.isList, Event.isGetLayerVersion, Event.isGet]

/-- The fetcher writes only the guard and the content of its own layer: every layer keeps
its name, description and architecture. -/
theorem downloadCanonicalLayerZip_static (P : Provider) (s : State) (layer : Nat) :
    (downloadCanonicalLayerZip P s layer).1.canonicalLayers.map LayerInfo.static =
      s.canonicalLayers.map LayerInfo.static := by
  have hset : ∀ (ls : List LayerInfo) (l : LayerInfo), l.static = (ls.getD layer default).static →
      (ls.set layer l).map LayerInfo.static = ls.map LayerInfo.static := by
    intro ls l hl
    apply List.ext_getElem
    · simp
    · intro n h1 h2
      simp only [List.getElem_map, List.getElem_set]
      split
      · next h => subst h; rw [hl]; simp at h2; simp [List.getD_eq_getElem?_getD, h2]
      · rfl
  unfold downloadCanonicalLayerZip
  split
  · rfl
  · generalize hc : P.LoadDefaultConfig s.trace "eu-central-1" = c
    obtain ⟨cfg, err⟩ := c
    simp only [State.log_layerAt]
    have hl := getLayerVersion_canonicalLayers P
      (s.log (Event.LoadDefaultConfig "eu-central-1" cfg err)) (s.layerAt layer).Name "eu-central-1"
    generalize getLayerVersion P
      (s.log (Event.LoadDefaultConfig "eu-central-1" cfg err)) (s.layerAt layer).Name "eu-central-1" = g
      at hl ⊢
    obtain ⟨s2, r⟩ := g
    simp only [State.log_canonicalLayers] at hl
    repeat' split
    all_goals
      simp only [State.setLayer_canonicalLayers, State.log_canonicalLayers, State.layerAt, hl]
      repeat rw [hset]
      all_goals simp [LayerInfo.static, List.getD_eq_getElem?_getD, List.getElem?_set]

/-- The fetcher leaves every other layer as it was. -/
theorem downloadCanonicalLayerZip_others (P : Provider) (s : State) (layer j : Nat)
    (hj : j ≠ layer) :
    (downloadCanonicalLayerZip P s layer).1.layerAt j = s.layerAt j := by
  unfold downloadCanonicalLayerZip
  split
  · rfl
  · generalize hc : P.LoadDefaultConfig s.trace "eu-central-1" = c
    obtain ⟨cfg, err⟩ := c
    simp only [State.log_layerAt]
    have hl := getLayerVersion_canonicalLayers P
      (s.log (Event.LoadDefaultConfig "eu-central-1" cfg err)) (s.layerAt layer).Name "eu-central-1"
    generalize getLayerVersion P
      (s.log (Event.LoadDefaultConfig "eu-central-1" cfg err)) (s.layerAt layer).Name "eu-central-1" = g
      at hl ⊢
    obtain ⟨s2, r⟩ := g
    simp only [State.log_canonicalLayers] at hl
    repeat' split
    all_goals
      simp [State.layerAt, hl, List.getD_eq_getElem?_getD, List.getElem?_set, Ne.symm hj]

/-- After any call of the fetcher the guard of its layer has fired. -/
theorem downloadCanonicalLayerZip_done (P : Provider) (s : State) (layer : Nat)
    (hl : layer < s.canonicalLayers.length) :
    ((downloadCanonicalLayerZip P s layer).1.layerAt layer).LayerContentOnce = true := by
  unfold downloadCanonicalLayerZip
  split
  · assumption
  · generalize hc : P.LoadDefaultConfig s.trace "eu-central-1" = c
    obtain ⟨cfg, err⟩ := c
    simp only [State.log_layerAt]
    have hg := getLayerVersion_canonicalLayers P
      (s.log (Event.LoadDefaultConfig "eu-central-1" cfg err)) (s.layerAt layer).Name "eu-central-1"
    generalize getLayerVersion P
      (s.log (Event.LoadDefaultConfig "eu-central-1" cfg err)) (s.layerAt layer).Name "eu-central-1" = g
      at hg ⊢
    obtain ⟨s2, r⟩ := g
    simp only [State.log_canonicalLayers] at hg
    repeat' split
    all_goals
      simp [State.layerAt, hg, List.getD_eq_getElem?_getD, List.getElem?_set, hl]

/-- The bytes the fetcher returns are the bytes in the cache of its layer. -/
theorem downloadCanonicalLayerZip_content (P : Provider) (s s1 : State) (layer : Nat)
    (b : Bytes) (e : Option Error)
    (h : downloadCanonicalLayerZip P s layer = (s1, .returned (b, e))) :
    (s1.layerAt layer).LayerContent = b := by
  unfold downloadCanonicalLayerZip at h
  split at h
  · simp only [Prod.mk.injEq, Outcome.returned.injEq] at h
    obtain ⟨rfl, rfl, _⟩ := h
    rfl
  · generalize hc : P.LoadDefaultConfig s.trace "eu-central-1" = c at h
    obtain ⟨cfg, err⟩ := c
    simp only [State.log_layerAt] at h
    generalize getLayerVersion P
      (s.log (Event.LoadDefaultConfig "eu-central-1" cfg err)) (s.layerAt layer).Name "eu-central-1" = g
      at h
    obtain ⟨s2, r⟩ := g
    repeat' split at h
    all_goals
      simp only [Prod.mk.injEq, Outcome.returned.injEq, reduceCtorEq, and_false] at h
    all_goals
      obtain ⟨rfl, rfl, _⟩ := h
      simp [State.layerAt, List.getD_eq_getElem?_getD, List.getElem?_set]
      split <;> simp_all

/-- With the guard fired, any number of calls return the cached bytes and change nothing. -/
theorem downloadTimes_once (P : Provider) (layer : Nat) (n : Nat) (s : State)
    (h : (s.layerAt layer).LayerContentOnce = true) :
    downloadTimes P layer n s =
      (s, List.replicate n (.returned ((s.layerAt layer).LayerContent, none))) := by
  induction n with
  | zero => rfl
  | succ n ih =>
    simp only [downloadTimes, downloadCanonicalLayerZip_once P s layer h, ih, List.replicate_succ]

/-! ## Probes -/

theorem ProbesOnly.refl (tr : List Event) : ProbesOnly tr tr := fun _ _ _ => rfl

theorem ProbesOnly.trans {a b c : List Event} (h1 : ProbesOnly a b) (h2 : ProbesOnly b c) :
    ProbesOnly a c := fun q hq1 hq2 => (h2 q hq1 hq2).trans (h1 q hq1 hq2)

theorem ProbesOnly.isWrite {a b : List Event} (h : ProbesOnly a b) :
    b.filter Event.isWrite = a.filter Event.isWrite :=
  h _ (fun _ _ _ => rfl) (fun _ _ _ => rfl)

theorem ProbesOnly.isDownload {a b : List Event} (h : ProbesOnly a b) :
    b.filter Event.isDownload = a.filter Event.isDownload :=
  h _ (fun _ _ _ => rfl) (fun _ _ _ => rfl)

theorem getLayerVersion_probesOnly (P : Provider) (s : State) (layerName region : String) :
    ProbesOnly s.trace (getLayerVersion P s layerName region).1.trace :=
  fun q h1 h2 => getLayerVersion_filter q h1 h2 P s layerName region

/-- The tasks of a phase are the pairs of a layer and a configured region that the
exclusion test lets through. -/
theorem mem_tasks (layers : List LayerInfo) (idx : Nat) (region : String) :
    (idx, region) ∈ getGreatestVersion.tasks layers ↔
      idx < layers.length ∧ region ∈ regions ∧ excluded (layers.getD idx default) region = false := by
  simp only [getGreatestVersion.tasks, List.mem_flatMap, List.mem_range, List.mem_map,
    List.mem_filter, Prod.mk.injEq, Bool.not_eq_true', exists_eq_right_right]

/-- Both phases start the same tasks. -/
theorem balanceRegions_tasks_eq (layers : List LayerInfo) :
    balanceRegions.tasks layers = getGreatestVersion.tasks layers := rfl

/-- The published versions can be counted among the write events. -/
theorem publishedCount_eq_filter (tr : List Event) (layerName region : String) :
    publishedCount tr layerName region =
      (tr.filter Event.isWrite).countP (Event.isPublished layerName region) := by
  rw [publishedCount, List.countP_filter]
  congr 1
  funext e
  cases e <;> simp [Event.isPublished, Event.isWrite, Event.isPublish, Event.isGrant]

/-- Events that are not writes do not change the published versions. -/
theorem publishedCount_congr (tr tr1 : List Event) (layerName region : String)
    (h : tr1.filter Event.isWrite = tr.filter Event.isWrite) :
    publishedCount tr1 layerName region = publishedCount tr layerName region := by
  rw [publishedCount_eq_filter, publishedCount_eq_filter, h]

/-- The probe against the map provider reads the map: the initial version plus the
publishes so far; a pair at zero is an error. -/
theorem getLayerVersion_mapProvider (initial : String → String → Nat) (zip : String → Bytes)
    (s : State) (layerName region : String) :
    (getLayerVersion (mapProvider initial zip) s layerName region).2 =
      match initial layerName region + publishedCount s.trace layerName region with
      | 0 => .error ("no layer meets the search criteria " ++ layerName ++ " - " ++ region)
      | v + 1 => .ok ((v + 1 : Nat) : Int) := by
  have hc : publishedCount (s.trace ++ [Event.LoadDefaultConfig region { Region := region } none])
      layerName region = publishedCount s.trace layerName region := by
    simp [publishedCount, Event.isPublished]
  simp only [getLayerVersion, mapProvider, State.log_trace, hc]
  cases initial layerName region + publishedCount s.trace layerName region <;> rfl

/-- The configured layers, in any cache state, have a non-empty task list. -/
theorem tasks_ne_nil (layers : List LayerInfo)
    (hcfg : layers.map LayerInfo.static = canonicalLayers.map LayerInfo.static) :
    getGreatestVersion.tasks layers ≠ [] := by
  have hlen : layers.length = 2 := by
    simpa using congrArg List.length hcfg
  have hmem : (0, "af-south-1") ∈ getGreatestVersion.tasks layers := by
    rw [mem_tasks]
    refine ⟨by omega, by decide, ?_⟩
    rcases hs : layers with _ | ⟨l, ls⟩
    · rw [hs] at hlen; simp at hlen
    · rw [hs] at hcfg
      simp [canonicalLayers, LayerInfo.static] at hcfg
      simp [excluded, hcfg.1.2.2, ArchitectureArm64, ArchitectureX8664]
  intro h
  rw [h] at hmem
  simp at hmem

/-- The probe against the map provider of a pair that has a version returns it. -/
theorem getLayerVersion_mapProvider_pos (initial : String → String → Nat) (zip : String → Bytes)
    (s : State) (layerName region : String)
    (h : 1 ≤ initial layerName region + publishedCount s.trace layerName region) :
    (getLayerVersion (mapProvider initial zip) s layerName region).2 =
      .ok ((initial layerName region + publishedCount s.trace layerName region : Nat) : Int) := by
  rw [getLayerVersion_mapProvider]
  cases hv : initial layerName region + publishedCount s.trace layerName region with
  | zero => omega
  | succ v => rfl

/-! ## Harmonizer -/

/-- With no failing call a probe returns a version. -/
theorem getLayerVersion_noFailure (P : Provider) (hP : P.NoFailure) (s : State)
    (layerName region : String) : ∃ v, (getLayerVersion P s layerName region).2 = .ok v := by
  unfold getLayerVersion
  have hc := hP.loadDefaultConfig s.trace region
  rcases hcfg : P.LoadDefaultConfig s.trace region with ⟨cfg, err⟩
  rw [hcfg] at hc
  simp only at hc
  subst hc
  obtain ⟨item, rest, hl⟩ := hP.listLayerVersions
    (s.log (Event.LoadDefaultConfig region cfg none)).trace cfg
    { LayerName := layerName, MaxItems := 1 }
  simp only [hl]
  exact ⟨_, rfl⟩

/-- With no failing call the content fetch of any layer cannot fail. -/
theorem Provider.NoFailure.fetchOK {P : Provider} (hP : P.NoFailure) (layerName : String) :
    FetchOK P layerName where
  loadDefaultConfig := fun tr => hP.loadDefaultConfig tr _
  probe := fun s => getLayerVersion_noFailure P hP s layerName _
  getLayerVersion := hP.getLayerVersion
  get := hP.get

/-- When the content fetch cannot fail the fetcher returns bytes and a nil error. -/
theorem downloadCanonicalLayerZip_ok (P : Provider) (s : State) (layer : Nat)
    (hP : FetchOK P (s.layerAt layer).Name) :
    ∃ b, (downloadCanonicalLayerZip P s layer).2 = .returned (b, none) := by
  unfold downloadCanonicalLayerZip
  split
  · exact ⟨_, rfl⟩
  · have hc := hP.loadDefaultConfig s.trace
    rcases hcfg : P.LoadDefaultConfig s.trace "eu-central-1" with ⟨cfg, err⟩
    rw [hcfg] at hc
    simp only at hc
    subst hc
    simp only [State.log_layerAt]
    obtain ⟨v, hv⟩ := hP.probe (s.log (Event.LoadDefaultConfig "eu-central-1" cfg none))
    generalize getLayerVersion P
      (s.log (Event.LoadDefaultConfig "eu-central-1" cfg none)) (s.layerAt layer).Name "eu-central-1" = g
      at hv ⊢
    obtain ⟨s2, r⟩ := g
    simp only at hv
    subst hv
    simp only
    obtain ⟨url, hu⟩ := hP.getLayerVersion s2.trace cfg
      { LayerName := (s2.layerAt layer).Name, VersionNumber := v }
    simp only [hu]
    obtain ⟨data, hd⟩ := hP.get (s2.log (Event.GetLayerVersion cfg
      { LayerName := (s2.layerAt layer).Name, VersionNumber := v }
      (.ok { Content := some { Location := some url } }))).trace url
    simp only [hd, ReadAll]
    exact ⟨_, rfl⟩

/-- A first call of the fetcher whose steps all succeed returns the bytes of the body. -/
theorem downloadCanonicalLayerZip_fresh (P : Provider) (s : State) (layer : Nat) (b : Bytes)
    (hl : layer < s.canonicalLayers.length)
    (hfresh : (s.layerAt layer).LayerContentOnce = false)
    (hP : FetchOK P (s.layerAt layer).Name)
    (hget : ∀ tr url, P.Get tr url = (some { Body := { data := b, err := none } }, none)) :
    (downloadCanonicalLayerZip P s layer).2 = .returned (b, none) := by
  unfold downloadCanonicalLayerZip
  rw [if_neg (by rw [hfresh]; decide)]
  have hc := hP.loadDefaultConfig s.trace
  rcases hcfg : P.LoadDefaultConfig s.trace "eu-central-1" with ⟨cfg, err⟩
  rw [hcfg] at hc
  simp only at hc
  subst hc
  simp only [State.log_layerAt]
  obtain ⟨v, hv⟩ := hP.probe (s.log (Event.LoadDefaultConfig "eu-central-1" cfg none))
  have hcan := getLayerVersion_canonicalLayers P
    (s.log (Event.LoadDefaultConfig "eu-central-1" cfg none)) (s.layerAt layer).Name "eu-central-1"
  generalize getLayerVersion P
    (s.log (Event.LoadDefaultConfig "eu-central-1" cfg none)) (s.layerAt layer).Name "eu-central-1" = g
    at hv hcan ⊢
  obtain ⟨s2, r⟩ := g
  simp only [State.log_canonicalLayers] at hv hcan
  subst hv
  simp only
  obtain ⟨url, hu⟩ := hP.getLayerVersion s2.trace cfg
    { LayerName := (s2.layerAt layer).Name, VersionNumber := v }
  simp only [hu, hget, ReadAll]
  simp [State.layerAt, hcan, List.getD_eq_getElem?_getD, List.getElem?_set, hl]

/-- Layers with the same fixed fields at every index have them at each index. -/
theorem layerAt_static (s s1 : State) (j : Nat)
    (h : s1.canonicalLayers.map LayerInfo.static = s.canonicalLayers.map LayerInfo.static) :
    (s1.layerAt j).static = (s.layerAt j).static := by
  have key : ∀ ls : List LayerInfo, (ls.getD j default).static =
      (ls.map LayerInfo.static).getD j (default : LayerInfo).static := by
    intro ls
    simp only [List.getD_eq_getElem?_getD, List.getElem?_map]
    cases ls[j]? <;> rfl
  simp only [State.layerAt, key, h]

theorem publishInput_congr (region : String) (l l1 : LayerInfo) (payload : Bytes)
    (h : l1.static = l.static) : publishInput region l1 payload = publishInput region l payload := by
  simp only [LayerInfo.static, Prod.mk.injEq] at h
  simp only [publishInput, h]

theorem permissionInput_congr (l l1 : LayerInfo) (version : Int)
    (h : l1.static = l.static) : permissionInput l1 version = permissionInput l version := by
  simp only [LayerInfo.static, Prod.mk.injEq] at h
  simp only [permissionInput, h]

/-- The loop of the harmonizer, unfolded once. -/
theorem balanceLoop_eq (P : Provider) (region : String) (layer : Nat) (cfg : Config)
    (maxVersion i : Int) (s : State) :
    balanceLoop P region layer cfg maxVersion i s =
      if i < maxVersion then
        match downloadCanonicalLayerZip P s layer with
        | (s, .panicked msg) => (s, .panicked msg)
        | (s, .returned (_, some err)) =>
          (s, .returned (some ("error downloading canonical zip: " ++ err)))
        | (s, .returned (payload, none)) =>
          match P.PublishLayerVersion s.trace cfg (publishInput region (s.layerAt layer) payload) with
          | .error err =>
            (s.log (.PublishLayerVersion cfg (publishInput region (s.layerAt layer) payload)
              (.error err)), .returned (some ("error publishing layer version: " ++ err)))
          | .ok layerVersionResponse =>
            match P.AddLayerVersionPermission
                (s.log (.PublishLayerVersion cfg (publishInput region (s.layerAt layer) payload)
                  (.ok layerVersionResponse))).trace cfg
                (permissionInput (s.layerAt layer) layerVersionResponse.Version) with
            | .error err =>
              ((s.log (.PublishLayerVersion cfg (publishInput region (s.layerAt layer) payload)
                  (.ok layerVersionResponse))).log
                (.AddLayerVersionPermission cfg
                  (permissionInput (s.layerAt layer) layerVersionResponse.Version) (.error err)),
                .returned (some ("error making layer public: " ++ err)))
            | .ok _ =>
              balanceLoop P region layer cfg maxVersion (i + 1)
                ((s.log (.PublishLayerVersion cfg (publishInput region (s.layerAt layer) payload)
                  (.ok layerVersionResponse))).log
                (.AddLayerVersionPermission cfg
                  (permissionInput (s.layerAt layer) layerVersionResponse.Version) (.ok ())))
      else (s, .returned none) := by
  rw [balanceLoop]
  split
  · split
    · rfl
    · rfl
    · dsimp only
      split
      · next h => simp only [h]
      · next h =>
        simp only [h, State.log_layerAt]
        split
        · next h2 => simp only [h2]
        · next h2 => simp only [h2]
  · rfl

/-- One completed round of the loop. -/
theorem balanceLoop_step (P : Provider) (region : String) (layer : Nat) (cfg : Config)
    (maxVersion i : Int) (s s1 : State) (payload : Bytes) (out : PublishLayerVersionOutput)
    (hi : i < maxVersion)
    (hd : downloadCanonicalLayerZip P s layer = (s1, .returned (payload, none)))
    (hp : P.PublishLayerVersion s1.trace cfg (publishInput region (s1.layerAt layer) payload) =
      .ok out)
    (hg : P.AddLayerVersionPermission
      (s1.log (.PublishLayerVersion cfg (publishInput region (s1.layerAt layer) payload)
        (.ok out))).trace cfg (permissionInput (s1.layerAt layer) out.Version) = .ok ()) :
    balanceLoop P region layer cfg maxVersion i s =
      balanceLoop P region layer cfg maxVersion (i + 1)
        ((s1.log (.PublishLayerVersion cfg (publishInput region (s1.layerAt layer) payload)
          (.ok out))).log
          (.AddLayerVersionPermission cfg (permissionInput (s1.layerAt layer) out.Version)
            (.ok ()))) := by
  rw [balanceLoop_eq, if_pos hi, hd]
  simp only [hp, hg]

/-- The loop keeps the fixed fields of every layer. -/
theorem balanceLoop_static (P : Provider) (region : String) (layer : Nat) (cfg : Config)
    (maxVersion : Int) :
    ∀ (n : Nat) (i : Int) (s : State), (maxVersion - i).toNat = n →
      (balanceLoop P region layer cfg maxVersion i s).1.canonicalLayers.map LayerInfo.static =
        s.canonicalLayers.map LayerInfo.static := by
  intro n
  induction n with
  | zero =>
    intro i s hn
    rw [balanceLoop_eq, if_neg (by omega)]
  | succ n ih =>
    intro i s hn
    rw [balanceLoop_eq, if_pos (by omega)]
    have hd := downloadCanonicalLayerZip_static P s layer
    rcases hr : downloadCanonicalLayerZip P s layer with ⟨s1, ⟨payload, _ | err⟩ | msg⟩
    · rw [hr] at hd
      simp only
      split
      · exact hd
      · split
        · exact hd
        · rw [ih (i + 1) _ (by omega)]
          exact hd
    · rw [hr] at hd; exact hd
    · rw [hr] at hd; exact hd

/-- Once the guard of the layer has fired the loop leaves all layers as they are. -/
theorem balanceLoop_canonicalLayers_of_once (P : Provider) (region : String) (layer : Nat)
    (cfg : Config) (maxVersion : Int) :
    ∀ (n : Nat) (i : Int) (s : State), (maxVersion - i).toNat = n →
      (s.layerAt layer).LayerContentOnce = true →
      (balanceLoop P region layer cfg maxVersion i s).1.canonicalLayers = s.canonicalLayers := by
  intro n
  induction n with
  | zero =>
    intro i s hn _
    rw [balanceLoop_eq, if_neg (by omega)]
  | succ n ih =>
    intro i s hn ho
    rw [balanceLoop_eq, if_pos (by omega), downloadCanonicalLayerZip_once P s layer ho]
    simp only
    split
    · rfl
    · split
      · rfl
      · rw [ih (i + 1) _ (by omega) (by simpa using ho)]
        rfl

theorem LoopEnd.mono {cfg : Config} {region : String} {l : LayerInfo} {good good1 : Bytes → Prop}
    {tail : List Event} {r : Outcome (Option Error)} (hg : ∀ b, good b → good1 b)
    (h : LoopEnd cfg region l good tail r) : LoopEnd cfg region l good1 tail r := by
  cases h with
  | reached => exact .reached
  | fetchFailed e => exact .fetchFailed e
  | fetchPanicked msg => exact .fetchPanicked msg
  | publishFailed payload e h => exact .publishFailed payload e (hg _ h)
  | grantFailed payload out e h => exact .grantFailed payload out e (hg _ h)

/-- The shape of every run of the harmonizer loop, whatever the provider answers: its
write events are completed rounds (at most as many as versions are missing, exactly as
many when it returns nil) followed by one of the endings of `LoopEnd`; every payload
published is the content cached for the layer at the end. -/
theorem balanceLoop_shape (P : Provider) (region : String) (layer : Nat) (cfg : Config)
    (maxVersion : Int) (l : LayerInfo) :
    ∀ (n : Nat) (i : Int) (s : State), (maxVersion - i).toNat = n →
      (s.layerAt layer).static = l.static →
      ∃ rs tail, rs.length ≤ n ∧
        (balanceLoop P region layer cfg maxVersion i s).1.trace.filter Event.isWrite =
          s.trace.filter Event.isWrite ++ (rounds cfg region l rs ++ tail) ∧
        (∀ x ∈ rs, layer < s.canonicalLayers.length → x.1 =
          ((balanceLoop P region layer cfg maxVersion i s).1.layerAt layer).LayerContent) ∧
        LoopEnd cfg region l (fun b => layer < s.canonicalLayers.length → b =
          ((balanceLoop P region layer cfg maxVersion i s).1.layerAt layer).LayerContent)
          tail (balanceLoop P region layer cfg maxVersion i s).2 ∧
        ((balanceLoop P region layer cfg maxVersion i s).2 = .returned none → rs.length = n) := by
  intro n
  induction n with
  | zero =>
    intro i s hn _
    rw [balanceLoop_eq, if_neg (by omega)]
    exact ⟨[], [], le_refl _, by simp [rounds], by simp, .reached, fun _ => rfl⟩
  | succ n ih =>
    intro i s hn hst
    generalize hfin : balanceLoop P region layer cfg maxVersion i s = fin
    rw [balanceLoop_eq, if_pos (by omega)] at hfin
    have hdf := downloadCanonicalLayerZip_filter Event.isWrite (fun _ _ _ => rfl)
      (fun _ _ _ => rfl) (fun _ _ _ => rfl) (fun _ _ _ => rfl) P s layer
    have hds := downloadCanonicalLayerZip_static P s layer
    have hdd := downloadCanonicalLayerZip_done P s layer
    have hdc := downloadCanonicalLayerZip_content P s
    rcases hr : downloadCanonicalLayerZip P s layer with ⟨s1, ⟨payload, _ | err⟩ | msg⟩
    · rw [hr] at hfin hdf hds hdd
      have hdc := hdc s1 layer payload none hr
      have hs1 : (s1.layerAt layer).static = l.static := (layerAt_static s s1 layer hds).trans hst
      have hlen : s1.canonicalLayers.length = s.canonicalLayers.length := by
        simpa using congrArg List.length hds
      simp only [publishInput_congr region l _ payload hs1, permissionInput_congr l _ _ hs1]
        at hfin hdf hdd
      split at hfin
      · next e hp =>
        subst hfin
        refine ⟨[], [_], Nat.zero_le _, ?_, by simp, .publishFailed payload e ?_, by simp⟩
        · simp [hdf, rounds, Event.isWrite, Event.isPublish]
        · intro _; exact hdc.symm
      · next out hp =>
        split at hfin
        · next e hg =>
          subst hfin
          refine ⟨[], [_, _], Nat.zero_le _, ?_, by simp, .grantFailed payload out e ?_, by simp⟩
          · simp [hdf, rounds, Event.isWrite, Event.isPublish, Event.isGrant]
          · intro _; exact hdc.symm
        · next u hg =>
          obtain ⟨rs, tail, h1, h2, h3, h4, h5⟩ := ih (i + 1)
            ((s1.log (.PublishLayerVersion cfg (publishInput region l payload) (.ok out))).log
              (.AddLayerVersionPermission cfg (permissionInput l out.Version) (.ok ())))
            (by omega) hs1
          rw [hfin] at h2 h3 h4 h5
          have hfc : layer < s.canonicalLayers.length →
              (fin.1.layerAt layer).LayerContent = payload := by
            intro hl
            have := balanceLoop_canonicalLayers_of_once P region layer cfg maxVersion n (i + 1)
              ((s1.log (.PublishLayerVersion cfg (publishInput region l payload) (.ok out))).log
                (.AddLayerVersionPermission cfg (permissionInput l out.Version) (.ok ())))
              (by omega) (hdd hl)
            rw [hfin] at this
            simp only [State.log_canonicalLayers] at this
            rw [State.layerAt, this]
            exact hdc
          refine ⟨(payload, out) :: rs, tail, by simpa using h1, ?_, ?_, ?_, ?_⟩
          · rw [h2]
            simp [hdf, rounds, Event.isWrite, Event.isPublish, Event.isGrant]
          · intro x hx hl
            rcases List.mem_cons.1 hx with rfl | hx
            · exact (hfc hl).symm
            · exact h3 x hx (by simpa [hlen] using hl)
          · exact h4.mono (fun b hb hl => hb (by simpa [hlen] using hl))
          · intro hret
            simpa using h5 hret
    · rw [hr] at hfin
      subst hfin
      exact ⟨[], [], Nat.zero_le _, by rw [hr] at hdf; simpa [rounds] using hdf, by simp,
        .fetchFailed err, by simp⟩
    · rw [hr] at hfin
      subst hfin
      exact ⟨[], [], Nat.zero_le _, by rw [hr] at hdf; simpa [rounds] using hdf, by simp,
        .fetchPanicked msg, by simp⟩

/-- The loop only appends events. -/
theorem balanceLoop_grows (P : Provider) (region : String) (layer : Nat) (cfg : Config)
    (maxVersion : Int) :
    ∀ (n : Nat) (i : Int) (s : State), (maxVersion - i).toNat = n →
      s.trace <+: (balanceLoop P region layer cfg maxVersion i s).1.trace := by
  intro n
  induction n with
  | zero =>
    intro i s hn
    rw [balanceLoop_eq, if_neg (by omega)]
  | succ n ih =>
    intro i s hn
    generalize hfin : balanceLoop P region layer cfg maxVersion i s = fin
    rw [balanceLoop_eq, if_pos (by omega)] at hfin
    have h1 := downloadCanonicalLayerZip_grows P s layer
    rcases hr : downloadCanonicalLayerZip P s layer with ⟨s1, ⟨payload, _ | err⟩ | msg⟩
    · rw [hr] at hfin h1
      simp only at hfin h1
      split at hfin
      · subst hfin
        simp only [State.log_trace]
        exact h1.trans (List.prefix_append _ _)
      · split at hfin
        · subst hfin
          simp only [State.log_trace]
          exact h1.trans ((List.prefix_append _ _).trans (List.prefix_append _ _))
        · subst hfin
          refine List.IsPrefix.trans ?_ (ih (i + 1) _ (by omega))
          simp only [State.log_trace]
          exact h1.trans ((List.prefix_append _ _).trans (List.prefix_append _ _))
    · rw [hr] at hfin h1
      subst hfin
      exact h1
    · rw [hr] at hfin h1
      subst hfin
      exact h1

/-- When the content fetch of the layer cannot fail and publish and grant succeed, the
loop returns nil. -/
theorem balanceLoop_ok (P : Provider) (region : String) (layer : Nat)
    (cfg : Config) (maxVersion : Int) (layerName : String) (hP : FetchOK P layerName)
    (hpub : ∀ tr cfg input, ∃ out, P.PublishLayerVersion tr cfg input = .ok out)
    (hgrant : ∀ tr cfg input, P.AddLayerVersionPermission tr cfg input = .ok ()) :
    ∀ (n : Nat) (i : Int) (s : State), (maxVersion - i).toNat = n →
      (s.layerAt layer).Name = layerName →
      (balanceLoop P region layer cfg maxVersion i s).2 = .returned none := by
  intro n
  induction n with
  | zero =>
    intro i s hn _
    rw [balanceLoop_eq, if_neg (by omega)]
  | succ n ih =>
    intro i s hn hname
    rw [balanceLoop_eq, if_pos (by omega)]
    obtain ⟨b, hb⟩ := downloadCanonicalLayerZip_ok P s layer (hname ▸ hP)
    have hst := layerAt_static s _ layer (downloadCanonicalLayerZip_static P s layer)
    rcases hr : downloadCanonicalLayerZip P s layer with ⟨s1, r⟩
    rw [hr] at hb hst
    simp only at hb hst
    subst hb
    obtain ⟨out, ho⟩ := hpub s1.trace cfg (publishInput region (s1.layerAt layer) b)
    simp only [ho, hgrant]
    refine ih (i + 1) _ (by omega) ?_
    simp only [State.log_layerAt]
    rw [← hname]
    exact congrArg Prod.fst hst

/-- The three ways `balanceRegionToVersion` goes: the probe fails, the configuration
does not load, or it enters the loop at the probed version. -/
theorem balanceRegionToVersion_cases (P : Provider) (s : State) (region : String) (layer : Nat)
    (maxVersion : Int) :
    (∃ e, (getLayerVersion P s (s.layerAt layer).Name region).2 = .error e ∧
      balanceRegionToVersion P s region layer maxVersion =
        ((getLayerVersion P s (s.layerAt layer).Name region).1,
          .returned (some ("error getting layer version: " ++ e)))) ∨
    (∃ current cfg e, (getLayerVersion P s (s.layerAt layer).Name region).2 = .ok current ∧
      P.LoadDefaultConfig (getLayerVersion P s (s.layerAt layer).Name region).1.trace region =
        (cfg, some e) ∧
      balanceRegionToVersion P s region layer maxVersion =
        ((getLayerVersion P s (s.layerAt layer).Name region).1.log
          (.LoadDefaultConfig region cfg (some e)), .returned (some e))) ∨
    (∃ current cfg, (getLayerVersion P s (s.layerAt layer).Name region).2 = .ok current ∧
      P.LoadDefaultConfig (getLayerVersion P s (s.layerAt layer).Name region).1.trace region =
        (cfg, none) ∧
      balanceRegionToVersion P s region layer maxVersion =
        balanceLoop P region layer cfg maxVersion current
          ((getLayerVersion P s (s.layerAt layer).Name region).1.log
            (.LoadDefaultConfig region cfg none))) := by
  unfold balanceRegionToVersion
  rcases hg : getLayerVersion P s (s.layerAt layer).Name region with ⟨s1, e | current⟩
  · exact Or.inl ⟨e, rfl, rfl⟩
  · simp only
    rcases hc : P.LoadDefaultConfig s1.trace region with ⟨cfg, _ | e⟩
    · exact Or.inr (Or.inr ⟨current, cfg, rfl, rfl, rfl⟩)
    · exact Or.inr (Or.inl ⟨current, cfg, e, rfl, rfl, rfl⟩)

/-- The harmonizer only appends events. -/
theorem balanceRegionToVersion_grows (P : Provider) (s : State) (region : String) (layer : Nat)
    (maxVersion : Int) :
    s.trace <+: (balanceRegionToVersion P s region layer maxVersion).1.trace := by
  have hp := getLayerVersion_grows P s (s.layerAt layer).Name region
  rcases balanceRegionToVersion_cases P s region layer maxVersion with
    ⟨e, -, h⟩ | ⟨current, cfg, e, -, -, h⟩ | ⟨current, cfg, -, -, h⟩
  · rw [h]; exact hp
  · rw [h]; exact hp.trans (List.prefix_append _ _)
  · rw [h]
    refine List.IsPrefix.trans ?_ (balanceLoop_grows P region layer cfg maxVersion _ current _ rfl)
    exact hp.trans (List.prefix_append _ _)

/-- The harmonizer keeps the fixed fields of every layer. -/
theorem balanceRegionToVersion_static (P : Provider) (s : State) (region : String) (layer : Nat)
    (maxVersion : Int) :
    (balanceRegionToVersion P s region layer maxVersion).1.canonicalLayers.map LayerInfo.static =
      s.canonicalLayers.map LayerInfo.static := by
  have hp := getLayerVersion_canonicalLayers P s (s.layerAt layer).Name region
  rcases balanceRegionToVersion_cases P s region layer maxVersion with
    ⟨e, -, h⟩ | ⟨current, cfg, e, -, -, h⟩ | ⟨current, cfg, -, -, h⟩
  · rw [h]; simp only [hp]
  · rw [h]; simp only [State.log_canonicalLayers, hp]
  · rw [h, balanceLoop_static P region layer cfg maxVersion _ current _ rfl]
    simp only [State.log_canonicalLayers, hp]

/-- Publish events are write events, so they can be counted among the writes. -/
theorem filter_isPublish_filter_isWrite (tr : List Event) :
    (tr.filter Event.isWrite).filter Event.isPublish = tr.filter Event.isPublish := by
  rw [List.filter_filter]
  congr 1
  funext e
  cases e <;> rfl

/-- Grant events are write events. -/
theorem filter_isGrant_filter_isWrite (tr : List Event) :
    (tr.filter Event.isWrite).filter Event.isGrant = tr.filter Event.isGrant := by
  rw [List.filter_filter]
  congr 1
  funext e
  cases e <;> rfl

/-- Completed rounds hold one publish each. -/
theorem filter_isPublish_rounds (cfg : Config) (region : String) (l : LayerInfo)
    (rs : List (Bytes × PublishLayerVersionOutput)) :
    (rounds cfg region l rs).filter Event.isPublish =
      rs.map fun x => .PublishLayerVersion cfg (publishInput region l x.1) (.ok x.2) := by
  induction rs with
  | nil => rfl
  | cons x rs ih =>
    obtain ⟨payload, out⟩ := x
    simp [rounds, Event.isPublish, ih]

/-- Completed rounds hold one grant each. -/
theorem filter_isGrant_rounds (cfg : Config) (region : String) (l : LayerInfo)
    (rs : List (Bytes × PublishLayerVersionOutput)) :
    (rounds cfg region l rs).filter Event.isGrant =
      rs.map fun x => .AddLayerVersionPermission cfg (permissionInput l x.2.Version) (.ok ()) := by
  induction rs with
  | nil => rfl
  | cons x rs ih =>
    obtain ⟨payload, out⟩ := x
    simp [rounds, Event.isGrant, ih]

/-- The publish input spelled out: the architecture constraint is absent exactly in the
single-architecture regions; everything else is the same in both branches. -/
theorem publishInput_eq (region : String) (l : LayerInfo) (payload : Bytes) :
    publishInput region l payload =
      { Content := { ZipFile := payload },
        LayerName := l.Name,
        CompatibleArchitectures :=
          if region ∈ singleArchitectureRegions then [] else [l.Architecture],
        CompatibleRuntimes := ["python3.7", "python3.8", "python3.9"],
        Description := l.Description,
        LicenseInfo := "MIT-0" } := by
  unfold publishInput
  by_cases h : region ∈ singleArchitectureRegions
  · simp [h, RuntimePython37, RuntimePython38, RuntimePython39]
  · simp [h, RuntimePython37, RuntimePython38, RuntimePython39]

/-- The state in which `balanceRegionToVersion` enters its loop holds the writes and the
layers of the state in which it was called. -/
theorem loopEntry_facts (P : Provider) (s : State) (layerName region : String) (cfg : Config)
    (err : Option Error) :
    ((getLayerVersion P s layerName region).1.log (.LoadDefaultConfig region cfg err)).trace.filter
        Event.isWrite = s.trace.filter Event.isWrite ∧
      ((getLayerVersion P s layerName region).1.log
        (.LoadDefaultConfig region cfg err)).canonicalLayers = s.canonicalLayers := by
  refine ⟨?_, getLayerVersion_canonicalLayers P s layerName region⟩
  rw [State.log_trace, List.filter_append,
    getLayerVersion_filter Event.isWrite (fun _ _ _ => rfl) (fun _ _ _ => rfl)]
  simp [Event.isWrite, Event.isPublish, Event.isGrant]

/-- The map provider never fails a call when every pair has a version. -/
theorem mapProvider_noFailure (initial : String → String → Nat) (zip : String → Bytes)
    (h : ∀ layerName region, 0 < initial layerName region) :
    (mapProvider initial zip).NoFailure where
  loadDefaultConfig := fun _ _ => rfl
  listLayerVersions := fun tr cfg input => by
    have := h input.LayerName cfg.Region
    simp only [mapProvider]
    cases hv : initial input.LayerName cfg.Region +
      publishedCount tr input.LayerName cfg.Region with
    | zero => omega
    | succ v => exact ⟨_, _, rfl⟩
  getLayerVersion := fun _ _ _ => ⟨_, rfl⟩
  get := fun _ _ => ⟨_, rfl⟩
  publishLayerVersion := fun _ _ _ => ⟨_, rfl⟩
  addLayerVersionPermission := fun _ _ _ => rfl

/-- Every event of completed rounds is a publish with the input of the loop or is no
publish. -/
theorem mem_rounds_isPublish (cfg : Config) (region : String) (l : LayerInfo)
    (rs : List (Bytes × PublishLayerVersionOutput)) (e : Event)
    (he : e ∈ (rounds cfg region l rs).filter Event.isPublish) :
    ∃ x ∈ rs, e = .PublishLayerVersion cfg (publishInput region l x.1) (.ok x.2) := by
  rw [filter_isPublish_rounds, List.mem_map] at he
  obtain ⟨x, hx, rfl⟩ := he
  exact ⟨x, hx, rfl⟩

/-- Each completed round publishes one version of the layer in the region of the client. -/
theorem countP_isPublished_rounds (cfg : Config) (region : String) (l : LayerInfo)
    (rs : List (Bytes × PublishLayerVersionOutput)) :
    (rounds cfg region l rs).countP (Event.isPublished l.Name cfg.Region) = rs.length := by
  induction rs with
  | nil => rfl
  | cons x rs ih =>
    obtain ⟨payload, out⟩ := x
    simp [rounds, Event.isPublished, publishInput_eq, ih]

/-- Along a growing trace no published version is lost. -/
theorem publishedCount_mono (tr tr1 : List Event) (layerName region : String)
    (h : tr <+: tr1) : publishedCount tr layerName region ≤ publishedCount tr1 layerName region := by
  obtain ⟨ext, rfl⟩ := h
  simp only [publishedCount, List.countP_append]
  omega

/-- Completed rounds publish nothing for any other layer or region. -/
theorem countP_isPublished_rounds_ne (cfg : Config) (region : String) (l : LayerInfo)
    (rs : List (Bytes × PublishLayerVersionOutput)) (layerName r : String)
    (h : (layerName, r) ≠ (l.Name, cfg.Region)) :
    (rounds cfg region l rs).countP (Event.isPublished layerName r) = 0 := by
  induction rs with
  | nil => rfl
  | cons x rs ih =>
    obtain ⟨payload, out⟩ := x
    have h1 : ¬ (cfg.Region = r ∧ l.Name = layerName) := by
      rintro ⟨rfl, rfl⟩
      exact h rfl
    simp [rounds, Event.isPublished, publishInput_eq, ih, h1]

/-- When the probe of the region returns `current`, the configuration of the region
loads as `cfg`, the content fetch cannot fail and publish and grant succeed, the
harmonizer returns nil after exactly the missing number of rounds. -/
theorem balanceRegionToVersion_ok (P : Provider) (s : State) (region : String) (layer : Nat)
    (maxVersion current : Int) (cfg : Config)
    (hprobe : (getLayerVersion P s (s.layerAt layer).Name region).2 = .ok current)
    (hcfg : ∀ tr, P.LoadDefaultConfig tr region = (cfg, none))
    (hf : FetchOK P (s.layerAt layer).Name)
    (hpub : ∀ tr cfg input, ∃ out, P.PublishLayerVersion tr cfg input = .ok out)
    (hgrant : ∀ tr cfg input, P.AddLayerVersionPermission tr cfg input = .ok ()) :
    (balanceRegionToVersion P s region layer maxVersion).2 = .returned none ∧
    ∃ rs, rs.length = (maxVersion - current).toNat ∧
      (balanceRegionToVersion P s region layer maxVersion).1.trace.filter Event.isWrite =
        s.trace.filter Event.isWrite ++ rounds cfg region (s.layerAt layer) rs := by
  rcases balanceRegionToVersion_cases P s region layer maxVersion with
    ⟨e, he, -⟩ | ⟨c, cfg1, e, -, hc, -⟩ | ⟨c, cfg1, hc1, hc2, h⟩
  · rw [hprobe] at he; cases he
  · rw [hcfg] at hc; cases hc
  · rw [hprobe] at hc1
    cases hc1
    rw [hcfg] at hc2
    cases hc2
    obtain ⟨hw, hl⟩ := loopEntry_facts P s (s.layerAt layer).Name region cfg none
    have hret := balanceLoop_ok P region layer cfg maxVersion (s.layerAt layer).Name
      hf hpub hgrant _ current
      ((getLayerVersion P s (s.layerAt layer).Name region).1.log
        (.LoadDefaultConfig region cfg none)) rfl (by rw [State.layerAt, hl]; rfl)
    obtain ⟨rs, tail, -, h2, -, h4, h5⟩ := balanceLoop_shape P region layer cfg maxVersion
      (s.layerAt layer) _ current
      ((getLayerVersion P s (s.layerAt layer).Name region).1.log
        (.LoadDefaultConfig region cfg none)) rfl (by rw [State.layerAt, hl]; rfl)
    rw [← h] at hret h2 h4 h5
    have htail : tail = [] := by
      rw [hret] at h4
      cases h4
      rfl
    subst htail
    rw [hw, List.append_nil] at h2
    exact ⟨hret, rs, h5 hret, h2⟩

/-- Against the map provider the content fetch of a layer cannot fail once the layer has
a version in the canonical region. -/
theorem mapProvider_fetchOK (initial : String → String → Nat) (zip : String → Bytes)
    (layerName : String) (h : 1 ≤ initial layerName "eu-central-1") :
    FetchOK (mapProvider initial zip) layerName where
  loadDefaultConfig := fun _ => rfl
  probe := fun s => by
    rw [getLayerVersion_mapProvider]
    cases hv : initial layerName "eu-central-1" + publishedCount s.trace layerName "eu-central-1" with
    | zero => omega
    | succ v => exact ⟨_, rfl⟩
  getLayerVersion := fun _ _ _ => ⟨_, rfl⟩
  get := fun _ _ => ⟨_, rfl⟩

/-- One harmonizer task against the map provider: a pair that has a version and is not
above the target ends at the target; no other pair changes. -/
theorem balanceRegionToVersion_mapProvider (initial : String → String → Nat)
    (zip : String → Bytes) (s : State) (region : String) (layer : Nat) (target : Nat)
    (h1 : 1 ≤ initial (s.layerAt layer).Name region +
      publishedCount s.trace (s.layerAt layer).Name region)
    (h2 : initial (s.layerAt layer).Name region +
      publishedCount s.trace (s.layerAt layer).Name region ≤ target)
    (hc : 1 ≤ initial (s.layerAt layer).Name "eu-central-1") :
    ∃ s1, balanceRegionToVersion (mapProvider initial zip) s region layer target =
        (s1, .returned none) ∧
      s1.canonicalLayers.map LayerInfo.static = s.canonicalLayers.map LayerInfo.static ∧
      initial (s.layerAt layer).Name region +
        publishedCount s1.trace (s.layerAt layer).Name region = target ∧
      ∀ layerName r, (layerName, r) ≠ ((s.layerAt layer).Name, region) →
        publishedCount s1.trace layerName r = publishedCount s.trace layerName r := by
  have hprobe : (getLayerVersion (mapProvider initial zip) s (s.layerAt layer).Name region).2 =
      .ok ((initial (s.layerAt layer).Name region +
        publishedCount s.trace (s.layerAt layer).Name region : Nat) : Int) := by
    rw [getLayerVersion_mapProvider]
    cases hv : initial (s.layerAt layer).Name region +
      publishedCount s.trace (s.layerAt layer).Name region with
    | zero => omega
    | succ v => rfl
  obtain ⟨hret, rs, hlen, hw⟩ := balanceRegionToVersion_ok (mapProvider initial zip) s region
    layer target _ { Region := region } hprobe (fun _ => rfl)
    (mapProvider_fetchOK initial zip _ hc) (fun _ _ _ => ⟨_, rfl⟩) (fun _ _ _ => rfl)
  have hst := balanceRegionToVersion_static (mapProvider initial zip) s region layer target
  rcases hfin : balanceRegionToVersion (mapProvider initial zip) s region layer target with ⟨s1, r⟩
  rw [hfin] at hret hw hst
  simp only at hret hw hst
  subst hret
  refine ⟨s1, rfl, hst, ?_, ?_⟩
  · rw [publishedCount_eq_filter s1.trace, hw, List.countP_append,
      ← publishedCount_eq_filter,
      countP_isPublished_rounds { Region := region } region (s.layerAt layer) rs, hlen]
    omega
  · intro layerName r hne
    rw [publishedCount_eq_filter s1.trace, hw, List.countP_append, ← publishedCount_eq_filter,
      countP_isPublished_rounds_ne { Region := region } region (s.layerAt layer) rs layerName r hne]
    rfl

/-- A state whose layers have the fixed fields of `layers` has their names. -/
theorem layerAt_name (s : State) (layers : List LayerInfo) (j : Nat)
    (h : s.canonicalLayers.map LayerInfo.static = layers.map LayerInfo.static) :
    (s.layerAt j).Name = (layers.getD j default).Name :=
  congrArg Prod.fst (layerAt_static { trace := [], canonicalLayers := layers } s j h)

/-! ## Groups of goroutines -/

/-- A step of a group keeps the number of goroutines. -/
theorem Group.stepAt_length {σ τ : Type} (step : τ → σ → Step σ τ) (i : Nat) (g : Group σ τ) :
    (g.stepAt step i).goroutines.length = g.goroutines.length := by
  unfold Group.stepAt
  repeat' split
  all_goals simp

/-- What holds of a group and is kept by every step holds after any number of steps of
one goroutine. -/
theorem Group.stepTimes_induct {σ τ : Type} (step : τ → σ → Step σ τ)
    (Inv : Group σ τ → Prop) (hstep : ∀ i g, Inv g → Inv (g.stepAt step i))
    (i n : Nat) (g : Group σ τ) (h : Inv g) : Inv (g.stepTimes step i n) := by
  induction n generalizing g with
  | zero => exact h
  | succ n ih => exact ih _ (hstep i g h)

/-- What holds of a group and is kept by every step holds after a schedule. -/
theorem Group.run_induct {σ τ : Type} (step : τ → σ → Step σ τ)
    (Inv : Group σ τ → Prop) (hstep : ∀ i g, Inv g → Inv (g.stepAt step i))
    (sched : List Nat) (g : Group σ τ) (h : Inv g) : Inv (g.run step sched) := by
  unfold Group.run
  induction sched generalizing g with
  | nil => exact h
  | cons i sched ih => exact ih _ (hstep i g h)

/-- What holds of a group and is kept by every step holds after the goroutines of a list
took their steps in turn. -/
theorem Group.foldl_induct {σ τ : Type} (step : τ → σ → Step σ τ) (bound : τ → Nat)
    (Inv : Group σ τ → Prop) (hstep : ∀ i g, Inv g → Inv (g.stepAt step i))
    (is : List Nat) (g : Group σ τ) (h : Inv g) :
    Inv (is.foldl (fun g i => g.stepTimes step i (g.budget bound i)) g) := by
  induction is generalizing g with
  | nil => exact h
  | cons i is ih => exact ih _ (Group.stepTimes_induct step Inv hstep i _ g h)

/-- What holds of a group and is kept by every step holds after a pass. -/
theorem Group.pass_induct {σ τ : Type} (step : τ → σ → Step σ τ) (bound : τ → Nat)
    (Inv : Group σ τ → Prop) (hstep : ∀ i g, Inv g → Inv (g.stepAt step i))
    (g : Group σ τ) (h : Inv g) : Inv (g.pass step bound) :=
  Group.foldl_induct step bound Inv hstep _ g h

/-- What holds of a group and is kept by every step holds when the group has run: after
the schedule and the passes that follow it. -/
theorem Group.finish_induct {σ τ : Type} (step : τ → σ → Step σ τ) (bound : τ → Nat)
    (Inv : Group σ τ → Prop) (hstep : ∀ i g, Inv g → Inv (g.stepAt step i))
    (sched : List Nat) (g : Group σ τ) (h : Inv g) :
    Inv ((g.run step sched).drain step bound) :=
  Group.pass_induct step bound Inv hstep _
    (Group.pass_induct step bound Inv hstep _ (Group.run_induct step Inv hstep sched g h))

/-- An invariant of the shared memory together with an invariant of each goroutine is
kept by a step of the group when every step of a goroutine keeps both and does not
break the invariant of the other goroutines. -/
theorem Group.stepAt_invariant {σ τ : Type} (step : τ → σ → Step σ τ)
    (SI : σ → Prop) (TI : σ → Goroutine τ → Prop)
    (hstep : ∀ t m m1 G1, SI m → TI m (.running t) → (step t m).result = some (m1, G1) →
      SI m1 ∧ TI m1 G1 ∧ ∀ G, TI m G → TI m1 G)
    (i : Nat) (g : Group σ τ)
    (h : SI g.shared ∧ ∀ G ∈ g.goroutines, TI g.shared G) :
    SI (g.stepAt step i).shared ∧
      ∀ G ∈ (g.stepAt step i).goroutines, TI (g.stepAt step i).shared G := by
  unfold Group.stepAt
  split
  · exact h
  · split
    · rename_i t ht
      have hmem : Goroutine.running t ∈ g.goroutines := List.getElem?_mem ht
      have hs := fun m1 G1 => hstep t g.shared m1 G1 h.1 (h.2 _ hmem)
      split
      · rename_i m1 t1 heq
        replace hs := hs m1 (.running t1) (by rw [heq]; rfl)
        refine ⟨hs.1, fun G hG => ?_⟩
        rcases List.mem_or_eq_of_mem_set hG with hG | hG
        · exact hs.2.2 G (h.2 G hG)
        · exact hG ▸ hs.2.1
      · rename_i m1 t1 e heq
        replace hs := hs m1 (.returned t1 e) (by rw [heq]; rfl)
        refine ⟨hs.1, fun G hG => ?_⟩
        rcases List.mem_or_eq_of_mem_set hG with hG | hG
        · exact hs.2.2 G (h.2 G hG)
        · exact hG ▸ hs.2.1
      · rename_i m1 t1 msg heq
        replace hs := hs m1 (.panicked t1 msg) (by rw [heq]; rfl)
        refine ⟨hs.1, fun G hG => ?_⟩
        rcases List.mem_or_eq_of_mem_set hG with hG | hG
        · exact hs.2.2 G (h.2 G hG)
        · exact hG ▸ hs.2.1
      · exact h
    · exact h

/-- The invariants of `Group.stepAt_invariant` hold when the group has run. -/
theorem Group.finish_invariant {σ τ : Type} (step : τ → σ → Step σ τ) (bound : τ → Nat)
    (SI : σ → Prop) (TI : σ → Goroutine τ → Prop)
    (hstep : ∀ t m m1 G1, SI m → TI m (.running t) → (step t m).result = some (m1, G1) →
      SI m1 ∧ TI m1 G1 ∧ ∀ G, TI m G → TI m1 G)
    (sched : List Nat) (g : Group σ τ)
    (h : SI g.shared ∧ ∀ G ∈ g.goroutines, TI g.shared G) :
    SI ((g.run step sched).drain step bound).shared ∧
      ∀ G ∈ ((g.run step sched).drain step bound).goroutines,
        TI ((g.run step sched).drain step bound).shared G :=
  Group.finish_induct step bound
    (fun g => SI g.shared ∧ ∀ G ∈ g.goroutines, TI g.shared G)
    (Group.stepAt_invariant step SI TI hstep) sched g h

/-- A step keeps the records of the group. -/
theorem Group.stepAt_kept {σ τ : Type} (step : τ → σ → Step σ τ) (i : Nat) (g : Group σ τ)
    (h : g.Kept) : (g.stepAt step i).Kept := by
  unfold Group.stepAt
  split
  · exact h
  · split
    · split
      · refine ⟨fun t e hm => ?_, fun t msg hm => ?_⟩
        · rcases List.mem_or_eq_of_mem_set hm with hm | hm
          · exact h.1 t e hm
          · cases hm
        · rcases List.mem_or_eq_of_mem_set hm with hm | hm
          · exact h.2 t msg hm
          · cases hm
      · rename_i m1 t1 e heq
        refine ⟨fun t e hm => ?_, fun t msg hm => ?_⟩
        · rcases List.mem_or_eq_of_mem_set hm with hm | hm
          · have := h.1 t e hm
            cases hg : g.err with
            | none => exact absurd hg this
            | some first => simp
          · cases hm
            cases hg : g.err <;> simp
        · rcases List.mem_or_eq_of_mem_set hm with hm | hm
          · exact h.2 t msg hm
          · cases hm
      · refine ⟨fun t e hm => ?_, fun t msg hm => ?_⟩
        · rcases List.mem_or_eq_of_mem_set hm with hm | hm
          · exact h.1 t e hm
          · cases hm
        · simp
      · exact h
    · exact h

/-- The records of the group are kept when it has run. -/
theorem Group.finish_kept {σ τ : Type} (step : τ → σ → Step σ τ) (bound : τ → Nat)
    (sched : List Nat) (g : Group σ τ) (h : g.Kept) :
    ((g.run step sched).drain step bound).Kept :=
  Group.finish_induct step bound Group.Kept (Group.stepAt_kept step) sched g h

/-- A step keeps what identifies each goroutine, when the steps of a goroutine do. -/
theorem Group.stepAt_ident {σ τ α : Type} (step : τ → σ → Step σ τ) (ident : τ → α)
    (hid : ∀ t m m1 G1, (step t m).result = some (m1, G1) → ident G1.task = ident t)
    (i : Nat) (g : Group σ τ) :
    (g.stepAt step i).goroutines.map (fun G => ident G.task) =
      g.goroutines.map (fun G => ident G.task) := by
  unfold Group.stepAt
  split
  · rfl
  · split
    · rename_i t ht
      have hs := hid t g.shared
      have key : ∀ G : Goroutine τ, ident G.task = ident t →
          (g.goroutines.set i G).map (fun G => ident G.task) =
            g.goroutines.map (fun G => ident G.task) := by
        intro G hG
        apply List.ext_getElem?
        intro j
        simp only [List.getElem?_map, List.getElem?_set]
        by_cases hij : i = j
        · subst hij
          by_cases hlt : i < g.goroutines.length
          · simp only [hlt, ht, if_true, Option.map_some']
            exact congrArg some hG
          · rw [List.getElem?_eq_none (Nat.le_of_not_lt hlt)] at ht
            cases ht
        · simp [hij]
      split
      · rename_i m1 t1 heq
        exact key _ (hs m1 (.running t1) (by rw [heq]; rfl))
      · rename_i m1 t1 e heq
        exact key _ (hs m1 (.returned t1 e) (by rw [heq]; rfl))
      · rename_i m1 t1 msg heq
        exact key _ (hs m1 (.panicked t1 msg) (by rw [heq]; rfl))
      · rfl
    · rfl

/-- What identifies each goroutine is the same when the group has run. -/
theorem Group.finish_ident {σ τ α : Type} (step : τ → σ → Step σ τ) (bound : τ → Nat)
    (ident : τ → α)
    (hid : ∀ t m m1 G1, (step t m).result = some (m1, G1) → ident G1.task = ident t)
    (sched : List Nat) (g : Group σ τ) :
    ((g.run step sched).drain step bound).goroutines.map (fun G => ident G.task) =
      g.goroutines.map (fun G => ident G.task) :=
  Group.finish_induct step bound
    (fun g1 => g1.goroutines.map (fun G => ident G.task) =
      g.goroutines.map (fun G => ident G.task))
    (fun i g1 h => (Group.stepAt_ident step ident hid i g1).trans h) sched g rfl

/-- No step ends the process when no step of a goroutine panics. -/
theorem Group.stepAt_crashed {σ τ : Type} (step : τ → σ → Step σ τ)
    (hnp : ∀ t m m1 t1 msg, step t m ≠ .panic m1 t1 msg)
    (i : Nat) (g : Group σ τ) (h : g.crashed = none) : (g.stepAt step i).crashed = none := by
  unfold Group.stepAt
  split
  · exact h
  · split
    · split
      · exact h
      · exact h
      · rename_i t _ m1 t1 msg heq
        exact absurd heq (hnp _ _ _ _ _)
      · exact h
    · exact h

/-- A goroutine at rest stays at rest. -/
theorem Group.stepAt_settled {σ τ : Type} (step : τ → σ → Step σ τ) (i j : Nat)
    (g : Group σ τ) (h : g.Settled i) : (g.stepAt step j).Settled i := by
  unfold Group.stepAt
  split
  · exact h
  · rename_i hc
    have h2 : ∀ G, g.goroutines[i]? = some G → G.isRunning = false := by
      rcases h with h | h
      · exact absurd hc h
      · exact h
    split
    · rename_i t ht
      have hne : j ≠ i := by
        intro hji
        subst hji
        simpa [Goroutine.isRunning] using h2 _ ht
      split
      · right
        intro G hG
        rw [List.getElem?_set_ne hne] at hG
        exact h2 G hG
      · right
        intro G hG
        rw [List.getElem?_set_ne hne] at hG
        exact h2 G hG
      · left
        simp
      · exact Or.inr h2
    · exact Or.inr h2

/-- A goroutine that never waits comes to rest within the steps its bound gives it. -/
theorem Group.stepTimes_settles {σ τ : Type} (step : τ → σ → Step σ τ) (bound : τ → Nat)
    (hdec : ∀ t m, ∃ m1 G1, (step t m).result = some (m1, G1) ∧ G1.left bound < bound t)
    (i n : Nat) (g : Group σ τ)
    (h : g.Settled i ∨ ∀ t, g.goroutines[i]? = some (.running t) → bound t ≤ n) :
    (g.stepTimes step i n).Settled i := by
  induction n generalizing g with
  | zero =>
    rcases h with h | h
    · exact h
    · right
      intro G hG
      cases G with
      | running t =>
        have := h t hG
        obtain ⟨_, _, _, hlt⟩ := hdec t g.shared
        omega
      | returned t e => rfl
      | panicked t msg => rfl
  | succ n ih =>
    show ((g.stepAt step i).stepTimes step i n).Settled i
    apply ih
    rcases h with h | h
    · exact Or.inl (Group.stepAt_settled step i i g h)
    · unfold Group.stepAt
      split
      · left; left; simp [*]
      · split
        · rename_i t ht
          have hb := h t ht
          obtain ⟨m2, G2, hd, hd2⟩ := hdec t g.shared
          have hlt : i < g.goroutines.length := by
            rcases Nat.lt_or_ge i g.goroutines.length with hlt | hge
            · exact hlt
            · rw [List.getElem?_eq_none hge] at ht; cases ht
          split
          · rename_i m1 t1 heq
            rw [heq] at hd
            cases hd
            right
            intro t2 h2
            simp only [List.getElem?_set_self hlt] at h2
            cases h2
            simp only [Goroutine.left] at hd2
            omega
          · left; right
            intro G hG
            simp only [List.getElem?_set_self hlt] at hG
            cases hG
            rfl
          · left; left; simp
          · rename_i heq
            rw [heq] at hd
            cases hd
        · rename_i hnr
          left; right
          intro G hG
          cases G with
          | running t => exact absurd hG (hnr t)
          | returned t e => rfl
          | panicked t msg => rfl

/-- After the goroutines of a list took their steps in turn, each of them is at rest. -/
theorem Group.foldl_settles {σ τ : Type} (step : τ → σ → Step σ τ) (bound : τ → Nat)
    (hdec : ∀ t m, ∃ m1 G1, (step t m).result = some (m1, G1) ∧ G1.left bound < bound t)
    (is : List Nat) (g : Group σ τ) (i : Nat) (hi : i ∈ is) :
    (is.foldl (fun g i => g.stepTimes step i (g.budget bound i)) g).Settled i := by
  induction is generalizing g with
  | nil => cases hi
  | cons j is ih =>
    rw [List.foldl_cons]
    by_cases hmem : i ∈ is
    · exact ih _ hmem
    · have hij : i = j := by
        rcases List.mem_cons.1 hi with h | h
        · exact h
        · exact absurd h hmem
      subst hij
      apply Group.foldl_induct step bound (fun g => g.Settled i)
        (fun j g h => Group.stepAt_settled step i j g h)
      apply Group.stepTimes_settles step bound hdec
      right
      intro t ht
      simp [Group.budget, ht]

/-- After a pass of goroutines that never wait, the process has ended or every
goroutine has. -/
theorem Group.pass_settles {σ τ : Type} (step : τ → σ → Step σ τ) (bound : τ → Nat)
    (hdec : ∀ t m, ∃ m1 G1, (step t m).result = some (m1, G1) ∧ G1.left bound < bound t)
    (g : Group σ τ) :
    (g.pass step bound).crashed ≠ none ∨
      ∀ G ∈ (g.pass step bound).goroutines, G.isRunning = false := by
  by_cases hc : (g.pass step bound).crashed = none
  · right
    intro G hG
    obtain ⟨i, hi⟩ := List.getElem?_of_mem hG
    have hlen : (g.pass step bound).goroutines.length = g.goroutines.length :=
      Group.pass_induct step bound (fun g1 => g1.goroutines.length = g.goroutines.length)
        (fun j g1 h => (Group.stepAt_length step j g1).trans h) g rfl
    have hlt : i < g.goroutines.length := by
      rcases Nat.lt_or_ge i (g.pass step bound).goroutines.length with hlt | hge
      · omega
      · rw [List.getElem?_eq_none hge] at hi; cases hi
    rcases Group.foldl_settles step bound hdec (List.range g.goroutines.length) g i
      (List.mem_range.2 hlt) with h | h
    · exact absurd hc h
    · exact h G hi
  · exact Or.inl hc

/-- What `Wait` returns when the process has not ended and no goroutine runs any more:
the first error. -/
theorem Group.wait_of_rest {σ τ : Type} (g : Group σ τ) (hk : g.Kept)
    (hc : g.crashed = none) (hr : ∀ G ∈ g.goroutines, G.isRunning = false) :
    g.wait = .returned g.err := by
  unfold Group.wait
  rw [hc]
  have : g.goroutines.all Goroutine.isReturned = true := by
    rw [List.all_eq_true]
    intro G hG
    cases G with
    | running t => simpa [Goroutine.isRunning] using hr _ hG
    | returned t e => rfl
    | panicked t msg => exact absurd hc (hk.2 t msg hG)
  simp [this]

/-! ## Discovery -/

/-- Recording a configuration load is a probe event. -/
theorem ProbesOnly.config {a b : List Event} (h : ProbesOnly a b) (r : String) (c : Config)
    (e : Option Error) : ProbesOnly a (b ++ [.LoadDefaultConfig r c e]) := by
  intro q hq1 hq2
  rw [List.filter_append, h q hq1 hq2]
  simp [hq1]

/-- Recording a listing call is a probe event. -/
theorem ProbesOnly.list {a b : List Event} (h : ProbesOnly a b) (c : Config)
    (i : ListLayerVersionsInput) (r : Except Error ListLayerVersionsOutput) :
    ProbesOnly a (b ++ [.ListLayerVersions c i r]) := by
  intro q hq1 hq2
  rw [List.filter_append, h q hq1 hq2]
  simp [hq2]

/-- A goroutine of discovery never waits and every step brings it closer to its end. -/
theorem getGreatestVersion_step_decreases (P : Provider) (t : Prober) (m : Discovery) :
    ∃ m1 G1, (getGreatestVersion.step P t m).result = some (m1, G1) ∧
      G1.left getGreatestVersion.bound < getGreatestVersion.bound t := by
  obtain ⟨layerName, region, pc⟩ := t
  cases pc <;> simp only [getGreatestVersion.step, getGreatestVersion.bound] <;>
    repeat' split
  all_goals exact ⟨_, _, rfl, by simp [Goroutine.left, getGreatestVersion.bound]⟩

/-- No step of a goroutine of discovery panics. -/
theorem getGreatestVersion_step_no_panic (P : Provider) (t : Prober) (m m1 : Discovery)
    (t1 : Prober) (msg : String) : getGreatestVersion.step P t m ≠ .panic m1 t1 msg := by
  obtain ⟨layerName, region, pc⟩ := t
  cases pc <;> simp only [getGreatestVersion.step] <;> repeat' split
  all_goals simp

/-- A goroutine of discovery keeps its layer name and its region. -/
theorem getGreatestVersion_step_ident (P : Provider) (t : Prober) (m m1 : Discovery)
    (G1 : Goroutine Prober) (h : (getGreatestVersion.step P t m).result = some (m1, G1)) :
    (G1.task.layerName, G1.task.region) = (t.layerName, t.region) := by
  obtain ⟨layerName, region, pc⟩ := t
  cases pc <;> simp only [getGreatestVersion.step] at h <;> repeat' split at h
  all_goals
    simp only [Step.result, Option.some.injEq, Prod.mk.injEq] at h
    obtain ⟨-, rfl⟩ := h
    rfl

/-- A step of discovery issues probe events only and leaves the layers alone. -/
theorem getGreatestVersion_step_probes (P : Provider) (tr0 : List Event)
    (layers : List LayerInfo) (t : Prober) (m m1 : Discovery) (G1 : Goroutine Prober)
    (hs : ProbesOnly tr0 m.state.trace ∧ m.state.canonicalLayers = layers)
    (h : (getGreatestVersion.step P t m).result = some (m1, G1)) :
    ProbesOnly tr0 m1.state.trace ∧ m1.state.canonicalLayers = layers := by
  obtain ⟨ln, rg, pc⟩ := t
  cases pc <;> simp only [getGreatestVersion.step] at h <;> repeat' split at h
  all_goals
    simp only [Step.result, Option.some.injEq, Prod.mk.injEq] at h
    obtain ⟨rfl, -⟩ := h
    first
      | exact hs
      | exact ⟨hs.1.config _ _ _, hs.2⟩
      | exact ⟨hs.1.list _ _ _, hs.2⟩

/-- The probe of a goroutine that is bound to fail stays bound to fail. -/
theorem getGreatestVersion_step_fails (P : Provider) (tr0 : List Event)
    (layerName region : String) (t : Prober) (m m1 : Discovery) (G1 : Goroutine Prober)
    (hs : ProbesOnly tr0 m.state.trace)
    (ht : t.layerName = layerName ∧ t.region = region →
      Prober.Fails P (tr0.filter Event.isWrite) (.running t))
    (h : (getGreatestVersion.step P t m).result = some (m1, G1)) :
    G1.task.layerName = layerName ∧ G1.task.region = region →
      Prober.Fails P (tr0.filter Event.isWrite) G1 := by
  obtain ⟨ln, rg, pc⟩ := t
  have hw := hs.isWrite
  cases pc with
  | config =>
    simp only [getGreatestVersion.step] at h
    split at h
    · simp only [Step.result, Option.some.injEq, Prod.mk.injEq] at h
      obtain ⟨rfl, rfl⟩ := h
      exact fun _ => by simp [Prober.Fails]
    · rename_i cfg hcfg
      simp only [Step.result, Option.some.injEq, Prod.mk.injEq] at h
      obtain ⟨rfl, rfl⟩ := h
      intro hid
      have h1 := ht hid
      simp only [Prober.Fails] at h1 ⊢
      intro tr1 htr1
      have h2 := h1 m.state.trace tr1 hw htr1
      simp only [probeFailsAt, hcfg] at h2
      split at h2
      · trivial
      · simpa using h2
  | list cfg =>
    simp only [getGreatestVersion.step] at h
    split at h
    · simp only [Step.result, Option.some.injEq, Prod.mk.injEq] at h
      obtain ⟨rfl, rfl⟩ := h
      exact fun _ => by simp [Prober.Fails]
    · split at h
      · simp only [Step.result, Option.some.injEq, Prod.mk.injEq] at h
        obtain ⟨rfl, rfl⟩ := h
        exact fun _ => by simp [Prober.Fails]
      · rename_i out hout _ item rest hitem
        simp only [Step.result, Option.some.injEq, Prod.mk.injEq] at h
        obtain ⟨rfl, rfl⟩ := h
        intro hid
        have h1 := ht hid
        simp only [Prober.Fails] at h1
        have h2 := h1 m.state.trace hw
        rw [hout] at h2
        simp only at h2
        rw [h2] at hitem
        cases hitem
  | read version =>
    simp only [getGreatestVersion.step, Step.result, Option.some.injEq, Prod.mk.injEq] at h
    obtain ⟨rfl, rfl⟩ := h
    exact fun hid => (ht hid).elim
  | write version versions =>
    simp only [getGreatestVersion.step, Step.result, Option.some.injEq, Prod.mk.injEq] at h
    obtain ⟨rfl, rfl⟩ := h
    exact fun hid => (ht hid).elim

/-- Starting the goroutines adds nothing but `Go` events to the trace. -/
theorem State.go_filter (s : State) (tasks : List (Nat × String)) (q : Event → Bool)
    (hq : ∀ l r, q (.Go l r) = false) : (s.go tasks).trace.filter q = s.trace.filter q := by
  simp only [State.go, List.filter_append]
  have : (tasks.map fun p => Event.Go p.1 p.2).filter q = [] := by
    rw [List.filter_eq_nil_iff]
    intro e he
    obtain ⟨p, -, rfl⟩ := List.mem_map.1 he
    simp [hq]
  rw [this, List.append_nil]

/-- Discovery when `Wait` returns: no goroutine panicked and none runs any more, the
first error is recorded, the trace grew by the `Go` events and then by probe events only,
the layers are as before, and the goroutines are those of the tasks, in their order. -/
theorem getGreatestVersion_group_facts (P : Provider) (sched : List Nat) (s : State) :
    (getGreatestVersion.group P sched s).crashed = none ∧
    (∀ G ∈ (getGreatestVersion.group P sched s).goroutines, G.isRunning = false) ∧
    (getGreatestVersion.group P sched s).Kept ∧
    ProbesOnly (s.go (getGreatestVersion.tasks s.canonicalLayers)).trace
      (getGreatestVersion.group P sched s).shared.state.trace ∧
    (getGreatestVersion.group P sched s).shared.state.canonicalLayers = s.canonicalLayers ∧
    (getGreatestVersion.group P sched s).goroutines.map
        (fun G => (G.task.layerName, G.task.region)) =
      (getGreatestVersion.tasks s.canonicalLayers).map fun p => ((s.layerAt p.1).Name, p.2) := by
  have hc : (getGreatestVersion.group P sched s).crashed = none :=
    Group.finish_induct _ _ (fun g => g.crashed = none)
      (Group.stepAt_crashed _ (getGreatestVersion_step_no_panic P)) sched _ rfl
  refine ⟨hc, ?_, ?_, ?_, ?_, ?_⟩
  · rcases Group.pass_settles (getGreatestVersion.step P) getGreatestVersion.bound
      (getGreatestVersion_step_decreases P) _ with h | h
    · exact absurd hc h
    · exact h
  · apply Group.finish_kept
    constructor
    · intro t e hm
      simp at hm
    · intro t msg hm
      simp at hm
  · exact (Group.finish_invariant (getGreatestVersion.step P) getGreatestVersion.bound
      (fun m => ProbesOnly (s.go (getGreatestVersion.tasks s.canonicalLayers)).trace m.state.trace ∧
        m.state.canonicalLayers = s.canonicalLayers)
      (fun _ _ => True)
      (fun t m m1 G1 hs _ h =>
        ⟨getGreatestVersion_step_probes P _ _ t m m1 G1 hs h, trivial, fun _ _ => trivial⟩)
      sched _ ⟨⟨ProbesOnly.refl _, rfl⟩, fun _ _ => trivial⟩).1.1
  · exact (Group.finish_invariant (getGreatestVersion.step P) getGreatestVersion.bound
      (fun m => ProbesOnly (s.go (getGreatestVersion.tasks s.canonicalLayers)).trace m.state.trace ∧
        m.state.canonicalLayers = s.canonicalLayers)
      (fun _ _ => True)
      (fun t m m1 G1 hs _ h =>
        ⟨getGreatestVersion_step_probes P _ _ t m m1 G1 hs h, trivial, fun _ _ => trivial⟩)
      sched _ ⟨⟨ProbesOnly.refl _, rfl⟩, fun _ _ => trivial⟩).1.2
  · refine (Group.finish_ident (getGreatestVersion.step P) getGreatestVersion.bound
      (fun t => (t.layerName, t.region)) (getGreatestVersion_step_ident P) sched _).trans ?_
    simp [List.map_map, Function.comp_def, Goroutine.task]

/-- Discovery with a pair whose probe fails whenever it is made before a write: a
goroutine has returned an error. -/
theorem getGreatestVersion_group_fails (P : Provider) (sched : List Nat) (s : State)
    (hfail : ∃ idx region, idx < s.canonicalLayers.length ∧ region ∈ regions ∧
      excluded (s.layerAt idx) region = false ∧
      ∀ tr tr1 : List Event, tr.filter Event.isWrite = s.trace.filter Event.isWrite →
        tr1.filter Event.isWrite = s.trace.filter Event.isWrite →
        probeFailsAt P (s.layerAt idx).Name region tr tr1 = true) :
    ∃ t e, Goroutine.returned t (some e) ∈ (getGreatestVersion.group P sched s).goroutines := by
  obtain ⟨idx, region, h1, h2, h3, hf⟩ := hfail
  have hgo : (s.go (getGreatestVersion.tasks s.canonicalLayers)).trace.filter Event.isWrite =
      s.trace.filter Event.isWrite := State.go_filter s _ _ (fun _ _ => rfl)
  have hinv := (Group.finish_invariant (getGreatestVersion.step P) getGreatestVersion.bound
      (fun m => ProbesOnly (s.go (getGreatestVersion.tasks s.canonicalLayers)).trace m.state.trace)
      (fun _ G => G.task.layerName = (s.layerAt idx).Name ∧ G.task.region = region →
        Prober.Fails P ((s.go (getGreatestVersion.tasks s.canonicalLayers)).trace.filter
          Event.isWrite) G)
      (fun t m m1 G1 hs ht h =>
        ⟨(getGreatestVersion_step_probes P _ m.state.canonicalLayers t m m1 G1 ⟨hs, rfl⟩ h).1,
          getGreatestVersion_step_fails P _ _ _ t m m1 G1 hs ht h, fun _ hG => hG⟩)
      sched
      { shared := { state := s.go (getGreatestVersion.tasks s.canonicalLayers), versions := [] }
        goroutines := (getGreatestVersion.tasks s.canonicalLayers).map fun p =>
          .running { layerName := (s.layerAt p.1).Name, region := p.2, pc := .config }
        err := none
        crashed := none }
      ⟨ProbesOnly.refl _, by
        intro G hG hid
        obtain ⟨p, -, rfl⟩ := List.mem_map.1 hG
        simp only [Goroutine.task] at hid
        simp only [Prober.Fails, hid.1, hid.2, hgo]
        exact hf⟩).2
  obtain ⟨hc, hrest, -, -, -, hmap⟩ := getGreatestVersion_group_facts P sched s
  have hmem : ((s.layerAt idx).Name, region) ∈
      (getGreatestVersion.group P sched s).goroutines.map
        (fun G => (G.task.layerName, G.task.region)) := by
    rw [hmap]
    exact List.mem_map.2 ⟨(idx, region), (mem_tasks _ idx region).2 ⟨h1, h2, h3⟩, rfl⟩
  obtain ⟨G, hG, hid⟩ := List.mem_map.1 hmem
  have hfails := hinv G hG ⟨congrArg Prod.fst hid, congrArg Prod.snd hid⟩
  have hrun := hrest G hG
  cases G with
  | running t => simp [Goroutine.isRunning] at hrun
  | returned t e =>
    cases e with
    | none => simp [Prober.Fails] at hfails
    | some e => exact ⟨t, e, hG⟩
  | panicked t msg => simp [Prober.Fails] at hfails

/-- The state in which `getGreatestVersion` ends is the one its goroutines left. -/
theorem getGreatestVersion_state (P : Provider) (sched : List Nat) (s : State) :
    (getGreatestVersion P sched s).1 = (getGreatestVersion.group P sched s).shared.state := by
  unfold getGreatestVersion
  simp only []
  repeat' split
  all_goals rfl

/-- An observation blind to probe events and to `Go` sees after `getGreatestVersion` what
it saw before, and the layers are as before. -/
theorem getGreatestVersion_filter (P : Provider) (sched : List Nat) (s : State)
    (q : Event → Bool) (hq1 : ∀ r c e, q (.LoadDefaultConfig r c e) = false)
    (hq2 : ∀ c i r, q (.ListLayerVersions c i r) = false) (hq3 : ∀ l r, q (.Go l r) = false) :
    (getGreatestVersion P sched s).1.trace.filter q = s.trace.filter q ∧
    (getGreatestVersion P sched s).1.canonicalLayers = s.canonicalLayers := by
  obtain ⟨-, -, -, hp, hl, -⟩ := getGreatestVersion_group_facts P sched s
  rw [getGreatestVersion_state]
  exact ⟨(hp q hq1 hq2).trans (State.go_filter s _ q hq3), hl⟩

/-- A pair whose probe fails whenever it is made before a write makes
`getGreatestVersion` return an error, in every schedule. -/
theorem getGreatestVersion_fails (P : Provider) (sched : List Nat) (s : State)
    (hfail : ∃ idx region, idx < s.canonicalLayers.length ∧ region ∈ regions ∧
      excluded (s.layerAt idx) region = false ∧
      ∀ tr tr1 : List Event, tr.filter Event.isWrite = s.trace.filter Event.isWrite →
        tr1.filter Event.isWrite = s.trace.filter Event.isWrite →
        probeFailsAt P (s.layerAt idx).Name region tr tr1 = true) :
    ∃ e, (getGreatestVersion P sched s).2 = .returned (.error e) := by
  obtain ⟨t, e, hm⟩ := getGreatestVersion_group_fails P sched s hfail
  obtain ⟨hc, hrest, hk, -, -, -⟩ := getGreatestVersion_group_facts P sched s
  have hw := Group.wait_of_rest _ hk hc hrest
  have he := hk.1 t e hm
  cases herr : (getGreatestVersion.group P sched s).err with
  | none => exact absurd herr he
  | some e1 =>
    refine ⟨e1, ?_⟩
    unfold getGreatestVersion
    simp only [hw, herr]

/-- A step of discovery leaves `versions` alone and is not a return of nil, or it leaves
`versions` non-empty. -/
theorem getGreatestVersion_step_versions (P : Provider) (t : Prober) (m m1 : Discovery)
    (G1 : Goroutine Prober) (h : (getGreatestVersion.step P t m).result = some (m1, G1)) :
    (m1.versions = m.versions ∧ ∀ t1, G1 ≠ .returned t1 none) ∨ m1.versions ≠ [] := by
  obtain ⟨layerName, region, pc⟩ := t
  cases pc <;> simp only [getGreatestVersion.step] at h <;> repeat' split at h
  all_goals
    simp only [Step.result, Option.some.injEq, Prod.mk.injEq] at h
    obtain ⟨rfl, rfl⟩ := h
    first
    | exact Or.inl ⟨rfl, fun t1 h1 => by cases h1⟩
    | exact Or.inr (by simp)

/-- Over a non-empty task list `getGreatestVersion` does not panic: when every goroutine
has returned nil, `versions` is not empty and element 0 of the sorted slice exists. -/
theorem getGreatestVersion_no_panic (P : Provider) (sched : List Nat) (s : State)
    (h : getGreatestVersion.tasks s.canonicalLayers ≠ []) :
    ∃ r, (getGreatestVersion P sched s).2 = .returned r := by
  obtain ⟨hc, hrest, hk, -, -, hmap⟩ := getGreatestVersion_group_facts P sched s
  have hw := Group.wait_of_rest _ hk hc hrest
  have hinv := (Group.finish_invariant (getGreatestVersion.step P) getGreatestVersion.bound
      (fun _ => True)
      (fun m G => (∃ t, G = .returned t none) → m.versions ≠ [])
      (fun t m m1 G1 _ _ hres => by
        refine ⟨trivial, ?_, ?_⟩
        · rintro ⟨t1, rfl⟩
          rcases getGreatestVersion_step_versions P t m m1 _ hres with ⟨-, h2⟩ | h2
          · exact absurd rfl (h2 t1)
          · exact h2
        · intro G hG hret
          rcases getGreatestVersion_step_versions P t m m1 _ hres with ⟨h1, -⟩ | h2
          · rw [h1]; exact hG hret
          · exact h2)
      sched
      { shared := { state := s.go (getGreatestVersion.tasks s.canonicalLayers), versions := [] }
        goroutines := (getGreatestVersion.tasks s.canonicalLayers).map fun p =>
          .running { layerName := (s.layerAt p.1).Name, region := p.2, pc := .config }
        err := none
        crashed := none }
      ⟨trivial, by
        rintro G hG ⟨t, rfl⟩
        obtain ⟨p, -, hp⟩ := List.mem_map.1 hG
        cases hp⟩).2
  unfold getGreatestVersion
  simp only [hw]
  cases herr : (getGreatestVersion.group P sched s).err with
  | some e => exact ⟨_, rfl⟩
  | none =>
    simp only []
    have hne : (getGreatestVersion.group P sched s).goroutines ≠ [] := by
      intro hnil
      rw [hnil] at hmap
      exact h (List.map_eq_nil_iff.1 hmap.symm)
    obtain ⟨G, hG⟩ := List.exists_mem_of_ne_nil _ hne
    have hv : (getGreatestVersion.group P sched s).shared.versions ≠ [] := by
      apply hinv G hG
      have hrun := hrest G hG
      cases G with
      | running t => cases hrun
      | returned t e =>
        cases e with
        | none => exact ⟨t, rfl⟩
        | some e => exact absurd herr (hk.1 t e hG)
      | panicked t msg => exact absurd hc (hk.2 t msg hG)
    have hs : (getGreatestVersion.group P sched s).shared.versions.insertionSort
        (fun a b => a ≥ b) ≠ [] := by
      intro hnil
      have := List.length_insertionSort (fun a b : Int => a ≥ b)
        (getGreatestVersion.group P sched s).shared.versions
      rw [hnil] at this
      exact hv (List.length_eq_zero.1 this.symm)
    split
    · rename_i heq
      exact absurd heq hs
    · exact ⟨_, rfl⟩

/-! ## Harmonization -/

/-- Writing the guard or the content of a layer keeps the fixed fields of every layer. -/
theorem State.setLayer_static (s : State) (layer : Nat) (l : LayerInfo)
    (hl : l.static = (s.layerAt layer).static) :
    (s.setLayer layer l).canonicalLayers.map LayerInfo.static =
      s.canonicalLayers.map LayerInfo.static := by
  simp only [State.setLayer]
  apply List.ext_getElem
  · simp
  · intro n h1 h2
    simp only [List.getElem_map, List.getElem_set]
    split
    · next h =>
      subst h
      rw [hl]
      simp at h2
      simp [State.layerAt, List.getD_eq_getElem?_getD, h2]
    · rfl

/-- The closure of `Once.Do` is left: the fixed fields of every layer are kept. -/
theorem Memory.release_static (m : Memory) (layer : Nat) :
    (m.release layer).state.canonicalLayers.map LayerInfo.static =
      m.state.canonicalLayers.map LayerInfo.static :=
  State.setLayer_static _ _ _ rfl

/-- What a step of a goroutine of `balanceRegions` does: the goroutine keeps its region,
layer and target; it issues no event or one event, which is no `Go` and enters both the
trace and its own events; the fixed fields of every layer are kept. -/
theorem balanceRegionToVersion_step_shape (P : Provider) (t : Harmonizer) (m m1 : Memory)
    (G1 : Goroutine Harmonizer)
    (h : (balanceRegionToVersion.step P t m).result = some (m1, G1)) :
    (G1.task.layer = t.layer ∧ G1.task.region = t.region ∧ G1.task.maxVersion = t.maxVersion) ∧
    ((m1.state.trace = m.state.trace ∧ G1.task.events = t.events) ∨
      ∃ e, m1.state.trace = m.state.trace ++ [e] ∧ G1.task.events = t.events ++ [e] ∧
        e.isGo = false) ∧
    m1.state.canonicalLayers.map LayerInfo.static =
      m.state.canonicalLayers.map LayerInfo.static := by
  obtain ⟨region, layer, maxVersion, pc, events⟩ := t
  cases pc <;> simp only [balanceRegionToVersion.step] at h <;> repeat' split at h
  all_goals simp only [Step.result, Option.some.injEq, Prod.mk.injEq, reduceCtorEq] at h
  all_goals
    obtain ⟨rfl, rfl⟩ := h
    refine ⟨⟨rfl, rfl, rfl⟩, ?_, ?_⟩
  all_goals
    first
    | rfl
    | exact Memory.release_static _ _
    | exact Or.inl ⟨rfl, rfl⟩
    | exact Or.inr ⟨_, rfl, rfl, rfl⟩
    | exact (Memory.release_static _ _).trans (State.setLayer_static _ _ _ rfl)

/-- The write events of completed rounds, one round more. -/
theorem rounds_append (cfg : Config) (region : String) (l : LayerInfo)
    (rs : List (Bytes × PublishLayerVersionOutput)) (payload : Bytes)
    (out : PublishLayerVersionOutput) :
    rounds cfg region l (rs ++ [(payload, out)]) =
      rounds cfg region l rs ++
        [.PublishLayerVersion cfg (publishInput region l payload) (.ok out),
          .AddLayerVersionPermission cfg (permissionInput l out.Version) (.ok ())] := by
  induction rs with
  | nil => rfl
  | cons x rs ih =>
    obtain ⟨p, o⟩ := x
    show _ :: _ :: rounds cfg region l (rs ++ [(payload, out)]) = _
    rw [ih]
    rfl

/-- A step of a goroutine of `balanceRegions` keeps the shape of its write events. -/
theorem balanceRegionToVersion_step_log (P : Provider) (l : LayerInfo) (t : Harmonizer)
    (m m1 : Memory) (G1 : Goroutine Harmonizer)
    (hl : (m.state.layerAt t.layer).static = l.static)
    (ht : Harmonizer.Log l (.running t))
    (h : (balanceRegionToVersion.step P t m).result = some (m1, G1)) :
    Harmonizer.Log l G1 := by
  obtain ⟨region, layer, maxVersion, pc, events⟩ := t
  have hp := fun payload => publishInput_congr region l (m.state.layerAt layer) payload hl
  have hg := fun version => permissionInput_congr l (m.state.layerAt layer) version hl
  cases pc <;> simp only [balanceRegionToVersion.step] at h <;> repeat' split at h
  all_goals simp only [Step.result, Option.some.injEq, Prod.mk.injEq, reduceCtorEq] at h
  all_goals
    obtain ⟨rfl, rfl⟩ := h
    simp only [Harmonizer.Log, Harmonizer.emit, List.filter_append] at ht ⊢
  all_goals
    first
    | exact ht
    | exact ⟨default, [], [], by simpa [rounds, Event.isWrite, Event.isPublish, Event.isGrant] using ht, Or.inl rfl⟩
    | simpa [rounds, Event.isWrite, Event.isPublish, Event.isGrant] using ht
    | exact ⟨[], by simpa [rounds, Event.isWrite, Event.isPublish, Event.isGrant] using ht⟩
    | (obtain ⟨rs, hrs⟩ := ht
       first
       | exact ⟨rs, by simpa [Event.isWrite, Event.isPublish, Event.isGrant] using hrs⟩
       | exact ⟨_, rs, by simpa [Event.isWrite, Event.isPublish, Event.isGrant] using hrs⟩
       | exact ⟨_, rs, [], by simpa [Event.isWrite, Event.isPublish, Event.isGrant] using hrs, Or.inl rfl⟩)
    | skip
  · rename_i cfg i payload _ err heq
    obtain ⟨rs, hrs⟩ := ht
    refine ⟨cfg, rs, [.PublishLayerVersion cfg (publishInput region l payload) (.error err)], ?_,
      Or.inr (Or.inl ⟨payload, err, rfl, rfl⟩)⟩
    rw [hrs, heq, hp]
    rfl
  · rename_i cfg i payload _ out heq
    obtain ⟨rs, hrs⟩ := ht
    refine ⟨rs, payload, out, rfl, ?_⟩
    rw [hrs, heq, hp]
    rfl
  · rename_i cfg i version _ err heq
    obtain ⟨rs, payload, out, rfl, hrs⟩ := ht
    refine ⟨cfg, rs, [.PublishLayerVersion cfg (publishInput region l payload) (.ok out),
      .AddLayerVersionPermission cfg (permissionInput l out.Version) (.error err)], ?_,
      Or.inr (Or.inr ⟨payload, out, err, rfl, rfl⟩)⟩
    rw [hrs, heq, hg, List.append_assoc]
    rfl
  · rename_i cfg i version _ u heq
    obtain ⟨rs, payload, out, rfl, hrs⟩ := ht
    refine ⟨rs ++ [(payload, out)], ?_⟩
    rw [hrs, heq, hg, rounds_append, List.append_assoc]
    rfl

/-- A step of a goroutine of `balanceRegions` keeps what the goroutines keep of the memory
they share. -/
theorem balanceRegionToVersion_step_inv (P : Provider) (s0 : State) (t : Harmonizer)
    (m m1 : Memory) (G1 : Goroutine Harmonizer) (hs : m.Inv s0)
    (h : (balanceRegionToVersion.step P t m).result = some (m1, G1)) : m1.Inv s0 := by
  obtain ⟨-, he, hst⟩ := balanceRegionToVersion_step_shape P t m m1 G1 h
  refine ⟨hst.trans hs.1, ?_, ?_⟩
  · rcases he with ⟨he, -⟩ | ⟨e, he, -, -⟩
    · rw [he]; exact hs.2.1
    · rw [he]; exact hs.2.1.trans (List.prefix_append _ _)
  · rcases he with ⟨he, -⟩ | ⟨e, he, -, hgo⟩
    · rw [he]; exact hs.2.2
    · rw [he, List.filter_append, hs.2.2]
      simp [hgo]

/-- The events a goroutine has issued stay in the trace, in their order, when any
goroutine takes a step. -/
theorem balanceRegionToVersion_step_sublist (P : Provider) (s0 : State) (t : Harmonizer)
    (m m1 : Memory) (G1 : Goroutine Harmonizer) (hs : m.Inv s0)
    (h : (balanceRegionToVersion.step P t m).result = some (m1, G1)) :
    (t.events.Sublist (m.state.trace.drop s0.trace.length) →
      G1.task.events.Sublist (m1.state.trace.drop s0.trace.length)) ∧
    ∀ G : Goroutine Harmonizer, G.task.events.Sublist (m.state.trace.drop s0.trace.length) →
      G.task.events.Sublist (m1.state.trace.drop s0.trace.length) := by
  obtain ⟨-, he, -⟩ := balanceRegionToVersion_step_shape P t m m1 G1 h
  have hlen : s0.trace.length ≤ m.state.trace.length := hs.2.1.length_le
  rcases he with ⟨he, he1⟩ | ⟨e, he, he1, -⟩
  · rw [he, he1]
    exact ⟨id, fun _ => id⟩
  · rw [he, he1, List.drop_append_of_le_length hlen]
    exact ⟨fun hsub => hsub.append (List.Sublist.refl _),
      fun _ hsub => hsub.trans (List.sublist_append_left _ _)⟩

/-- The goroutines of `balanceRegions` when `Wait` returns, from the state `s` in which
the function is called: the first error and a panic are recorded; the fixed fields of the
layers, the trace before and the `Go` events are kept; the write events of every
goroutine have the shape of its place, and its events are in the trace after the `Go`
events; the goroutines are those of the tasks, in their order. -/
theorem balanceRegions_group_facts (P : Provider) (sched : List Nat) (s : State)
    (maxVersion : Int) :
    (balanceRegions.group P sched s maxVersion).Kept ∧
    (balanceRegions.group P sched s maxVersion).shared.Inv
      (s.go (balanceRegions.tasks s.canonicalLayers)) ∧
    (∀ G ∈ (balanceRegions.group P sched s maxVersion).goroutines,
      Harmonizer.Log (s.layerAt G.task.layer) G ∧
      G.task.events.Sublist ((balanceRegions.group P sched s maxVersion).shared.state.trace.drop
        (s.go (balanceRegions.tasks s.canonicalLayers)).trace.length)) ∧
    (balanceRegions.group P sched s maxVersion).goroutines.map
        (fun G => (G.task.layer, G.task.region)) = balanceRegions.tasks s.canonicalLayers := by
  have hinv := Group.finish_invariant (balanceRegionToVersion.step P)
    balanceRegionToVersion.bound
    (fun m => m.Inv (s.go (balanceRegions.tasks s.canonicalLayers)))
    (fun m G => Harmonizer.Log (s.layerAt G.task.layer) G ∧
      G.task.events.Sublist (m.state.trace.drop
        (s.go (balanceRegions.tasks s.canonicalLayers)).trace.length))
    (fun t m m1 G1 hs ht h => by
      obtain ⟨⟨hlay, -, -⟩, -, -⟩ := balanceRegionToVersion_step_shape P t m m1 G1 h
      have hsub := balanceRegionToVersion_step_sublist P _ t m m1 G1 hs h
      refine ⟨balanceRegionToVersion_step_inv P _ t m m1 G1 hs h, ⟨?_, hsub.1 ht.2⟩,
        fun G hG => ⟨hG.1, hsub.2 G hG.2⟩⟩
      rw [hlay]
      exact balanceRegionToVersion_step_log P _ t m m1 G1
        (layerAt_static s m.state t.layer hs.1) ht.1 h)
    sched
    { shared := { state := s.go (balanceRegions.tasks s.canonicalLayers), held := [] }
      goroutines := (balanceRegions.tasks s.canonicalLayers).map fun p =>
        .running
          { region := p.2, layer := p.1, maxVersion := maxVersion, pc := .probeConfig,
            events := [] }
      err := none
      crashed := none }
    ⟨⟨rfl, List.prefix_refl _, rfl⟩, by
      intro G hG
      obtain ⟨p, -, rfl⟩ := List.mem_map.1 hG
      exact ⟨rfl, List.nil_sublist _⟩⟩
  refine ⟨?_, hinv.1, hinv.2, ?_⟩
  · apply Group.finish_kept
    constructor
    · intro t e hm
      simp at hm
    · intro t msg hm
      simp at hm
  · refine (Group.finish_ident (balanceRegionToVersion.step P) balanceRegionToVersion.bound
      (fun t => (t.layer, t.region))
      (fun t m m1 G1 h => by
        obtain ⟨⟨h1, h2, -⟩, -, -⟩ := balanceRegionToVersion_step_shape P t m m1 G1 h
        show (G1.task.layer, G1.task.region) = (t.layer, t.region)
        rw [h1, h2]) sched _).trans ?_
    simp [List.map_map, Function.comp_def, Goroutine.task]

/-- No publish of a completed round failed. -/
theorem rounds_publish_ne (cfg : Config) (region : String) (l : LayerInfo)
    (rs : List (Bytes × PublishLayerVersionOutput)) (cfgj : Config)
    (inputj : PublishLayerVersionInput) (ej : Error) (n : Nat) :
    ((rounds cfg region l rs).filter Event.isPublish)[n]? ≠
      some (.PublishLayerVersion cfgj inputj (.error ej)) := by
  intro h
  obtain ⟨x, -, hx⟩ := mem_rounds_isPublish cfg region l rs _ (List.getElem?_mem h)
  cases hx

/-- A failed publish among the publishes of completed rounds and one more event is that
event, right after the rounds. -/
theorem rounds_publish_last (cfg : Config) (region : String) (l : LayerInfo)
    (rs : List (Bytes × PublishLayerVersionOutput)) (x : Event) (cfgj : Config)
    (inputj : PublishLayerVersionInput) (ej : Error) (n : Nat)
    (h : ((rounds cfg region l rs).filter Event.isPublish ++ [x])[n]? =
      some (.PublishLayerVersion cfgj inputj (.error ej))) :
    rs.length = n ∧ x = .PublishLayerVersion cfgj inputj (.error ej) := by
  have hlen : ((rounds cfg region l rs).filter Event.isPublish).length = rs.length := by
    rw [filter_isPublish_rounds, List.length_map]
  rcases Nat.lt_or_ge n ((rounds cfg region l rs).filter Event.isPublish).length with hn | hn
  · rw [List.getElem?_append_left hn] at h
    exact absurd h (rounds_publish_ne cfg region l rs cfgj inputj ej n)
  · rw [List.getElem?_append_right hn] at h
    rcases hk : n - ((rounds cfg region l rs).filter Event.isPublish).length with _ | k
    · rw [hk] at h
      simp only [List.getElem?_cons_zero, Option.some.injEq] at h
      exact ⟨by omega, h⟩
    · rw [hk] at h
      simp at h

/-- A goroutine of `balanceRegions` one of whose publish calls failed, the call number
`n + 1` of its publish calls: it has returned the publish error, and its write events are
`n` completed rounds and then the failed publish. -/
theorem Harmonizer.Log.failed_publish (l : LayerInfo) (G : Goroutine Harmonizer)
    (hlog : Harmonizer.Log l G) (n : Nat) (cfgj : Config) (inputj : PublishLayerVersionInput)
    (ej : Error)
    (hfail : (G.task.events.filter Event.isPublish)[n]? =
      some (.PublishLayerVersion cfgj inputj (.error ej))) :
    G = .returned G.task (some ("error publishing layer version: " ++ ej)) ∧
    ∃ rs payload, rs.length = n ∧ inputj = publishInput G.task.region l payload ∧
      G.task.events.filter Event.isWrite =
        rounds cfgj G.task.region l rs ++ [.PublishLayerVersion cfgj inputj (.error ej)] := by
  rw [← filter_isPublish_filter_isWrite] at hfail
  have hnil : ∀ W : List Event, W = [] →
      (W.filter Event.isPublish)[n]? ≠ some (.PublishLayerVersion cfgj inputj (.error ej)) := by
    intro W hW
    simp [hW]
  have hrounds : ∀ (W : List Event) (cfg : Config) (region : String),
      (∃ rs, W = rounds cfg region l rs) →
      (W.filter Event.isPublish)[n]? ≠ some (.PublishLayerVersion cfgj inputj (.error ej)) := by
    rintro W cfg region ⟨rs, rfl⟩
    exact rounds_publish_ne cfg region l rs cfgj inputj ej n
  cases G with
  | running t =>
    obtain ⟨region, layer, maxVersion, pc, events⟩ := t
    simp only [Goroutine.task] at hfail
    cases pc
    case grant cfg i version =>
      obtain ⟨rs, payload, out, -, hrs⟩ := hlog
      simp only at hrs
      rw [hrs, List.filter_append] at hfail
      have := (rounds_publish_last cfg region l rs _ cfgj inputj ej n hfail).2
      cases this
    all_goals first
      | exact absurd hfail (hnil _ hlog)
      | exact absurd hfail (hrounds _ _ _ hlog)
  | returned t err =>
    obtain ⟨cfg, rs, tail, hrs, hend⟩ := hlog
    simp only [Goroutine.task] at hfail ⊢
    rw [hrs] at hfail
    rcases hend with rfl | ⟨payload, e, rfl, rfl⟩ | ⟨payload, out, e, rfl, rfl⟩
    · rw [List.append_nil] at hfail
      exact absurd hfail (rounds_publish_ne cfg t.region l rs cfgj inputj ej n)
    · rw [List.filter_append] at hfail
      obtain ⟨hn, hx⟩ := rounds_publish_last cfg t.region l rs _ cfgj inputj ej n hfail
      cases hx
      exact ⟨rfl, rs, payload, hn, rfl, hrs⟩
    · rw [List.filter_append] at hfail
      have := (rounds_publish_last cfg t.region l rs _ cfgj inputj ej n hfail).2
      cases this
  | panicked t msg =>
    obtain ⟨cfg, rs, hrs⟩ := hlog
    simp only [Goroutine.task] at hfail
    rw [hrs] at hfail
    exact absurd hfail (rounds_publish_ne cfg t.region l rs cfgj inputj ej n)

/-! ## The guard of the content fetch -/

/-- A layer after a write through a `*LayerInfo`. -/
theorem State.layerAt_setLayer (s : State) (layer j : Nat) (l : LayerInfo) :
    (s.setLayer layer l).layerAt j =
      if j = layer ∧ layer < s.canonicalLayers.length then l else s.layerAt j := by
  simp only [State.layerAt, State.setLayer, List.getD_eq_getElem?_getD, List.getElem?_set]
  by_cases hj : layer = j
  · subst hj
    by_cases hl : layer < s.canonicalLayers.length
    · simp [hl]
    · simp [hl, List.getElem?_eq_none (Nat.le_of_not_lt hl)]
  · have : ¬ j = layer := fun h => hj h.symm
    simp [hj, this]

/-- Issuing an event leaves the guards alone. -/
theorem Memory.emit_once (m : Memory) (e : Event) (layer : Nat) :
    (m.emit e).once layer = m.once layer := rfl

/-- Leaving the closure of `Once.Do` fires the guard of the layer. -/
theorem Memory.release_once (m : Memory) (layer j : Nat) :
    (m.release layer).once j =
      if j = layer ∧ layer < m.state.canonicalLayers.length then true else m.once j := by
  simp only [Memory.once, Memory.release, State.layerAt_setLayer]
  split <;> rfl

/-- A guard that has fired stays fired, and no layer is added or removed. -/
theorem balanceRegionToVersion_step_once (P : Provider) (t : Harmonizer) (m m1 : Memory)
    (G1 : Goroutine Harmonizer)
    (h : (balanceRegionToVersion.step P t m).result = some (m1, G1)) :
    m1.state.canonicalLayers.length = m.state.canonicalLayers.length ∧
    ∀ layer, m.once layer = true → m1.once layer = true := by
  obtain ⟨-, -, hst⟩ := balanceRegionToVersion_step_shape P t m m1 G1 h
  refine ⟨by simpa using congrArg List.length hst, ?_⟩
  obtain ⟨region, layer, maxVersion, pc, events⟩ := t
  cases pc <;> simp only [balanceRegionToVersion.step] at h <;> repeat' split at h
  all_goals simp only [Step.result, Option.some.injEq, Prod.mk.injEq, reduceCtorEq] at h
  all_goals
    obtain ⟨rfl, -⟩ := h
    intro j hj
    try simp only [Memory.release_once]
    try simp only [Memory.once, Memory.emit, State.layerAt_setLayer, State.log_layerAt] at hj ⊢
    repeat' split
    all_goals first | rfl | exact hj | simp_all [State.setLayer, State.log]

/-- What a step does to the guards: it leaves them alone and the goroutine stays inside
or outside the closure of `Once.Do`; or the goroutine enters the closure and takes the
guard of its layer, which had not fired and was not held; or it leaves the closure, and
the guard has fired and is released. -/
theorem balanceRegionToVersion_step_held (P : Provider) (t : Harmonizer) (m m1 : Memory)
    (G1 : Goroutine Harmonizer) (hidx : t.layer < m.state.canonicalLayers.length)
    (h : (balanceRegionToVersion.step P t m).result = some (m1, G1)) :
    (m1.held = m.held ∧ G1.inFetch = t.pc.isFetch) ∨
    (t.pc.isEntry = true ∧ G1.inFetch = true ∧ m.once t.layer = false ∧ t.layer ∉ m.held ∧
      m1.held = t.layer :: m.held) ∨
    (t.pc.isFetch = true ∧ G1.inFetch = false ∧ m1.held = m.held.erase t.layer ∧
      m1.once t.layer = true) := by
  obtain ⟨region, layer, maxVersion, pc, events⟩ := t
  cases pc <;> simp only [balanceRegionToVersion.step] at h <;> repeat' split at h
  all_goals simp only [Step.result, Option.some.injEq, Prod.mk.injEq, reduceCtorEq] at h
  all_goals
    obtain ⟨rfl, rfl⟩ := h
    first
    | exact Or.inl ⟨rfl, rfl⟩
    | exact Or.inr (Or.inl ⟨rfl, rfl, by simp_all [Memory.once], by simp_all, rfl⟩)
    | exact Or.inr (Or.inr ⟨rfl, rfl, rfl, by
        simp only [Memory.release_once]
        simp [Memory.emit, State.setLayer, State.log, hidx]⟩)

/-- A goroutine past the closure of `Once.Do` has seen the guard of its layer fire. -/
theorem balanceRegionToVersion_step_past (P : Provider) (t : Harmonizer) (m m1 : Memory)
    (G1 : Goroutine Harmonizer) (hidx : t.layer < m.state.canonicalLayers.length)
    (hpast : t.pc.isEntry = false → t.pc.isFetch = false → m.once t.layer = true)
    (h : (balanceRegionToVersion.step P t m).result = some (m1, G1)) :
    ∀ t1, G1 = .running t1 → t1.pc.isEntry = false → t1.pc.isFetch = false →
      m1.once t1.layer = true := by
  obtain ⟨region, layer, maxVersion, pc, events⟩ := t
  cases pc <;> simp only [balanceRegionToVersion.step] at h <;> repeat' split at h
  all_goals simp only [Step.result, Option.some.injEq, Prod.mk.injEq, reduceCtorEq] at h
  all_goals
    obtain ⟨rfl, rfl⟩ := h
    intro t1 ht1 he hf
    cases ht1
  all_goals
    try simp only [Harmonizer.emit, HarmonizerPC.isEntry, HarmonizerPC.isFetch,
      Bool.true_eq_false, Bool.false_eq_true, reduceCtorEq] at he hf
  all_goals
    first
    | exact hpast rfl rfl
    | assumption
    | (simp only [Memory.release_once]
       simp [Memory.emit, State.setLayer, State.log, hidx, Harmonizer.emit])

/-- A goroutine in or past the loop that does not have to wait takes a step, which brings
it closer to its end and after which it does not have to wait either. -/
theorem balanceRegionToVersion_step_free (P : Provider) (t : Harmonizer) (m : Memory)
    (hfree : ¬ Harmonizer.Blocked m t)
    (hpast : t.pc.isEntry = false → t.pc.isFetch = false → m.once t.layer = true)
    (hin : t.pc.isEntry = true → t.pc.isLoop = true) :
    ∃ m1 G1, (balanceRegionToVersion.step P t m).result = some (m1, G1) ∧
      G1.left balanceRegionToVersion.bound < balanceRegionToVersion.bound t ∧
      ∀ t1, G1 = .running t1 →
        ¬ Harmonizer.Blocked m1 t1 ∧ (t1.pc.isEntry = true → t1.pc.isLoop = true) := by
  obtain ⟨region, layer, maxVersion, pc, events⟩ := t
  cases pc
  case probeConfig => exact absurd (hin rfl) (by simp [HarmonizerPC.isLoop])
  case probeList => exact absurd (hin rfl) (by simp [HarmonizerPC.isLoop])
  case config => exact absurd (hin rfl) (by simp [HarmonizerPC.isLoop])
  case loop cfg i =>
    simp only [balanceRegionToVersion.step]
    split
    · split
      · refine ⟨_, _, rfl, ?_, fun t1 ht1 => ?_⟩
        · simp only [Goroutine.left, balanceRegionToVersion.bound]
          omega
        · cases ht1
          exact ⟨fun hb => (by cases hb.1), fun he => (by cases he)⟩
      · split
        · rename_i hi hon hh
          exfalso
          apply hfree
          refine ⟨rfl, ?_, ?_⟩
          · simpa [Memory.once] using hon
          · simpa using hh
        · refine ⟨_, _, rfl, ?_, fun t1 ht1 => ?_⟩
          · simp only [Goroutine.left, balanceRegionToVersion.bound]
            omega
          · cases ht1
            exact ⟨fun hb => (by cases hb.1), fun he => (by cases he)⟩
    · refine ⟨_, _, rfl, ?_, fun t1 ht1 => ?_⟩
      · simp only [Goroutine.left, balanceRegionToVersion.bound]
        omega
      · cases ht1
  case grant cfg i version =>
    simp only [balanceRegionToVersion.step]
    split
    · refine ⟨_, _, rfl, ?_, fun t1 ht1 => ?_⟩
      · simp only [Goroutine.left, balanceRegionToVersion.bound, Harmonizer.emit]
        omega
      · cases ht1
    · refine ⟨_, _, rfl, ?_, fun t1 ht1 => ?_⟩
      · simp only [Goroutine.left, balanceRegionToVersion.bound, Harmonizer.emit]
        omega
      · cases ht1
        refine ⟨fun hb => ?_, fun _ => rfl⟩
        have h1 : m.once layer = true := hpast rfl rfl
        have h2 : m.once layer = false := hb.2.1
        exact absurd (h1.symm.trans h2) (by decide)
  all_goals simp only [balanceRegionToVersion.step]
  all_goals repeat' split
  all_goals
    refine ⟨_, _, rfl, ?_, fun t1 ht1 => ?_⟩
    · simp only [Goroutine.left, balanceRegionToVersion.bound, Harmonizer.emit]
      omega
    · cases ht1
      all_goals exact ⟨fun hb => (by cases hb.1), fun he => (by cases he)⟩

/-- A goroutine before the loop takes a step without waiting: it returns, or it comes one
call closer to the loop test. -/
theorem balanceRegionToVersion_step_pre (P : Provider) (t : Harmonizer) (m : Memory)
    (hpre : t.pc.isEntry = true) (hnl : t.pc.isLoop = false) :
    ∃ m1 G1, (balanceRegionToVersion.step P t m).result = some (m1, G1) ∧
      ∀ t1, G1 = .running t1 →
        (t1.pc.isLoop = true ∧ balanceRegionToVersion.bound t = 1) ∨
        (t1.pc.isEntry = true ∧ t1.pc.isLoop = false ∧
          balanceRegionToVersion.bound t1 + 1 = balanceRegionToVersion.bound t) := by
  obtain ⟨region, layer, maxVersion, pc, events⟩ := t
  cases pc
  case probeConfig =>
    simp only [balanceRegionToVersion.step]
    split
    · exact ⟨_, _, rfl, fun t1 ht1 => by cases ht1⟩
    · exact ⟨_, _, rfl, fun t1 ht1 => by cases ht1; exact Or.inr ⟨rfl, rfl, rfl⟩⟩
  case probeList =>
    simp only [balanceRegionToVersion.step]
    split
    · exact ⟨_, _, rfl, fun t1 ht1 => by cases ht1⟩
    · split
      · exact ⟨_, _, rfl, fun t1 ht1 => by cases ht1⟩
      · exact ⟨_, _, rfl, fun t1 ht1 => by cases ht1; exact Or.inr ⟨rfl, rfl, rfl⟩⟩
  case config =>
    simp only [balanceRegionToVersion.step]
    split
    · exact ⟨_, _, rfl, fun t1 ht1 => by cases ht1⟩
    · exact ⟨_, _, rfl, fun t1 ht1 => by cases ht1; exact Or.inl ⟨rfl, rfl⟩⟩
  case loop => cases hnl
  all_goals cases hpre

/-- A goroutine at the loop test that would have to wait waits, or it has reached the
target and returns. -/
theorem balanceRegionToVersion_step_blocked (P : Provider) (t : Harmonizer) (m : Memory)
    (hb : Harmonizer.Blocked m t) (hl : t.pc.isLoop = true) :
    balanceRegionToVersion.step P t m = .wait ∨
      balanceRegionToVersion.step P t m = .ret m t none := by
  obtain ⟨region, layer, maxVersion, pc, events⟩ := t
  obtain ⟨-, h1, h2⟩ := hb
  cases pc
  case loop cfg i =>
    have h3 : m.held.contains layer = true := by simpa using h2
    have h4 : (m.state.layerAt layer).LayerContentOnce = false := h1
    simp only [balanceRegionToVersion.step, h3, h4]
    split
    · exact Or.inl rfl
    · exact Or.inr rfl
  all_goals cases hl

/-- A step of a group changes nothing, or it is the step of a running goroutine that does
not wait, which leaves its result in the shared memory and in the place of the goroutine. -/
theorem Group.stepAt_cases {σ τ : Type} (step : τ → σ → Step σ τ) (i : Nat) (g : Group σ τ) :
    g.stepAt step i = g ∨
    ∃ t m1 G1, g.crashed = none ∧ g.goroutines[i]? = some (.running t) ∧
      (step t g.shared).result = some (m1, G1) ∧ (g.stepAt step i).shared = m1 ∧
      (g.stepAt step i).goroutines = g.goroutines.set i G1 := by
  unfold Group.stepAt
  split
  · exact Or.inl rfl
  · rename_i hc
    split
    · rename_i t ht
      split
      · rename_i m1 t1 heq
        exact Or.inr ⟨t, m1, .running t1, hc, ht, by rw [heq]; rfl, rfl, rfl⟩
      · rename_i m1 t1 e heq
        exact Or.inr ⟨t, m1, .returned t1 e, hc, ht, by rw [heq]; rfl, rfl, rfl⟩
      · rename_i m1 t1 msg heq
        exact Or.inr ⟨t, m1, .panicked t1 msg, hc, ht, by rw [heq]; rfl, rfl, rfl⟩
      · exact Or.inl rfl
    · exact Or.inl rfl

/-- A step of one goroutine leaves the other goroutines as they are. -/
theorem Group.stepAt_frame {σ τ : Type} (step : τ → σ → Step σ τ) (i j : Nat) (g : Group σ τ)
    (hij : i ≠ j) : (g.stepAt step i).goroutines[j]? = g.goroutines[j]? := by
  rcases Group.stepAt_cases step i g with h | ⟨t, m1, G1, -, -, -, -, h⟩
  · rw [h]
  · rw [h, List.getElem?_set_ne hij]

/-- Steps of one goroutine leave the other goroutines as they are. -/
theorem Group.stepTimes_frame {σ τ : Type} (step : τ → σ → Step σ τ) (i j n : Nat)
    (g : Group σ τ) (hij : i ≠ j) :
    (g.stepTimes step i n).goroutines[j]? = g.goroutines[j]? := by
  induction n generalizing g with
  | zero => rfl
  | succ n ih => exact (ih (g.stepAt step i)).trans (Group.stepAt_frame step i j g hij)

/-- What is kept by every step of one goroutine holds after any number of its steps. -/
theorem Group.stepTimes_keeps {σ τ : Type} (step : τ → σ → Step σ τ) (i : Nat)
    (Inv : Group σ τ → Prop) (hstep : ∀ g, Inv g → Inv (g.stepAt step i))
    (n : Nat) (g : Group σ τ) (h : Inv g) : Inv (g.stepTimes step i n) := by
  induction n generalizing g with
  | zero => exact h
  | succ n ih => exact ih _ (hstep g h)

/-- A goroutine inside the closure of `Once.Do` has left the loop test behind. -/
theorem HarmonizerPC.isEntry_of_isFetch (pc : HarmonizerPC) (h : pc.isFetch = true) :
    pc.isEntry = false := by
  cases pc <;> first | rfl | cases h

/-- Every step of a group of `balanceRegions` keeps the way the guards are held. -/
theorem guarded_stepAt (P : Provider) (i : Nat) (g : Group Memory Harmonizer)
    (hg : Guarded g) : Guarded (g.stepAt (balanceRegionToVersion.step P) i) := by
  rcases Group.stepAt_cases (balanceRegionToVersion.step P) i g with h | ⟨t, m1, G1, -, hi, hres, hsh, hgo⟩
  · rw [h]; exact hg
  · obtain ⟨h1, h2, h3, h4⟩ := hg
    have hmem : Goroutine.running t ∈ g.goroutines := List.getElem?_mem hi
    have hidx : t.layer < g.shared.state.canonicalLayers.length := h1 _ hmem
    obtain ⟨⟨hlay, -, -⟩, -, -⟩ := balanceRegionToVersion_step_shape P t g.shared m1 G1 hres
    obtain ⟨hlen, hmono⟩ := balanceRegionToVersion_step_once P t g.shared m1 G1 hres
    have hpast := balanceRegionToVersion_step_past P t g.shared m1 G1 hidx (h3 t hmem) hres
    have hilt : i < g.goroutines.length := by
      rcases Nat.lt_or_ge i g.goroutines.length with hlt | hge
      · exact hlt
      · rw [List.getElem?_eq_none hge] at hi; cases hi
    have hnew : (g.goroutines.set i G1)[i]? = some G1 := List.getElem?_set_self hilt
    have hold : ∀ (j : Nat) (tj : Harmonizer), g.goroutines[j]? = some (.running tj) →
        tj.layer ≠ t.layer ∨ tj.pc.isFetch ≠ t.pc.isFetch →
        (g.goroutines.set i G1)[j]? = some (.running tj) := by
      intro j tj hj hne
      have hij : i ≠ j := by
        rintro rfl
        rw [hi] at hj
        cases hj
        rcases hne with hne | hne <;> exact hne rfl
      rw [List.getElem?_set_ne hij]
      exact hj
    rw [Guarded, hsh, hgo]
    refine ⟨?_, ?_, ?_, ?_⟩
    · intro G hG
      rw [hlen]
      rcases List.mem_or_eq_of_mem_set hG with hG | rfl
      · exact h1 G hG
      · rw [hlay]; exact hidx
    · intro layer hl
      rcases balanceRegionToVersion_step_held P t g.shared m1 G1 hidx hres with
        ⟨hh, hf⟩ | ⟨he, hf, -, -, hh⟩ | ⟨hf0, -, hh, -⟩
      · rw [hh] at hl
        obtain ⟨j, tj, hj, hfj, hlj⟩ := h2 layer hl
        by_cases hij : i = j
        · subst hij
          rw [hi] at hj
          cases hj
          rw [hfj] at hf
          cases G1 with
          | running t1 => exact ⟨i, t1, hnew, hf, hlay.trans hlj⟩
          | returned t1 e => cases hf
          | panicked t1 msg => cases hf
        · exact ⟨j, tj, by rw [List.getElem?_set_ne hij]; exact hj, hfj, hlj⟩
      · rw [hh] at hl
        rcases List.mem_cons.1 hl with rfl | hl
        · cases G1 with
          | running t1 => exact ⟨i, t1, hnew, hf, hlay⟩
          | returned t1 e => cases hf
          | panicked t1 msg => cases hf
        · obtain ⟨j, tj, hj, hfj, hlj⟩ := h2 layer hl
          refine ⟨j, tj, hold j tj hj (Or.inr ?_), hfj, hlj⟩
          rw [hfj]
          intro hc
          have := HarmonizerPC.isEntry_of_isFetch t.pc hc.symm
          rw [he] at this
          cases this
      · rw [hh] at hl
        obtain ⟨j, tj, hj, hfj, hlj⟩ := h2 layer (List.mem_of_mem_erase hl)
        refine ⟨j, tj, hold j tj hj (Or.inl ?_), hfj, hlj⟩
        rw [hlj]
        rintro rfl
        exact (List.Nodup.mem_erase_iff h4).1 hl |>.1 rfl
    · intro t1 ht1
      rcases List.mem_or_eq_of_mem_set ht1 with ht1 | ht1
      · exact fun he hf => hmono _ (h3 t1 ht1 he hf)
      · exact hpast t1 ht1.symm
    · rcases balanceRegionToVersion_step_held P t g.shared m1 G1 hidx hres with
        ⟨hh, -⟩ | ⟨-, -, -, hn, hh⟩ | ⟨-, -, hh, -⟩
      · rw [hh]; exact h4
      · rw [hh]; exact List.nodup_cons.2 ⟨hn, h4⟩
      · rw [hh]; exact h4.erase _

/-- The step of a running goroutine that does not wait, in a process that has not ended:
its result is in the shared memory and in the place of the goroutine, and a panic ends
the process. -/
theorem Group.stepAt_of_result {σ τ : Type} (step : τ → σ → Step σ τ) (i : Nat)
    (g : Group σ τ) (t : τ) (m1 : σ) (G1 : Goroutine τ) (hc : g.crashed = none)
    (hi : g.goroutines[i]? = some (.running t))
    (hres : (step t g.shared).result = some (m1, G1)) :
    (g.stepAt step i).shared = m1 ∧ (g.stepAt step i).goroutines = g.goroutines.set i G1 ∧
      (G1.isRunning = false → G1.isReturned = false → (g.stepAt step i).crashed ≠ none) := by
  unfold Group.stepAt
  rw [hc]
  simp only [hi]
  cases hs : step t g.shared with
  | next m t1 =>
    rw [hs] at hres
    cases hres
    exact ⟨rfl, rfl, fun h => by cases h⟩
  | ret m t1 e =>
    rw [hs] at hres
    cases hres
    exact ⟨rfl, rfl, fun _ h => by cases h⟩
  | panic m t1 msg =>
    rw [hs] at hres
    cases hres
    exact ⟨rfl, rfl, fun _ _ => by simp⟩
  | wait =>
    rw [hs] at hres
    cases hres

/-- The step of a goroutine that waits changes nothing. -/
theorem Group.stepAt_of_wait {σ τ : Type} (step : τ → σ → Step σ τ) (i : Nat)
    (g : Group σ τ) (t : τ) (hi : g.goroutines[i]? = some (.running t))
    (hres : step t g.shared = .wait) : g.stepAt step i = g := by
  unfold Group.stepAt
  split
  · rfl
  · simp only [hi, hres]

/-- A goroutine at rest is at rest after any number of steps of any goroutine. -/
theorem Group.stepTimes_settled {σ τ : Type} (step : τ → σ → Step σ τ) (i j n : Nat)
    (g : Group σ τ) (h : g.Settled i) : (g.stepTimes step j n).Settled i :=
  Group.stepTimes_keeps step j (fun g => g.Settled i)
    (fun g h => Group.stepAt_settled step i j g h) n g h

/-- A place in the group that holds no running goroutine is at rest. -/
theorem Group.settled_of_not_running {σ τ : Type} (g : Group σ τ) (i : Nat)
    (h : ∀ t, g.goroutines[i]? ≠ some (.running t)) : g.Settled i := by
  right
  intro G hG
  cases G with
  | running t => exact absurd hG (h t)
  | returned t e => rfl
  | panicked t msg => rfl

/-- The turn of a goroutine of `balanceRegions` in or past the loop that does not have to
wait: within the steps its bound gives it, it comes to rest. -/
theorem turn_free (P : Provider) (i : Nat) :
    ∀ (n : Nat) (g : Group Memory Harmonizer), Guarded g →
      (g.Settled i ∨ ∃ t : Harmonizer, g.goroutines[i]? = some (.running t) ∧
        ¬ Harmonizer.Blocked g.shared t ∧ (t.pc.isEntry = true → t.pc.isLoop = true) ∧
        balanceRegionToVersion.bound t ≤ n) →
      (g.stepTimes (balanceRegionToVersion.step P) i n).Settled i := by
  intro n
  induction n with
  | zero =>
    rintro g hg (h | ⟨t, hi, hfree, hin, hb⟩)
    · exact h
    · obtain ⟨m1, G1, -, hlt, -⟩ := balanceRegionToVersion_step_free P t g.shared hfree
        (hg.2.2.1 t (List.getElem?_mem hi)) hin
      omega
  | succ n ih =>
    rintro g hg (h | ⟨t, hi, hfree, hin, hb⟩)
    · exact Group.stepTimes_settled _ i i _ g h
    · show ((g.stepAt (balanceRegionToVersion.step P) i).stepTimes _ i n).Settled i
      apply ih _ (guarded_stepAt P i g hg)
      by_cases hc : g.crashed = none
      · obtain ⟨m1, G1, hres, hlt, hnext⟩ := balanceRegionToVersion_step_free P t g.shared hfree
          (hg.2.2.1 t (List.getElem?_mem hi)) hin
        obtain ⟨hsh, hgo, hcr⟩ := Group.stepAt_of_result _ i g t m1 G1 hc hi hres
        have hilt : i < g.goroutines.length := by
          rcases Nat.lt_or_ge i g.goroutines.length with hlt | hge
          · exact hlt
          · rw [List.getElem?_eq_none hge] at hi; cases hi
        have hnew : (g.stepAt (balanceRegionToVersion.step P) i).goroutines[i]? = some G1 := by
          rw [hgo]; exact List.getElem?_set_self hilt
        cases G1 with
        | running t1 =>
          right
          refine ⟨t1, hnew, ?_, (hnext t1 rfl).2, ?_⟩
          · rw [hsh]; exact (hnext t1 rfl).1
          · simp only [Goroutine.left] at hlt
            omega
        | returned t1 e =>
          left; right
          intro G hG
          rw [hnew] at hG
          cases hG
          rfl
        | panicked t1 msg =>
          left; left
          exact hcr rfl rfl
      · exact Or.inl (Group.stepAt_settled _ i i g (Or.inl hc))

/-- A goroutine of `balanceRegions` has at least one step left. -/
theorem balanceRegionToVersion_bound_pos (t : Harmonizer) :
    0 < balanceRegionToVersion.bound t := by
  obtain ⟨region, layer, maxVersion, pc, events⟩ := t
  cases pc <;> simp only [balanceRegionToVersion.bound] <;> omega

/-- The turn of a goroutine of `balanceRegions` before the loop: with the steps its bound
gives it, it returns or comes to the loop test. -/
theorem turn_pre (P : Provider) (i : Nat) :
    ∀ (n : Nat) (g : Group Memory Harmonizer),
      (g.Settled i ∨ ∃ t : Harmonizer, g.goroutines[i]? = some (.running t) ∧
        t.pc.isEntry = true ∧ t.pc.isLoop = false ∧ balanceRegionToVersion.bound t = n) →
      AtLoop (g.stepTimes (balanceRegionToVersion.step P) i n) i := by
  intro n
  induction n with
  | zero =>
    rintro g (h | ⟨t, hi, hpre, hnl, hb⟩)
    · exact Or.inl h
    · have := balanceRegionToVersion_bound_pos t
      omega
  | succ n ih =>
    rintro g (h | ⟨t, hi, hpre, hnl, hb⟩)
    · exact Or.inl (Group.stepTimes_settled _ i i _ g h)
    · show AtLoop ((g.stepAt (balanceRegionToVersion.step P) i).stepTimes _ i n) i
      by_cases hc : g.crashed = none
      · obtain ⟨m1, G1, hres, hnext⟩ := balanceRegionToVersion_step_pre P t g.shared hpre hnl
        obtain ⟨hsh, hgo, hcr⟩ := Group.stepAt_of_result _ i g t m1 G1 hc hi hres
        have hilt : i < g.goroutines.length := by
          rcases Nat.lt_or_ge i g.goroutines.length with hlt | hge
          · exact hlt
          · rw [List.getElem?_eq_none hge] at hi; cases hi
        have hnew : (g.stepAt (balanceRegionToVersion.step P) i).goroutines[i]? = some G1 := by
          rw [hgo]; exact List.getElem?_set_self hilt
        cases G1 with
        | running t1 =>
          rcases hnext t1 rfl with ⟨hl1, hb1⟩ | ⟨hpre1, hnl1, hb1⟩
          · have hn : n = 0 := by omega
            subst hn
            exact Or.inr ⟨t1, hnew, hl1⟩
          · exact ih _ (Or.inr ⟨t1, hnew, hpre1, hnl1, by omega⟩)
        | returned t1 e =>
          apply ih
          left; right
          intro G hG
          rw [hnew] at hG
          cases hG
          rfl
        | panicked t1 msg =>
          apply ih
          left; left
          exact hcr rfl rfl
      · exact Or.inl (Group.stepTimes_settled _ i i _ _
          (Group.stepAt_settled _ i i g (Or.inl hc)))

/-- The turn of a goroutine of `balanceRegions` that has to wait at the loop test: it
stays there, or it has reached its target and returns. -/
theorem turn_blocked (P : Provider) (i : Nat) :
    ∀ (n : Nat) (g : Group Memory Harmonizer),
      (g.Settled i ∨ ∃ t : Harmonizer, g.goroutines[i]? = some (.running t) ∧
        t.pc.isLoop = true ∧ Harmonizer.Blocked g.shared t) →
      AtLoop (g.stepTimes (balanceRegionToVersion.step P) i n) i := by
  intro n
  induction n with
  | zero =>
    rintro g (h | ⟨t, hi, hl, -⟩)
    · exact Or.inl h
    · exact Or.inr ⟨t, hi, hl⟩
  | succ n ih =>
    rintro g (h | ⟨t, hi, hl, hb⟩)
    · exact Or.inl (Group.stepTimes_settled _ i i _ g h)
    · show AtLoop ((g.stepAt (balanceRegionToVersion.step P) i).stepTimes _ i n) i
      rcases balanceRegionToVersion_step_blocked P t g.shared hb hl with hw | hr
      · rw [Group.stepAt_of_wait _ i g t hi hw]
        exact ih g (Or.inr ⟨t, hi, hl, hb⟩)
      · apply ih
        left
        by_cases hc : g.crashed = none
        · obtain ⟨-, hgo, -⟩ := Group.stepAt_of_result (balanceRegionToVersion.step P) i g t
            g.shared (.returned t none) hc hi (by rw [hr]; rfl)
          have hilt : i < g.goroutines.length := by
            rcases Nat.lt_or_ge i g.goroutines.length with hlt | hge
            · exact hlt
            · rw [List.getElem?_eq_none hge] at hi; cases hi
          right
          intro G hG
          rw [hgo, List.getElem?_set_self hilt] at hG
          cases hG
          rfl
        · exact Group.stepAt_settled _ i i g (Or.inl hc)

/-- A goroutine inside the closure of `Once.Do` is not at the loop test. -/
theorem HarmonizerPC.isLoop_of_isFetch (pc : HarmonizerPC) (h : pc.isFetch = true) :
    pc.isLoop = false := by
  cases pc <;> first | rfl | cases h

/-- A goroutine at the loop test has not entered the loop body. -/
theorem HarmonizerPC.isEntry_of_isLoop (pc : HarmonizerPC) (h : pc.isLoop = true) :
    pc.isEntry = true := by
  cases pc <;> first | rfl | cases h

/-- The turn of a goroutine of `balanceRegions` in a pass: afterwards it is at rest or at
the loop test. -/
theorem turn_atLoop (P : Provider) (i : Nat) (g : Group Memory Harmonizer) (hg : Guarded g) :
    AtLoop (g.stepTimes (balanceRegionToVersion.step P) i
      (g.budget balanceRegionToVersion.bound i)) i := by
  by_cases hrun : ∃ t : Harmonizer, g.goroutines[i]? = some (.running t)
  · obtain ⟨t, hi⟩ := hrun
    have hbud : g.budget balanceRegionToVersion.bound i = balanceRegionToVersion.bound t := by
      simp [Group.budget, hi]
    rw [hbud]
    by_cases hl : t.pc.isLoop = true
    · by_cases hb : Harmonizer.Blocked g.shared t
      · exact turn_blocked P i _ g (Or.inr ⟨t, hi, hl, hb⟩)
      · exact Or.inl (turn_free P i _ g hg (Or.inr ⟨t, hi, hb, fun _ => hl, le_refl _⟩))
    · by_cases he : t.pc.isEntry = true
      · exact turn_pre P i _ g (Or.inr ⟨t, hi, he, by simpa using hl, rfl⟩)
      · exact Or.inl (turn_free P i _ g hg
          (Or.inr ⟨t, hi, fun hb => he hb.1, fun h => absurd h he, le_refl _⟩))
  · exact Or.inl (Group.stepTimes_settled _ i i _ g
      (Group.settled_of_not_running g i (fun t ht => hrun ⟨t, ht⟩)))

/-- The turn of a goroutine of `balanceRegions` when every goroutine is at rest or at the
loop test: no guard is held, so it does not wait and comes to rest. -/
theorem turn_settles (P : Provider) (i : Nat) (g : Group Memory Harmonizer) (hg : Guarded g)
    (hall : ∀ j, AtLoop g j) :
    (g.stepTimes (balanceRegionToVersion.step P) i
      (g.budget balanceRegionToVersion.bound i)).Settled i := by
  rcases hall i with h | ⟨t, hi, hl⟩
  · exact Group.stepTimes_settled _ i i _ g h
  · have hbud : g.budget balanceRegionToVersion.bound i = balanceRegionToVersion.bound t := by
      simp [Group.budget, hi]
    rw [hbud]
    by_cases hc : g.crashed = none
    · refine turn_free P i _ g hg (Or.inr ⟨t, hi, fun hb => ?_, fun _ => hl, le_refl _⟩)
      obtain ⟨j, tj, hj, hf, -⟩ := hg.2.1 _ hb.2.2
      rcases hall j with (h | h) | ⟨t1, h1, hl1⟩
      · exact h hc
      · have := h _ hj
        cases this
      · rw [hj] at h1
        cases h1
        rw [HarmonizerPC.isLoop_of_isFetch _ hf] at hl1
        cases hl1
    · exact Group.stepTimes_settled _ i i _ g (Or.inl hc)

/-- A goroutine at rest or at the loop test stays so while other goroutines have their
turns. -/
theorem atLoop_stepTimes (P : Provider) (i j n : Nat) (g : Group Memory Harmonizer)
    (hij : j ≠ i) (h : AtLoop g i) :
    AtLoop (g.stepTimes (balanceRegionToVersion.step P) j n) i := by
  rcases h with h | ⟨t, hi, hl⟩
  · exact Or.inl (Group.stepTimes_settled _ i j n g h)
  · exact Or.inr ⟨t, by rw [Group.stepTimes_frame _ j i n g hij]; exact hi, hl⟩

/-- The turns of a pass: when every turn keeps an invariant of the group and brings its
goroutine to a goal that the turns of the other goroutines do not undo, then after the
turns of distinct goroutines each of them is at its goal. -/
theorem Group.foldl_turns {σ τ : Type} (step : τ → σ → Step σ τ) (bound : τ → Nat)
    (Inv : Group σ τ → Prop) (Goal : Group σ τ → Nat → Prop)
    (hturn : ∀ g i, Inv g → Inv (g.stepTimes step i (g.budget bound i)) ∧
      Goal (g.stepTimes step i (g.budget bound i)) i)
    (hstable : ∀ g i j, j ≠ i → Inv g → Goal g i →
      Goal (g.stepTimes step j (g.budget bound j)) i)
    (is : List Nat) (hnd : is.Nodup) (g : Group σ τ) (hg : Inv g) :
    Inv (is.foldl (fun g i => g.stepTimes step i (g.budget bound i)) g) ∧
      ∀ i ∈ is, Goal (is.foldl (fun g i => g.stepTimes step i (g.budget bound i)) g) i := by
  have hkeep : ∀ (js : List Nat) (i : Nat) (g : Group σ τ), i ∉ js → Inv g → Goal g i →
      Goal (js.foldl (fun g i => g.stepTimes step i (g.budget bound i)) g) i := by
    intro js
    induction js with
    | nil => exact fun _ _ _ _ h => h
    | cons j js ih =>
      intro i g hi hg h
      rw [List.foldl_cons]
      have hne : j ≠ i := fun hji => hi (hji ▸ List.mem_cons_self _ _)
      exact ih i _ (fun hm => hi (List.mem_cons_of_mem _ hm)) (hturn g j hg).1
        (hstable g i j hne hg h)
  induction is generalizing g with
  | nil => exact ⟨hg, fun _ h => by cases h⟩
  | cons j js ih =>
    rw [List.foldl_cons]
    obtain ⟨hj, hjs⟩ := List.nodup_cons.1 hnd
    obtain ⟨h1, h2⟩ := ih hjs _ (hturn g j hg).1
    refine ⟨h1, fun i hi => ?_⟩
    rcases List.mem_cons.1 hi with rfl | hi
    · exact hkeep js i _ hj (hturn g i hg).1 (hturn g i hg).2
    · exact h2 i hi

/-- Any number of steps of a goroutine keeps the way the guards are held. -/
theorem guarded_stepTimes (P : Provider) (i n : Nat) (g : Group Memory Harmonizer)
    (hg : Guarded g) : Guarded (g.stepTimes (balanceRegionToVersion.step P) i n) :=
  Group.stepTimes_keeps _ i Guarded (fun g1 h => guarded_stepAt P i g1 h) n g hg

/-- After one pass of a group of `balanceRegions` every goroutine is at rest or at the
loop test. -/
theorem pass_atLoop (P : Provider) (g : Group Memory Harmonizer) (hg : Guarded g) :
    Guarded (g.pass (balanceRegionToVersion.step P) balanceRegionToVersion.bound) ∧
      ∀ i, AtLoop (g.pass (balanceRegionToVersion.step P) balanceRegionToVersion.bound) i := by
  obtain ⟨h1, h2⟩ := Group.foldl_turns (balanceRegionToVersion.step P)
    balanceRegionToVersion.bound Guarded AtLoop
    (fun g i hg => ⟨guarded_stepTimes P i _ g hg, turn_atLoop P i g hg⟩)
    (fun g i j hji _ h => atLoop_stepTimes P i j _ g hji h)
    (List.range g.goroutines.length) (List.nodup_range _) g hg
  refine ⟨h1, fun i => ?_⟩
  by_cases hi : i < g.goroutines.length
  · exact h2 i (List.mem_range.2 hi)
  · have hlen : (g.pass (balanceRegionToVersion.step P)
        balanceRegionToVersion.bound).goroutines.length = g.goroutines.length :=
      Group.pass_induct _ _ (fun g1 => g1.goroutines.length = g.goroutines.length)
        (fun j g1 h => (Group.stepAt_length _ j g1).trans h) g rfl
    left
    apply Group.settled_of_not_running
    intro t ht
    rw [List.getElem?_eq_none (by omega)] at ht
    cases ht

/-- After a second pass every goroutine of `balanceRegions` is at rest. -/
theorem pass_settled (P : Provider) (g : Group Memory Harmonizer) (hg : Guarded g)
    (hall : ∀ i, AtLoop g i) :
    ∀ i, (g.pass (balanceRegionToVersion.step P) balanceRegionToVersion.bound).Settled i := by
  obtain ⟨-, h2⟩ := Group.foldl_turns (balanceRegionToVersion.step P)
    balanceRegionToVersion.bound (fun g => Guarded g ∧ ∀ i, AtLoop g i)
    (fun g i => g.Settled i)
    (fun g i hg => ⟨⟨guarded_stepTimes P i _ g hg.1, fun k => by
        by_cases hk : i = k
        · subst hk
          exact Or.inl (turn_settles P i g hg.1 hg.2)
        · exact atLoop_stepTimes P k i _ g hk (hg.2 k)⟩,
      turn_settles P i g hg.1 hg.2⟩)
    (fun g i j _ _ h => Group.stepTimes_settled _ i j _ g h)
    (List.range g.goroutines.length) (List.nodup_range _) g ⟨hg, hall⟩
  intro i
  by_cases hi : i < g.goroutines.length
  · exact h2 i (List.mem_range.2 hi)
  · have hlen : (g.pass (balanceRegionToVersion.step P)
        balanceRegionToVersion.bound).goroutines.length = g.goroutines.length :=
      Group.pass_induct _ _ (fun g1 => g1.goroutines.length = g.goroutines.length)
        (fun j g1 h => (Group.stepAt_length _ j g1).trans h) g rfl
    apply Group.settled_of_not_running
    intro t ht
    rw [List.getElem?_eq_none (by omega)] at ht
    cases ht

/-- The only panic of a goroutine of `balanceRegions` is the nil dereference in the
closure of `Once.Do`. -/
theorem balanceRegionToVersion_step_panic (P : Provider) (t : Harmonizer) (m m1 : Memory)
    (t1 : Harmonizer) (msg : String)
    (h : balanceRegionToVersion.step P t m = .panic m1 t1 msg) :
    msg = "nil pointer dereference" := by
  obtain ⟨region, layer, maxVersion, pc, events⟩ := t
  cases pc <;> simp only [balanceRegionToVersion.step] at h <;> repeat' split at h
  all_goals cases h
  all_goals rfl

/-- The message of the panic that ended the process is one a goroutine panics with. -/
theorem Group.stepAt_panic {σ τ : Type} (step : τ → σ → Step σ τ) (Q : String → Prop)
    (hq : ∀ t m m1 t1 msg, step t m = .panic m1 t1 msg → Q msg) (i : Nat) (g : Group σ τ)
    (h : ∀ msg, g.crashed = some msg → Q msg) :
    ∀ msg, (g.stepAt step i).crashed = some msg → Q msg := by
  unfold Group.stepAt
  split
  · exact h
  · split
    · split
      · exact h
      · exact h
      · rename_i t _ m1 t1 msg heq
        intro msg1 h1
        cases h1
        exact hq _ _ _ _ _ heq
      · exact h
    · exact h

/-- The group of `balanceRegions` when `Wait` returns: the way the guards are held at the
start is kept, and the process has ended in the nil dereference or no goroutine runs any
more. -/
theorem balanceRegions_group_rest (P : Provider) (sched : List Nat) (s : State)
    (maxVersion : Int) :
    (balanceRegions.group P sched s maxVersion).crashed = some "nil pointer dereference" ∨
    ((balanceRegions.group P sched s maxVersion).crashed = none ∧
      ∀ G ∈ (balanceRegions.group P sched s maxVersion).goroutines, G.isRunning = false) := by
  have hpanic : ∀ msg, (balanceRegions.group P sched s maxVersion).crashed = some msg →
      msg = "nil pointer dereference" :=
    Group.finish_induct _ _ (fun g => ∀ msg, g.crashed = some msg → msg = "nil pointer dereference")
      (fun i g h => Group.stepAt_panic _ _ (balanceRegionToVersion_step_panic P) i g h) sched _
      (fun _ h => by cases h)
  cases hc : (balanceRegions.group P sched s maxVersion).crashed with
  | some msg => exact Or.inl (congrArg some (hpanic msg hc))
  | none =>
    refine Or.inr ⟨rfl, fun G hG => ?_⟩
    have hg0 : Guarded
        { shared := { state := s.go (balanceRegions.tasks s.canonicalLayers), held := [] }
          goroutines := (balanceRegions.tasks s.canonicalLayers).map fun p =>
            Goroutine.running
              { region := p.2, layer := p.1, maxVersion := maxVersion, pc := .probeConfig,
                events := [] }
          err := none
          crashed := none } := by
      unfold Guarded
      refine ⟨?_, fun _ h => (by cases h), ?_, List.nodup_nil⟩
      · intro G hG
        obtain ⟨p, hp, rfl⟩ := List.mem_map.1 hG
        exact ((mem_tasks _ p.1 p.2).1 hp).1
      · intro t ht he
        obtain ⟨p, -, hp⟩ := List.mem_map.1 ht
        cases hp
        cases he
    have hg1 := Group.run_induct (balanceRegionToVersion.step P) Guarded
      (fun i g h => guarded_stepAt P i g h) sched _ hg0
    obtain ⟨hg2, hall⟩ := pass_atLoop P _ hg1
    have hset := pass_settled P _ hg2 hall
    obtain ⟨i, hi⟩ := List.getElem?_of_mem hG
    rcases hset i with h | h
    · exact absurd hc h
    · exact h G hi

/-- A call of `balanceRegions` ends, in every schedule: it returns what `Wait` returns, or
the process has ended in the nil dereference of the content fetch. -/
theorem balanceRegions_ends (P : Provider) (sched : List Nat) (s : State) (maxVersion : Int) :
    (balanceRegions P sched s maxVersion).2 =
        .returned (balanceRegions.group P sched s maxVersion).err ∨
      (balanceRegions P sched s maxVersion).2 = .panicked "nil pointer dereference" := by
  rcases balanceRegions_group_rest P sched s maxVersion with h | ⟨hc, hr⟩
  · right
    simp only [balanceRegions, Group.wait, h]
  · left
    exact Group.wait_of_rest _ (balanceRegions_group_facts P sched s maxVersion).1 hc hr

/-! ## Runs -/

/-- The `Go` events after starting the goroutines: one more for each task, in order. -/
theorem State.go_isGo (s : State) (tasks : List (Nat × String)) :
    (s.go tasks).trace.filter Event.isGo =
      s.trace.filter Event.isGo ++ tasks.map fun p => Event.Go p.1 p.2 := by
  simp only [State.go, List.filter_append]
  congr 1
  rw [List.filter_eq_self]
  intro e he
  obtain ⟨p, -, rfl⟩ := List.mem_map.1 he
  rfl

/-- The tasks depend on the fixed fields of the layers only. -/
theorem tasks_congr (layers layers1 : List LayerInfo)
    (h : layers1.map LayerInfo.static = layers.map LayerInfo.static) :
    getGreatestVersion.tasks layers1 = getGreatestVersion.tasks layers := by
  have hlen : layers1.length = layers.length := by
    simpa using congrArg List.length h
  have hex : ∀ idx region, excluded (layers1.getD idx default) region =
      excluded (layers.getD idx default) region := by
    intro idx region
    have := layerAt_static { trace := [], canonicalLayers := layers }
      { trace := [], canonicalLayers := layers1 } idx h
    simp only [State.layerAt, LayerInfo.static, Prod.mk.injEq] at this
    simp only [excluded, this.2.2]
  simp only [getGreatestVersion.tasks, hlen, hex]

/-- When a goroutine of `balanceRegions` has returned an error, `balanceRegions` does not
return nil: it returns an error, or the process has ended in the nil dereference of the
content fetch. -/
theorem balanceRegions_of_failed (P : Provider) (sched : List Nat) (s : State)
    (maxVersion : Int) (t : Harmonizer) (e : Error)
    (h : Goroutine.returned t (some e) ∈ (balanceRegions.group P sched s maxVersion).goroutines) :
    (∃ e1, (balanceRegions P sched s maxVersion).2 = .returned (some e1)) ∨
      (balanceRegions P sched s maxVersion).2 = .panicked "nil pointer dereference" := by
  have hk := (balanceRegions_group_facts P sched s maxVersion).1.1 t e h
  rcases balanceRegions_ends P sched s maxVersion with hr | hp
  · cases he : (balanceRegions.group P sched s maxVersion).err with
    | none => exact absurd he hk
    | some e1 => exact Or.inl ⟨e1, by rw [hr, he]⟩
  · exact Or.inr hp

/-- The exit status of a run whose discovery returned a version is that of the second
phase: 1 for an error, 2 for a panic. -/
theorem main_of_failed (P : Provider) (sched1 sched2 : List Nat) (sd s : State)
    (maxVersion : Int)
    (hd : getGreatestVersion P sched1 sd = (s, .returned (.ok maxVersion)))
    (h : (∃ e1, (balanceRegions P sched2 s maxVersion).2 = .returned (some e1)) ∨
      (balanceRegions P sched2 s maxVersion).2 = .panicked "nil pointer dereference") :
    (main P sched1 sched2 sd).2 = 1 ∨ (main P sched1 sched2 sd).2 = 2 := by
  simp only [main, hd]
  rcases hb : balanceRegions P sched2 s maxVersion with ⟨s1, r⟩
  rw [hb] at h
  rcases h with ⟨e1, h⟩ | h
  · simp only at h
    subst h
    exact Or.inl rfl
  · simp only at h
    subst h
    exact Or.inr rfl

/-- The events of a list that is part of another are counted in the other. -/
theorem countP_le_of_sublist_drop (events tr : List Event) (n : Nat) (p : Event → Bool)
    (h : events.Sublist (tr.drop n)) : (tr.take n).countP p + events.countP p ≤ tr.countP p := by
  have h1 := h.countP_le p
  have h2 : tr.countP p = (tr.take n).countP p + (tr.drop n).countP p := by
    rw [← List.countP_append, List.take_append_drop]
  omega

/-! ## A goroutine that runs alone -/

/-- Steps after steps are steps. -/
theorem steps_trans {σ τ : Type} {step : τ → σ → Step σ τ} {t t1 t2 : τ} {m m1 m2 : σ}
    (h1 : Steps step t m t1 m1) (h2 : Steps step t1 m1 t2 m2) : Steps step t m t2 m2 := by
  induction h1 with
  | refl => exact h2
  | next h _ ih => exact Steps.next h (ih h2)

/-- Steps and then a run to the end are a run to the end. -/
theorem steps_runs {σ τ : Type} {step : τ → σ → Step σ τ} {t t1 : τ} {m m1 m2 : σ}
    {G : Goroutine τ} (h1 : Steps step t m t1 m1) (h2 : Runs step t1 m1 m2 G) :
    Runs step t m m2 G := by
  induction h1 with
  | refl => exact h2
  | next h _ ih => exact Runs.next h (ih h2)

/-- The probe of `balanceRegionToVersion` in steps: the two calls of `getLayerVersion`
lead to the return of its error or to the configuration load of the region. -/
theorem runs_probe (P : Provider) (region : String) (layer : Nat) (maxVersion : Int)
    (events : List Event) (m : Memory) :
    (∀ e, (getLayerVersion P m.state (m.state.layerAt layer).Name region).2 = .error e →
      ∃ t1, Runs (balanceRegionToVersion.step P)
        { region := region, layer := layer, maxVersion := maxVersion, pc := .probeConfig,
          events := events } m
        { state := (getLayerVersion P m.state (m.state.layerAt layer).Name region).1,
          held := m.held }
        (.returned t1 (some ("error getting layer version: " ++ e)))) ∧
    (∀ v, (getLayerVersion P m.state (m.state.layerAt layer).Name region).2 = .ok v →
      ∃ ev, Steps (balanceRegionToVersion.step P)
        { region := region, layer := layer, maxVersion := maxVersion, pc := .probeConfig,
          events := events } m
        { region := region, layer := layer, maxVersion := maxVersion, pc := .config v,
          events := ev }
        { state := (getLayerVersion P m.state (m.state.layerAt layer).Name region).1,
          held := m.held }) := by
  unfold getLayerVersion
  split
  · rename_i cfg err hcfg
    refine ⟨fun e he => ?_, fun v hv => by cases hv⟩
    cases he
    apply Exists.intro
    apply Runs.ret
    simp only [balanceRegionToVersion.step, hcfg]
    rfl
  · rename_i cfg hcfg
    simp only []
    split
    · rename_i err hl
      refine ⟨fun e he => ?_, fun v hv => by cases hv⟩
      cases he
      apply Exists.intro
      apply Runs.next
      · simp only [balanceRegionToVersion.step, hcfg]
        rfl
      · apply Runs.ret
        simp only [balanceRegionToVersion.step, Harmonizer.emit, Memory.emit, State.log_layerAt, hl]
        rfl
    · rename_i out hl
      split
      · rename_i hlv
        refine ⟨fun e he => ?_, fun v hv => by cases hv⟩
        cases he
        apply Exists.intro
        apply Runs.next
        · simp only [balanceRegionToVersion.step, hcfg]
          rfl
        · apply Runs.ret
          simp only [balanceRegionToVersion.step, Harmonizer.emit, Memory.emit,
            State.log_layerAt, hl, hlv]
          rfl
      · rename_i item rest hlv
        refine ⟨fun e he => (by cases he), fun v hv => ?_⟩
        cases hv
        apply Exists.intro
        apply Steps.next
        · simp only [balanceRegionToVersion.step, hcfg]
          rfl
        · apply Steps.next
          · simp only [balanceRegionToVersion.step, Harmonizer.emit, Memory.emit,
              State.log_layerAt, hl, hlv]
            rfl
          · simp only [hl]
            apply Steps.refl

/-- The configuration load of `balanceRegionToVersion` in a step: it leads to the return
of its error or to the loop. -/
theorem runs_config (P : Provider) (region : String) (layer : Nat) (maxVersion : Int)
    (events : List Event) (m : Memory) (current : Int) (cfg : Config) :
    (∀ e, P.LoadDefaultConfig m.state.trace region = (cfg, some e) →
      ∃ t1, Runs (balanceRegionToVersion.step P)
        { region := region, layer := layer, maxVersion := maxVersion, pc := .config current,
          events := events } m
        { state := m.state.log (.LoadDefaultConfig region cfg (some e)), held := m.held }
        (.returned t1 (some e))) ∧
    (P.LoadDefaultConfig m.state.trace region = (cfg, none) →
      ∃ ev, Steps (balanceRegionToVersion.step P)
        { region := region, layer := layer, maxVersion := maxVersion, pc := .config current,
          events := events } m
        { region := region, layer := layer, maxVersion := maxVersion, pc := .loop cfg current,
          events := ev }
        { state := m.state.log (.LoadDefaultConfig region cfg none), held := m.held }) := by
  refine ⟨fun e hcfg => ?_, fun hcfg => ?_⟩
  · apply Exists.intro
    apply Runs.ret
    simp only [balanceRegionToVersion.step, hcfg]
    rfl
  · apply Exists.intro
    apply Steps.next
    · simp only [balanceRegionToVersion.step, hcfg]
      rfl
    · apply Steps.refl

/-- The probe of the canonical region inside the closure of `Once.Do`, in steps: the two
calls of `getLayerVersion` lead to the metadata request, with version 0 and the error in
`innerErr` when the probe failed. -/
theorem steps_fetchProbe (P : Provider) (region : String) (layer : Nat) (maxVersion : Int)
    (events : List Event) (m : Memory) (cfg : Config) (i : Int) (cfgc : Config)
    (innerErr : Option Error) :
    ∃ ev, Steps (balanceRegionToVersion.step P)
      { region := region, layer := layer, maxVersion := maxVersion,
        pc := .fetchProbeConfig cfg i cfgc innerErr, events := events } m
      { region := region, layer := layer, maxVersion := maxVersion,
        pc := .fetchMetadata cfg i cfgc
          (match (getLayerVersion P m.state (m.state.layerAt layer).Name "eu-central-1").2 with
            | .error err => some ("error getting eu-central-1 layer version: " ++ err)
            | .ok _ => innerErr)
          (match (getLayerVersion P m.state (m.state.layerAt layer).Name "eu-central-1").2 with
            | .error _ => 0
            | .ok version => version),
        events := ev }
      { state := (getLayerVersion P m.state (m.state.layerAt layer).Name "eu-central-1").1,
        held := m.held } := by
  rcases hcfg : P.LoadDefaultConfig m.state.trace "eu-central-1" with ⟨cfgp, _ | err⟩
  · rcases hl : P.ListLayerVersions (m.state.log (.LoadDefaultConfig "eu-central-1" cfgp none)).trace
      cfgp { LayerName := (m.state.layerAt layer).Name, MaxItems := 1 } with err | out
    · simp only [getLayerVersion, hcfg, hl]
      apply Exists.intro
      apply Steps.next
      · simp only [balanceRegionToVersion.step, hcfg]
        rfl
      · apply Steps.next
        · simp only [balanceRegionToVersion.step, Harmonizer.emit, Memory.emit,
            State.log_layerAt, hl]
          rfl
        · apply Steps.refl
    · rcases hlv : out.LayerVersions with _ | ⟨item, rest⟩
      · simp only [getLayerVersion, hcfg, hl, hlv]
        apply Exists.intro
        apply Steps.next
        · simp only [balanceRegionToVersion.step, hcfg]
          rfl
        · apply Steps.next
          · simp only [balanceRegionToVersion.step, Harmonizer.emit, Memory.emit,
              State.log_layerAt, hl, hlv]
            rfl
          · apply Steps.refl
      · simp only [getLayerVersion, hcfg, hl, hlv]
        apply Exists.intro
        apply Steps.next
        · simp only [balanceRegionToVersion.step, hcfg]
          rfl
        · apply Steps.next
          · simp only [balanceRegionToVersion.step, Harmonizer.emit, Memory.emit,
              State.log_layerAt, hl, hlv]
            rfl
          · apply Steps.refl
  · simp only [getLayerVersion, hcfg]
    apply Exists.intro
    apply Steps.next
    · simp only [balanceRegionToVersion.step, hcfg]
      rfl
    · apply Steps.refl

/-- The content fetch of the loop body in steps, for a goroutine that runs alone: the call
of `downloadCanonicalLayerZip` leads to its panic, to the return of its error, or to the
publish call with the bytes it returned; the guard is released. -/
theorem runs_fetch (P : Provider) (region : String) (layer : Nat) (maxVersion : Int)
    (events : List Event) (s : State) (cfg : Config) (i : Int) (hi : i < maxVersion)
    (s1 : State) (r : Outcome (Bytes × Option Error))
    (hd : downloadCanonicalLayerZip P s layer = (s1, r)) :
    match r with
    | .panicked msg =>
      ∃ t1, Runs (balanceRegionToVersion.step P)
        { region := region, layer := layer, maxVersion := maxVersion, pc := .loop cfg i,
          events := events } { state := s, held := [] } { state := s1, held := [] }
        (.panicked t1 msg)
    | .returned (_, some err) =>
      ∃ t1, Runs (balanceRegionToVersion.step P)
        { region := region, layer := layer, maxVersion := maxVersion, pc := .loop cfg i,
          events := events } { state := s, held := [] } { state := s1, held := [] }
        (.returned t1 (some ("error downloading canonical zip: " ++ err)))
    | .returned (payload, none) =>
      ∃ ev, Steps (balanceRegionToVersion.step P)
        { region := region, layer := layer, maxVersion := maxVersion, pc := .loop cfg i,
          events := events } { state := s, held := [] }
        { region := region, layer := layer, maxVersion := maxVersion,
          pc := .publish cfg i payload, events := ev }
        { state := s1, held := [] } := by
  by_cases hon : (s.layerAt layer).LayerContentOnce = true
  · simp only [downloadCanonicalLayerZip, hon, if_true] at hd
    cases hd
    apply Exists.intro
    apply Steps.next
    · simp only [balanceRegionToVersion.step, hi, hon, if_true]
      rfl
    · apply Steps.refl
  · have hof : (s.layerAt layer).LayerContentOnce = false := by simpa using hon
    rcases hc : P.LoadDefaultConfig s.trace "eu-central-1" with ⟨cfgc, errc⟩
    have h1 : balanceRegionToVersion.step P
        { region := region, layer := layer, maxVersion := maxVersion, pc := .loop cfg i,
          events := events } { state := s, held := [] } =
        .next { state := s, held := [layer] }
          { region := region, layer := layer, maxVersion := maxVersion,
            pc := .fetchConfig cfg i, events := events } := by
      simp [balanceRegionToVersion.step, hi, hof]
    have h2 : balanceRegionToVersion.step P
        { region := region, layer := layer, maxVersion := maxVersion,
          pc := .fetchConfig cfg i, events := events } { state := s, held := [layer] } =
        .next { state := s.log (.LoadDefaultConfig "eu-central-1" cfgc errc), held := [layer] }
          { region := region, layer := layer, maxVersion := maxVersion,
            pc := .fetchProbeConfig cfg i cfgc errc,
            events := events ++ [.LoadDefaultConfig "eu-central-1" cfgc errc] } := by
      simp only [balanceRegionToVersion.step, hc]
      rfl
    obtain ⟨ev3, h3⟩ := steps_fetchProbe P region layer maxVersion
      (events ++ [.LoadDefaultConfig "eu-central-1" cfgc errc])
      { state := s.log (.LoadDefaultConfig "eu-central-1" cfgc errc), held := [layer] }
      cfg i cfgc errc
    simp only [State.log_layerAt] at h3
    rcases hg : getLayerVersion P (s.log (.LoadDefaultConfig "eu-central-1" cfgc errc))
      (s.layerAt layer).Name "eu-central-1" with ⟨s2, e2 | v2⟩
    all_goals
      rw [hg] at h3
      simp only [] at h3
      have h123 := Steps.next h1 (Steps.next h2 h3)
      clear h1 h2 h3
      unfold downloadCanonicalLayerZip at hd
      rw [if_neg hon] at hd
      simp only [hc, hg, State.log_layerAt] at hd
      repeat' split at hd
    all_goals
      cases hd
    all_goals
      try simp only [*] at *
    all_goals
      apply Exists.intro
      first
      | (apply steps_runs h123
         apply Runs.panic
         simp only [balanceRegionToVersion.step, Harmonizer.emit, Memory.emit, Memory.release,
           State.log_layerAt, List.erase_cons_head, *]
         rfl)
      | (apply steps_runs h123
         apply Runs.next
         · simp only [balanceRegionToVersion.step, Harmonizer.emit, Memory.emit, Memory.release,
             State.log_layerAt, List.erase_cons_head, *]
           rfl
         apply Runs.panic
         simp only [balanceRegionToVersion.step, Harmonizer.emit, Memory.emit, Memory.release,
           State.log_layerAt, List.erase_cons_head, *]
         rfl)
      | (apply steps_runs h123
         apply Runs.next
         · simp only [balanceRegionToVersion.step, Harmonizer.emit, Memory.emit, Memory.release,
             State.log_layerAt, List.erase_cons_head, *]
           rfl
         apply Runs.ret
         simp only [balanceRegionToVersion.step, Harmonizer.emit, Memory.emit, Memory.release,
           State.log_layerAt, List.erase_cons_head, *]
         rfl)
      | (apply steps_trans h123
         apply Steps.next
         · simp only [balanceRegionToVersion.step, Harmonizer.emit, Memory.emit, Memory.release,
             State.log_layerAt, List.erase_cons_head, *]
           rfl
         apply Steps.next
         · simp only [balanceRegionToVersion.step, Harmonizer.emit, Memory.emit, Memory.release,
             State.log_layerAt, List.erase_cons_head, *]
           rfl
         try simp only [*]
         apply Steps.refl)

/-- The loop of `balanceRegionToVersion` in steps, for a goroutine that runs alone: from
the loop test the goroutine comes to its end in the state in which `balanceLoop` ends and
with the outcome of `balanceLoop`. -/
theorem runs_loop (P : Provider) (region : String) (layer : Nat) (cfg : Config)
    (maxVersion : Int) :
    ∀ (n : Nat) (i : Int) (s : State) (events : List Event), (maxVersion - i).toNat = n →
      ∃ G, Runs (balanceRegionToVersion.step P)
          { region := region, layer := layer, maxVersion := maxVersion, pc := .loop cfg i,
            events := events } { state := s, held := [] }
          { state := (balanceLoop P region layer cfg maxVersion i s).1, held := [] } G ∧
        G.outcome = (balanceLoop P region layer cfg maxVersion i s).2 := by
  have hdone : ∀ (i : Int) (s : State) (events : List Event), ¬ i < maxVersion →
      ∃ G, Runs (balanceRegionToVersion.step P)
          { region := region, layer := layer, maxVersion := maxVersion, pc := .loop cfg i,
            events := events } { state := s, held := [] }
          { state := (balanceLoop P region layer cfg maxVersion i s).1, held := [] } G ∧
        G.outcome = (balanceLoop P region layer cfg maxVersion i s).2 := by
    intro i s events hi
    rw [balanceLoop_eq, if_neg hi]
    apply Exists.intro
    apply And.intro
    · apply Runs.ret
      simp only [balanceRegionToVersion.step, if_neg hi]
      rfl
    · rfl
  intro n
  induction n with
  | zero =>
    intro i s events hn
    exact hdone i s events (by omega)
  | succ n ih =>
    intro i s events hn
    have hi : i < maxVersion := by omega
    rcases hd : downloadCanonicalLayerZip P s layer with ⟨s1, r⟩
    have hf := runs_fetch P region layer maxVersion events s cfg i hi s1 r hd
    rw [balanceLoop_eq, if_pos hi, hd]
    rcases r with ⟨payload, _ | err⟩ | msg
    · obtain ⟨ev, hsteps⟩ := hf
      simp only []
      rcases hp : P.PublishLayerVersion s1.trace cfg
        (publishInput region (s1.layerAt layer) payload) with e | out
      · simp only []
        apply Exists.intro
        apply And.intro
        · apply steps_runs hsteps
          apply Runs.ret
          simp only [balanceRegionToVersion.step, hp]
          rfl
        · rfl
      · simp only []
        rcases hg : P.AddLayerVersionPermission
          (s1.log (.PublishLayerVersion cfg (publishInput region (s1.layerAt layer) payload)
            (.ok out))).trace cfg (permissionInput (s1.layerAt layer) out.Version) with e | u
        · simp only []
          apply Exists.intro
          apply And.intro
          · apply steps_runs hsteps
            apply Runs.next
            · simp only [balanceRegionToVersion.step, hp]
              rfl
            apply Runs.ret
            simp only [balanceRegionToVersion.step, Harmonizer.emit, Memory.emit,
              State.log_layerAt, hp, hg]
            rfl
          · rfl
        · simp only []
          obtain ⟨G, hruns, hout⟩ := ih (i + 1)
            ((s1.log (.PublishLayerVersion cfg (publishInput region (s1.layerAt layer) payload)
              (.ok out))).log
              (.AddLayerVersionPermission cfg
                (permissionInput (s1.layerAt layer) out.Version) (.ok ())))
            ((ev ++ [.PublishLayerVersion cfg (publishInput region (s1.layerAt layer) payload)
              (.ok out)]) ++
              [.AddLayerVersionPermission cfg
                (permissionInput (s1.layerAt layer) out.Version) (.ok ())])
            (by omega)
          refine ⟨G, ?_, hout⟩
          apply steps_runs hsteps
          apply Runs.next
          · simp only [balanceRegionToVersion.step, hp]
            rfl
          apply Runs.next
          · simp only [balanceRegionToVersion.step, Harmonizer.emit, Memory.emit,
              State.log_layerAt, hp, hg]
            rfl
          exact hruns
    · obtain ⟨t1, hruns⟩ := hf
      exact ⟨_, hruns, rfl⟩
    · obtain ⟨t1, hruns⟩ := hf
      exact ⟨_, hruns, rfl⟩

/-- A call of `balanceRegionToVersion` in steps, for a goroutine that runs alone: the
goroutine comes to its end in the state in which the call ends and with its outcome. -/
theorem balanceRegionToVersion_runs (P : Provider) (s : State) (region : String) (layer : Nat)
    (maxVersion : Int) (events : List Event) :
    ∃ G, Runs (balanceRegionToVersion.step P)
        { region := region, layer := layer, maxVersion := maxVersion, pc := .probeConfig,
          events := events } { state := s, held := [] }
        { state := (balanceRegionToVersion P s region layer maxVersion).1, held := [] } G ∧
      G.outcome = (balanceRegionToVersion P s region layer maxVersion).2 := by
  obtain ⟨hp1, hp2⟩ := runs_probe P region layer maxVersion events { state := s, held := [] }
  rcases balanceRegionToVersion_cases P s region layer maxVersion with
    ⟨e, he, h⟩ | ⟨current, cfg, e, hc, hcfg, h⟩ | ⟨current, cfg, hc, hcfg, h⟩
  · obtain ⟨t1, hr⟩ := hp1 e he
    rw [h]
    exact ⟨_, hr, rfl⟩
  · obtain ⟨ev, hs⟩ := hp2 current hc
    obtain ⟨t1, hr⟩ := (runs_config P region layer maxVersion ev
      { state := (getLayerVersion P s (s.layerAt layer).Name region).1, held := [] }
      current cfg).1 e hcfg
    rw [h]
    exact ⟨_, steps_runs hs hr, rfl⟩
  · obtain ⟨ev, hs⟩ := hp2 current hc
    obtain ⟨ev1, hs1⟩ := (runs_config P region layer maxVersion ev
      { state := (getLayerVersion P s (s.layerAt layer).Name region).1, held := [] }
      current cfg).2 hcfg
    obtain ⟨G, hr, hout⟩ := runs_loop P region layer cfg maxVersion _ current
      ((getLayerVersion P s (s.layerAt layer).Name region).1.log
        (.LoadDefaultConfig region cfg none)) ev1 rfl
    rw [h]
    exact ⟨G, steps_runs hs (steps_runs hs1 hr), hout⟩

/-- A step of a goroutine at rest changes nothing. -/
theorem Group.stepAt_of_settled {σ τ : Type} (step : τ → σ → Step σ τ) (i : Nat)
    (g : Group σ τ) (h : g.Settled i) : g.stepAt step i = g := by
  unfold Group.stepAt
  split
  · rfl
  · rename_i hc
    split
    · rename_i t ht
      rcases h with h | h
      · exact absurd hc h
      · have := h _ ht
        cases this
    · rfl

/-- Steps of a goroutine at rest change nothing. -/
theorem Group.stepTimes_of_settled {σ τ : Type} (step : τ → σ → Step σ τ) (i n : Nat)
    (g : Group σ τ) (h : g.Settled i) : g.stepTimes step i n = g := by
  induction n with
  | zero => rfl
  | succ n ih =>
    show (g.stepAt step i).stepTimes step i n = g
    rw [Group.stepAt_of_settled step i g h, ih]

/-- Steps in a row add up. -/
theorem Group.stepTimes_add {σ τ : Type} (step : τ → σ → Step σ τ) (i a b : Nat)
    (g : Group σ τ) : g.stepTimes step i (a + b) = (g.stepTimes step i a).stepTimes step i b := by
  induction a generalizing g with
  | zero => simp [Group.stepTimes]
  | succ a ih =>
    rw [Nat.succ_add]
    exact ih (g.stepAt step i)

/-- A goroutine that runs alone in its group: once it has taken the steps of its run, the
group holds the memory and the goroutine in which the run ends, and `Wait` returns its
outcome. -/
theorem runs_group {σ τ : Type} {step : τ → σ → Step σ τ} {t : τ} {m m1 : σ}
    {G : Goroutine τ} (h : Runs step t m m1 G) :
    ∃ k, ∀ n, k ≤ n →
      (Group.stepTimes step 0 n
        { shared := m, goroutines := [.running t], err := none, crashed := none }).shared = m1 ∧
      (Group.stepTimes step 0 n
        { shared := m, goroutines := [.running t], err := none, crashed := none }).wait =
        G.outcome := by
  induction h with
  | @ret t t1 m m1 e hs =>
    refine ⟨1, fun n hn => ?_⟩
    obtain ⟨n, rfl⟩ : ∃ k, n = k + 1 := ⟨n - 1, by omega⟩
    have h1 : Group.stepAt step 0
        { shared := m, goroutines := [.running t], err := none, crashed := none } =
        { shared := m1, goroutines := [.returned t1 e], err := e, crashed := none } := by
      simp [Group.stepAt, hs]
    have h2 : Group.stepTimes step 0 (n + 1)
        { shared := m, goroutines := [.running t], err := none, crashed := none } =
        { shared := m1, goroutines := [.returned t1 e], err := e, crashed := none } := by
      show Group.stepTimes step 0 n (Group.stepAt step 0 _) = _
      rw [h1, Group.stepTimes_of_settled]
      right
      intro G hG
      simp at hG
      subst hG
      rfl
    rw [h2]
    exact ⟨rfl, by simp [Group.wait, Goroutine.isReturned, Goroutine.outcome]⟩
  | @panic t t1 m m1 msg hs =>
    refine ⟨1, fun n hn => ?_⟩
    obtain ⟨n, rfl⟩ : ∃ k, n = k + 1 := ⟨n - 1, by omega⟩
    have h1 : Group.stepAt step 0
        { shared := m, goroutines := [.running t], err := none, crashed := none } =
        { shared := m1, goroutines := [.panicked t1 msg], err := none, crashed := some msg } := by
      simp [Group.stepAt, hs]
    have h2 : Group.stepTimes step 0 (n + 1)
        { shared := m, goroutines := [.running t], err := none, crashed := none } =
        { shared := m1, goroutines := [.panicked t1 msg], err := none, crashed := some msg } := by
      show Group.stepTimes step 0 n (Group.stepAt step 0 _) = _
      rw [h1, Group.stepTimes_of_settled]
      left
      simp
    rw [h2]
    exact ⟨rfl, by simp [Group.wait, Goroutine.outcome]⟩
  | @next t t1 m m1 m2 G hs _ ih =>
    obtain ⟨k, hk⟩ := ih
    refine ⟨k + 1, fun n hn => ?_⟩
    obtain ⟨n, rfl⟩ : ∃ j, n = j + 1 := ⟨n - 1, by omega⟩
    have h1 : Group.stepAt step 0
        { shared := m, goroutines := [.running t], err := none, crashed := none } =
        { shared := m1, goroutines := [.running t1], err := none, crashed := none } := by
      simp [Group.stepAt, hs]
    have h2 : Group.stepTimes step 0 (n + 1)
        { shared := m, goroutines := [.running t], err := none, crashed := none } =
        Group.stepTimes step 0 n
          { shared := m1, goroutines := [.running t1], err := none, crashed := none } := by
      show Group.stepTimes step 0 n (Group.stepAt step 0 _) = _
      rw [h1]
    rw [h2]
    exact hk n (by omega)

/-- A step of a goroutine that the group does not have changes nothing. -/
theorem Group.stepAt_of_absent {σ τ : Type} (step : τ → σ → Step σ τ) (i : Nat)
    (g : Group σ τ) (h : g.goroutines.length ≤ i) : g.stepAt step i = g := by
  unfold Group.stepAt
  split
  · rfl
  · split
    · rename_i t ht
      rw [List.getElem?_eq_none h] at ht
      cases ht
    · rfl

/-- A group of one goroutine, in every schedule, is where its goroutine is after a number
of steps. -/
theorem Group.finish_alone {σ τ : Type} (step : τ → σ → Step σ τ) (bound : τ → Nat)
    (sched : List Nat) (g : Group σ τ) (h : g.goroutines.length = 1) :
    ∃ n, (g.run step sched).drain step bound = g.stepTimes step 0 n := by
  have := Group.finish_induct step bound
    (fun g1 => g1.goroutines.length = 1 ∧ ∃ n, g1 = g.stepTimes step 0 n)
    (fun i g1 h1 => by
      obtain ⟨hl, n, hn⟩ := h1
      refine ⟨(Group.stepAt_length step i g1).trans hl, ?_⟩
      by_cases hi : i = 0
      · subst hi
        refine ⟨n + 1, ?_⟩
        rw [Group.stepTimes_add, ← hn]
        rfl
      · refine ⟨n, ?_⟩
        rw [Group.stepAt_of_absent step i g1 (by omega)]
        exact hn)
    sched g ⟨h, 0, rfl⟩
  exact this.2

/-- The goroutine of `balanceRegionToVersion` agrees with the call: a goroutine that runs
alone in its group, in every schedule, leaves the state in which the call
`balanceRegionToVersion` ends, and `Wait` returns what the call returns. -/
theorem balanceRegionToVersion_alone (P : Provider) (sched : List Nat) (s : State)
    (region : String) (layer : Nat) (maxVersion : Int)
    (hidx : layer < s.canonicalLayers.length) :
    ((((Group.run (balanceRegionToVersion.step P) sched
        { shared := { state := s, held := [] }
          goroutines := [.running { region := region, layer := layer, maxVersion := maxVersion,
                                    pc := .probeConfig, events := [] }]
          err := none
          crashed := none }).drain (balanceRegionToVersion.step P)
        balanceRegionToVersion.bound).shared.state,
      ((Group.run (balanceRegionToVersion.step P) sched
        { shared := { state := s, held := [] }
          goroutines := [.running { region := region, layer := layer, maxVersion := maxVersion,
                                    pc := .probeConfig, events := [] }]
          err := none
          crashed := none }).drain (balanceRegionToVersion.step P)
        balanceRegionToVersion.bound).wait) : State × Outcome (Option Error)) =
      balanceRegionToVersion P s region layer maxVersion := by
  obtain ⟨G, hr, hout⟩ := balanceRegionToVersion_runs P s region layer maxVersion []
  obtain ⟨k, hk⟩ := runs_group hr
  obtain ⟨n, hn⟩ := Group.finish_alone (balanceRegionToVersion.step P)
    balanceRegionToVersion.bound sched
    { shared := { state := s, held := [] }
      goroutines := [.running { region := region, layer := layer, maxVersion := maxVersion,
                                pc := .probeConfig, events := [] }]
      err := none
      crashed := none } rfl
  have hg0 : Guarded
      { shared := { state := s, held := [] }
        goroutines := [.running { region := region, layer := layer, maxVersion := maxVersion,
                                  pc := .probeConfig, events := [] }]
        err := none
        crashed := none } := by
    unfold Guarded
    refine ⟨?_, fun _ h => (by cases h), ?_, List.nodup_nil⟩
    · intro G hG
      simp at hG
      subst hG
      exact hidx
    · intro t ht he
      simp at ht
      subst ht
      cases he
  have hg1 := Group.run_induct (balanceRegionToVersion.step P) Guarded
    (fun i g h => guarded_stepAt P i g h) sched _ hg0
  obtain ⟨hg2, hall⟩ := pass_atLoop P _ hg1
  have hset := pass_settled P _ hg2 hall 0
  change Group.Settled (Group.drain (balanceRegionToVersion.step P)
    balanceRegionToVersion.bound _) 0 at hset
  rw [hn] at hset ⊢
  have hkn : Group.stepTimes (balanceRegionToVersion.step P) 0 (n + k)
      { shared := { state := s, held := [] }
        goroutines := [.running { region := region, layer := layer, maxVersion := maxVersion,
                                  pc := .probeConfig, events := [] }]
        err := none
        crashed := none } =
      Group.stepTimes (balanceRegionToVersion.step P) 0 n
      { shared := { state := s, held := [] }
        goroutines := [.running { region := region, layer := layer, maxVersion := maxVersion,
                                  pc := .probeConfig, events := [] }]
        err := none
        crashed := none } := by
    rw [Group.stepTimes_add, Group.stepTimes_of_settled _ _ _ _ hset]
  obtain ⟨h1, h2⟩ := hk (n + k) (by omega)
  rw [hkn] at h1 h2
  rw [h1, h2, hout]

/-- The write events of completed rounds, spelled out: each round is the publish of the
layer and then the grant on the layer for the version the publish returned. -/
theorem rounds_eq_flatMap (cfg : Config) (region : String) (l : LayerInfo)
    (rs : List (Bytes × PublishLayerVersionOutput)) :
    rounds cfg region l rs = rs.flatMap fun x =>
      [.PublishLayerVersion cfg
          { Content := { ZipFile := x.1 },
            LayerName := l.Name,
            CompatibleArchitectures :=
              if region ∈ singleArchitectureRegions then [] else [l.Architecture],
            CompatibleRuntimes := ["python3.7", "python3.8", "python3.9"],
            Description := l.Description,
            LicenseInfo := "MIT-0" }
          (.ok x.2),
        .AddLayerVersionPermission cfg
          { Action := "lambda:GetLayerVersion",
            LayerName := l.Name,
            Principal := "*",
            StatementId := "PublicLayerAccess",
            VersionNumber := x.2.Version }
          (.ok ())] := by
  induction rs with
  | nil => rfl
  | cons x rs ih =>
    obtain ⟨payload, out⟩ := x
    simp only [rounds, List.flatMap_cons, ih, publishInput_eq, permissionInput]
    rfl

/-! ## Claims -/

set_option maxRecDepth 1000000 in
/-- C1, the code at a failing input: against the map provider with the x86 layer at
version 5 in af-south-1 and every other pair at version 3, in the schedule where the
append of version 5 is lost, the run exits with status 0 without a publish, and
afterwards the pair in af-south-1 probes at 5 and the pair in ap-east-1 at 3: the pairs
are not at one version, and not at the maximum 5 of the initial versions. -/
theorem C1_race_leaves_regions_behind :
    (main raceProvider [0, 0, 0, 1, 1, 1, 0, 1] [] initialState).2 = 0 ∧
    (main raceProvider [0, 0, 0, 1, 1, 1, 0, 1] [] initialState).1.trace.filter Event.isPublish =
      [] ∧
    (getLayerVersion raceProvider (main raceProvider [0, 0, 0, 1, 1, 1, 0, 1] [] initialState).1
      "AWSLambdaPowertoolsPythonV2" "af-south-1").2 = .ok 5 ∧
    (getLayerVersion raceProvider (main raceProvider [0, 0, 0, 1, 1, 1, 0, 1] [] initialState).1
      "AWSLambdaPowertoolsPythonV2" "ap-east-1").2 = .ok 3 :=
  ⟨rfl, rfl, rfl, rfl⟩

/-- C2: with no failing provider call and the region probed at `current`, the harmonizer
returns nil and its write events are exactly `max(0, target - current)` rounds, each a
publish of the layer followed by the grant of `lambda:GetLayerVersion` to everyone on the
layer for the version number this publish returned; so it issues that many publishes and
that many grants, and when `current ≥ target` it issues no publish, no grant and no
download call. -/
theorem C2_call_count (P : Provider) (hP : P.NoFailure) (s : State) (region : String)
    (layer : Nat) (target current : Int)
    (hprobe : (getLayerVersion P s (s.layerAt layer).Name region).2 = .ok current) :
    (balanceRegionToVersion P s region layer target).2 = .returned none ∧
    (∃ (cfg : Config) (rs : List (Bytes × PublishLayerVersionOutput)),
      rs.length = (target - current).toNat ∧
      (balanceRegionToVersion P s region layer target).1.trace.filter Event.isWrite =
        s.trace.filter Event.isWrite ++ rs.flatMap fun x =>
          [.PublishLayerVersion cfg
              { Content := { ZipFile := x.1 },
                LayerName := (s.layerAt layer).Name,
                CompatibleArchitectures :=
                  if region ∈ singleArchitectureRegions then []
                  else [(s.layerAt layer).Architecture],
                CompatibleRuntimes := ["python3.7", "python3.8", "python3.9"],
                Description := (s.layerAt layer).Description,
                LicenseInfo := "MIT-0" }
              (.ok x.2),
            .AddLayerVersionPermission cfg
              { Action := "lambda:GetLayerVersion",
                LayerName := (s.layerAt layer).Name,
                Principal := "*",
                StatementId := "PublicLayerAccess",
                VersionNumber := x.2.Version }
              (.ok ())]) ∧
    ((balanceRegionToVersion P s region layer target).1.trace.filter Event.isPublish).length =
      (s.trace.filter Event.isPublish).length + (target - current).toNat ∧
    ((balanceRegionToVersion P s region layer target).1.trace.filter Event.isGrant).length =
      (s.trace.filter Event.isGrant).length + (target - current).toNat ∧
    (target ≤ current →
      (balanceRegionToVersion P s region layer target).1.trace.filter Event.isWrite =
        s.trace.filter Event.isWrite ∧
      (balanceRegionToVersion P s region layer target).1.trace.filter Event.isDownload =
        s.trace.filter Event.isDownload) := by
  rcases balanceRegionToVersion_cases P s region layer target with
    ⟨e, he, -⟩ | ⟨c, cfg, e, -, hc, -⟩ | ⟨c, cfg, hc1, hcfg, h⟩
  · rw [hprobe] at he; cases he
  · have := hP.loadDefaultConfig (getLayerVersion P s (s.layerAt layer).Name region).1.trace region
    rw [hc] at this
    cases this
  · rw [hprobe] at hc1
    cases hc1
    obtain ⟨hw, hl⟩ := loopEntry_facts P s (s.layerAt layer).Name region cfg none
    have hret := balanceLoop_ok P region layer cfg target (s.layerAt layer).Name
      (hP.fetchOK _) hP.publishLayerVersion hP.addLayerVersionPermission _ current
      ((getLayerVersion P s (s.layerAt layer).Name region).1.log
        (.LoadDefaultConfig region cfg none)) rfl (by rw [State.layerAt, hl]; rfl)
    obtain ⟨rs, tail, -, h2, -, h4, h5⟩ := balanceLoop_shape P region layer cfg target
      (s.layerAt layer) _ current
      ((getLayerVersion P s (s.layerAt layer).Name region).1.log
        (.LoadDefaultConfig region cfg none)) rfl (by rw [State.layerAt, hl]; rfl)
    rw [← h] at hret h2 h4 h5
    have htail : tail = [] := by
      rw [hret] at h4
      cases h4
      rfl
    subst htail
    rw [hw, List.append_nil] at h2
    have hlen := h5 hret
    refine ⟨hret, ⟨cfg, rs, hlen, by rw [h2, rounds_eq_flatMap]⟩, ?_, ?_, ?_⟩
    · rw [← filter_isPublish_filter_isWrite, h2, List.filter_append,
        filter_isPublish_filter_isWrite, filter_isPublish_rounds]
      simp [hlen]
    · rw [← filter_isGrant_filter_isWrite, h2, List.filter_append,
        filter_isGrant_filter_isWrite, filter_isGrant_rounds]
      simp [hlen]
    · intro hle
      have h0 : rs = [] := List.length_eq_zero.1 (by rw [hlen]; omega)
      subst h0
      refine ⟨by simpa [rounds] using h2, ?_⟩
      rw [h, balanceLoop_eq, if_neg (by omega), State.log_trace, List.filter_append,
        getLayerVersion_filter Event.isDownload (fun _ _ _ => rfl) (fun _ _ _ => rfl)]
      simp [Event.isDownload, Event.isGetLayerVersion, Event.isGet]

/-- C2, at a concrete input: every pair at version 3, layer 0 in us-east-1 harmonized to
target 5: two publishes. -/
theorem C2_call_count_witness :
    (mapProvider (fun _ _ => 3) (fun _ => [9])).NoFailure ∧
    (getLayerVersion (mapProvider (fun _ _ => 3) (fun _ => [9])) initialState
      (initialState.layerAt 0).Name "us-east-1").2 = .ok 3 ∧
    (balanceRegionToVersion (mapProvider (fun _ _ => 3) (fun _ => [9])) initialState
      "us-east-1" 0 5).2 = .returned none ∧
    ((balanceRegionToVersion (mapProvider (fun _ _ => 3) (fun _ => [9])) initialState
      "us-east-1" 0 5).1.trace.filter Event.isPublish).length = 0 + 2 :=
  have h := C2_call_count (mapProvider (fun _ _ => 3) (fun _ => [9]))
    (mapProvider_noFailure _ _ (fun _ _ => by decide)) initialState "us-east-1" 0 5 3 rfl
  ⟨mapProvider_noFailure _ _ (fun _ _ => by decide), rfl, h.1, h.2.2.1⟩

/-- C3, the code at failing inputs.  A body read that fails after two bytes: the call
returns the read error, yet it has stored the two bytes in the cache and fired the guard.
A failed probe of the canonical region: the call goes on to request the metadata of
version 0 and, that request refused too, panics on the nil result instead of returning
the error.  A failed metadata request after a good probe: the call panics as well. -/
theorem C3_failed_step_still_stores :
    (∃ s, downloadCanonicalLayerZip truncatedBodyProvider initialState 0 =
        (s, .returned ([1, 2], some "unexpected EOF")) ∧
      (s.layerAt 0).LayerContent = [1, 2] ∧ (s.layerAt 0).LayerContentOnce = true) ∧
    (∃ s, downloadCanonicalLayerZip failedProbeProvider initialState 0 =
        (s, .panicked "nil pointer dereference") ∧
      s.trace.drop 2 =
        [ .ListLayerVersions { Region := "eu-central-1" }
            { LayerName := "AWSLambdaPowertoolsPythonV2", MaxItems := 1 }
            (.error "AccessDenied"),
          .GetLayerVersion { Region := "eu-central-1" }
            { LayerName := "AWSLambdaPowertoolsPythonV2", VersionNumber := 0 }
            (.error "AccessDenied") ]) ∧
    (∃ s, downloadCanonicalLayerZip failedMetadataProvider initialState 0 =
        (s, .panicked "nil pointer dereference")) :=
  ⟨⟨_, rfl, rfl, rfl⟩, ⟨_, rfl, rfl⟩, ⟨_, rfl⟩⟩

/-- C4, the code at a failing input: the one download for layer 0 fails with a read
error; the first call returns that error, the second call returns a nil error with
empty content. -/
theorem C4_later_call_returns_nil_error :
    (downloadTimes failedBodyProvider 0 2 initialState).2 =
      [.returned ([], some "connection reset"), .returned ([], none)] :=
  rfl

/-- C5: `n ≥ 1` serialised calls of the fetcher for one layer issue at most one probe, one
metadata request and one HTTP GET; if the first call returns bytes `b` with no error
then every one of the `n` calls returns `b` with no error, and this is so when the guard
has not fired yet and every step of the download succeeds with body `b`; and every
other layer is left as it was. -/
theorem C5_fetch_idempotent (P : Provider) (s : State) (layer n : Nat)
    (hl : layer < s.canonicalLayers.length) (hn : 1 ≤ n) :
    ((downloadTimes P layer n s).1.trace.countP Event.isList ≤ s.trace.countP Event.isList + 1 ∧
      (downloadTimes P layer n s).1.trace.countP Event.isGetLayerVersion ≤
        s.trace.countP Event.isGetLayerVersion + 1 ∧
      (downloadTimes P layer n s).1.trace.countP Event.isGet ≤ s.trace.countP Event.isGet + 1) ∧
    (∀ s1 b, downloadCanonicalLayerZip P s layer = (s1, .returned (b, none)) →
      (downloadTimes P layer n s).2 = List.replicate n (.returned (b, none))) ∧
    (∀ b, (s.layerAt layer).LayerContentOnce = false → FetchOK P (s.layerAt layer).Name →
      (∀ tr url, P.Get tr url = (some { Body := { data := b, err := none } }, none)) →
      (downloadTimes P layer n s).2 = List.replicate n (.returned (b, none))) ∧
    (∀ j, j ≠ layer → (downloadTimes P layer n s).1.layerAt j = s.layerAt j) := by
  have hfr := downloadCanonicalLayerZip_fresh P s layer
  obtain ⟨m, rfl⟩ : ∃ m, n = m + 1 := ⟨n - 1, by omega⟩
  have hc := downloadCanonicalLayerZip_counts P s layer
  have ho := downloadCanonicalLayerZip_others P s layer
  have hd := downloadCanonicalLayerZip_done P s layer hl
  have hb := downloadCanonicalLayerZip_content P s
  rcases hr : downloadCanonicalLayerZip P s layer with ⟨s1, r | msg⟩
  · rw [hr] at hc ho hd
    have hb := hb s1 layer r.1 r.2 hr
    rw [hr] at hfr
    simp only [downloadTimes, hr, downloadTimes_once P layer m s1 hd]
    refine ⟨hc, ?_, ?_, ho⟩
    · intro s1' b h
      simp only [Prod.mk.injEq, Outcome.returned.injEq] at h
      rw [hb, h.2, List.replicate_succ]
    · intro b h1 h2 h3
      have h := hfr b hl h1 h2 h3
      simp only [Outcome.returned.injEq] at h
      rw [hb, h, List.replicate_succ]
  · rw [hr] at hc ho hfr
    simp only [downloadTimes, hr]
    refine ⟨hc, by intro s1 b h; simp at h, ?_, ho⟩
    intro b h1 h2 h3
    have h := hfr b hl h1 h2 h3
    simp at h

/-- C5, at a concrete input: three calls for layer 0 against a provider that serves the
bytes 1, 2, 3. -/
theorem C5_fetch_idempotent_witness :
    (0 < initialState.canonicalLayers.length ∧ 1 ≤ 3) ∧
    (downloadTimes (mapProvider (fun _ _ => 1) (fun _ => [1, 2, 3])) 0 3 initialState).2 =
      List.replicate 3 (.returned ([1, 2, 3], none)) :=
  ⟨⟨by decide, by decide⟩,
    (C5_fetch_idempotent (mapProvider (fun _ _ => 1) (fun _ => [1, 2, 3])) initialState 0 3
      (by decide) (by decide)).2.1 _ _ rfl⟩

/-- C6: every publish call that `balanceRegionToVersion` issues for a region and a layer
carries the layer name and description, the cached content of the layer, the license
MIT-0 and the runtimes python3.7, python3.8, python3.9, and carries no architecture
constraint if the region is a single-architecture region and exactly the architecture
of the layer otherwise. -/
theorem C6_architecture_tag (P : Provider) (s : State) (region : String) (layer : Nat)
    (maxVersion : Int) (hl : layer < s.canonicalLayers.length) :
    ∃ news, (balanceRegionToVersion P s region layer maxVersion).1.trace.filter Event.isPublish =
        s.trace.filter Event.isPublish ++ news ∧
      ∀ e ∈ news, ∃ cfg result, e = .PublishLayerVersion cfg
        { Content := { ZipFile :=
            ((balanceRegionToVersion P s region layer maxVersion).1.layerAt layer).LayerContent },
          LayerName := (s.layerAt layer).Name,
          CompatibleArchitectures :=
            if region ∈ singleArchitectureRegions then [] else [(s.layerAt layer).Architecture],
          CompatibleRuntimes := ["python3.7", "python3.8", "python3.9"],
          Description := (s.layerAt layer).Description,
          LicenseInfo := "MIT-0" } result := by
  have hp := getLayerVersion_filter Event.isPublish (fun _ _ _ => rfl) (fun _ _ _ => rfl) P s
    (s.layerAt layer).Name region
  rcases balanceRegionToVersion_cases P s region layer maxVersion with
    ⟨e, -, h⟩ | ⟨c, cfg, e, -, -, h⟩ | ⟨c, cfg, -, -, h⟩
  · exact ⟨[], by rw [h, List.append_nil]; exact hp, by simp⟩
  · refine ⟨[], ?_, by simp⟩
    rw [h, State.log_trace, List.filter_append, hp]
    simp [Event.isPublish]
  · obtain ⟨hw, hlay⟩ := loopEntry_facts P s (s.layerAt layer).Name region cfg none
    obtain ⟨rs, tail, -, h2, h3, h4, -⟩ := balanceLoop_shape P region layer cfg maxVersion
      (s.layerAt layer) _ c
      ((getLayerVersion P s (s.layerAt layer).Name region).1.log
        (.LoadDefaultConfig region cfg none)) rfl (by rw [State.layerAt, hlay]; rfl)
    rw [← h] at h2 h3 h4
    simp only [hlay] at h3 h4
    rw [hw] at h2
    refine ⟨(rounds cfg region (s.layerAt layer) rs ++ tail).filter Event.isPublish, ?_, ?_⟩
    · rw [← filter_isPublish_filter_isWrite, h2, List.filter_append,
        filter_isPublish_filter_isWrite]
    · intro e he
      rw [List.filter_append, List.mem_append] at he
      rcases he with he | he
      · obtain ⟨x, hx, rfl⟩ := mem_rounds_isPublish _ _ _ _ _ he
        exact ⟨cfg, .ok x.2, by rw [publishInput_eq, h3 x hx hl]⟩
      · generalize (balanceRegionToVersion P s region layer maxVersion).2 = r at h4
        cases h4 with
        | reached => simp at he
        | fetchFailed e => simp at he
        | fetchPanicked msg => simp at he
        | publishFailed payload err hgood =>
          simp only [List.filter_cons, Event.isPublish, List.filter_nil, if_true,
            List.mem_singleton] at he
          subst he
          exact ⟨cfg, .error err, by rw [publishInput_eq, hgood hl]⟩
        | grantFailed payload out err hgood =>
          simp only [List.filter_cons, Event.isPublish, List.filter_nil, if_true,
            Bool.false_eq_true, if_false, List.mem_singleton] at he
          subst he
          exact ⟨cfg, .ok out, by rw [publishInput_eq, hgood hl]⟩

/-- C6, at a concrete input: layer 0 harmonized in the single-architecture region
eu-south-2 from version 3 to 4. -/
theorem C6_architecture_tag_witness :
    0 < initialState.canonicalLayers.length ∧
    ∃ news, (balanceRegionToVersion (mapProvider (fun _ _ => 3) (fun _ => [9])) initialState
        "eu-south-2" 0 4).1.trace.filter Event.isPublish =
        initialState.trace.filter Event.isPublish ++ news ∧
      ∀ e ∈ news, ∃ cfg result, e = .PublishLayerVersion cfg
        { Content := { ZipFile :=
            ((balanceRegionToVersion (mapProvider (fun _ _ => 3) (fun _ => [9])) initialState
              "eu-south-2" 0 4).1.layerAt 0).LayerContent },
          LayerName := (initialState.layerAt 0).Name,
          CompatibleArchitectures :=
            if "eu-south-2" ∈ singleArchitectureRegions then []
            else [(initialState.layerAt 0).Architecture],
          CompatibleRuntimes := ["python3.7", "python3.8", "python3.9"],
          Description := (initialState.layerAt 0).Description,
          LicenseInfo := "MIT-0" } result :=
  ⟨by decide, C6_architecture_tag (mapProvider (fun _ _ => 3) (fun _ => [9])) initialState
    "eu-south-2" 0 4 (by decide)⟩

/-- C7: for the configured layers (in any cache state), every provider and every schedule,
`getGreatestVersion` and `balanceRegions` call `g.Go` for the same list of pairs, one
goroutine each in this order: no pair of an arm64 layer and a single-architecture region
is among them, every other pair of a canonical layer and a configured region is there
exactly once, and they are 2 x 27 - 5 = 49. -/
theorem C7_arm64_exclusion (P : Provider) (sched1 sched2 : List Nat) (s1 s2 : State)
    (maxVersion : Int)
    (h1 : s1.canonicalLayers.map LayerInfo.static = canonicalLayers.map LayerInfo.static)
    (h2 : s2.canonicalLayers.map LayerInfo.static = canonicalLayers.map LayerInfo.static) :
    ∃ started : List (Nat × String),
      (getGreatestVersion P sched1 s1).1.trace.filter Event.isGo =
        s1.trace.filter Event.isGo ++ started.map (fun p => Event.Go p.1 p.2) ∧
      (getGreatestVersion.group P sched1 s1).goroutines.map
          (fun G => (G.task.layerName, G.task.region)) =
        started.map (fun p => ((canonicalLayers.getD p.1 default).Name, p.2)) ∧
      (balanceRegions P sched2 s2 maxVersion).1.trace.filter Event.isGo =
        s2.trace.filter Event.isGo ++ started.map (fun p => Event.Go p.1 p.2) ∧
      (balanceRegions.group P sched2 s2 maxVersion).goroutines.map
          (fun G => (G.task.layer, G.task.region)) = started ∧
      (∀ p ∈ started,
        ¬ ((canonicalLayers.getD p.1 default).Architecture = ArchitectureArm64 ∧
          p.2 ∈ singleArchitectureRegions)) ∧
      (∀ p ∈ started, p.1 < canonicalLayers.length ∧ p.2 ∈ regions) ∧
      (∀ idx < canonicalLayers.length, ∀ region ∈ regions,
        ¬ ((canonicalLayers.getD idx default).Architecture = ArchitectureArm64 ∧
          region ∈ singleArchitectureRegions) →
        started.count (idx, region) = 1) ∧
      started.length = 2 * 27 - 5 := by
  refine ⟨getGreatestVersion.tasks canonicalLayers, ?_, ?_, ?_, ?_, by decide, by decide,
    by decide, by decide⟩
  · obtain ⟨-, -, -, hp, -, -⟩ := getGreatestVersion_group_facts P sched1 s1
    rw [getGreatestVersion_state, hp Event.isGo (fun _ _ _ => rfl) (fun _ _ _ => rfl),
      State.go_isGo, tasks_congr _ _ h1]
  · obtain ⟨-, -, -, -, -, hm⟩ := getGreatestVersion_group_facts P sched1 s1
    rw [hm, tasks_congr _ _ h1]
    apply List.map_congr_left
    intro p _
    rw [layerAt_name s1 canonicalLayers p.1 h1]
  · obtain ⟨-, hinv, -, -⟩ := balanceRegions_group_facts P sched2 s2 maxVersion
    show (balanceRegions.group P sched2 s2 maxVersion).shared.state.trace.filter Event.isGo = _
    rw [hinv.2.2, State.go_isGo, balanceRegions_tasks_eq, tasks_congr _ _ h2]
  · obtain ⟨-, -, -, hm⟩ := balanceRegions_group_facts P sched2 s2 maxVersion
    rw [hm, balanceRegions_tasks_eq, tasks_congr _ _ h2]

/-- C7, at a concrete input: both phases from the initial state against a provider at
version 3 everywhere start 49 goroutines. -/
theorem C7_arm64_exclusion_witness :
    (getGreatestVersion.group (mapProvider (fun _ _ => 3) (fun _ => [9])) [0, 1, 0]
      initialState).goroutines.length = 49 ∧
    (balanceRegions.group (mapProvider (fun _ _ => 3) (fun _ => [9])) [1, 0, 1]
      initialState 4).goroutines.length = 49 :=
  have ⟨started, _, h2, _, h4, _, _, _, h8⟩ := C7_arm64_exclusion
    (mapProvider (fun _ _ => 3) (fun _ => [9])) [0, 1, 0] [1, 0, 1] initialState initialState 4
    rfl rfl
  ⟨by simpa [h8] using congrArg List.length h2, by simpa [h8] using congrArg List.length h4⟩

set_option maxRecDepth 1000000 in
/-- C8, the code at a failing input: the x86 layer is at version 5 in af-south-1 and every
other pair is at version 3, and no call fails.  In the schedule where the goroutines of
the first two pairs both read `versions` before either writes it back, the append of
version 5 is lost: `getGreatestVersion` returns 3, which is less than the version 5 probed
for a non-excluded pair.  When the goroutines run one after the other it returns 5. -/
theorem C8_race_loses_maximum :
    (getLayerVersion raceProvider initialState "AWSLambdaPowertoolsPythonV2" "af-south-1").2 =
      .ok 5 ∧
    (getGreatestVersion raceProvider [0, 0, 0, 1, 1, 1, 0, 1] initialState).2 =
      .returned (.ok 3) ∧
    (getGreatestVersion raceProvider [] initialState).2 = .returned (.ok 5) :=
  ⟨rfl, rfl, rfl⟩

/-- C9: when the probe of some non-excluded pair fails whenever it is made before any
further write (the configuration does not load, the listing fails, or it lists zero
versions), then in every schedule of the goroutines `getGreatestVersion` returns an
error, the run exits with status 1, and it has issued no publish, no permission grant and
no download call and has left the content caches alone. -/
theorem C9_failed_probe_aborts (P : Provider) (sched1 sched2 : List Nat) (s : State)
    (hfail : ∃ idx region, idx < s.canonicalLayers.length ∧ region ∈ regions ∧
      excluded (s.layerAt idx) region = false ∧
      ∀ tr tr1 : List Event, tr.filter Event.isWrite = s.trace.filter Event.isWrite →
        tr1.filter Event.isWrite = s.trace.filter Event.isWrite →
        probeFailsAt P (s.layerAt idx).Name region tr tr1 = true) :
    (∃ e, (getGreatestVersion P sched1 s).2 = .returned (.error e)) ∧
    (main P sched1 sched2 s).2 = 1 ∧
    (main P sched1 sched2 s).1.trace.filter Event.isWrite = s.trace.filter Event.isWrite ∧
    (main P sched1 sched2 s).1.trace.filter Event.isDownload = s.trace.filter Event.isDownload ∧
    (main P sched1 sched2 s).1.canonicalLayers = s.canonicalLayers := by
  obtain ⟨e, he⟩ := getGreatestVersion_fails P sched1 s hfail
  have hw := getGreatestVersion_filter P sched1 s Event.isWrite (fun _ _ _ => rfl)
    (fun _ _ _ => rfl) (fun _ _ => rfl)
  have hd := getGreatestVersion_filter P sched1 s Event.isDownload (fun _ _ _ => rfl)
    (fun _ _ _ => rfl) (fun _ _ => rfl)
  refine ⟨⟨e, he⟩, ?_⟩
  rcases hg : getGreatestVersion P sched1 s with ⟨s1, r⟩
  rw [hg] at he hw hd
  simp only at he hw hd
  subst he
  simp only [main, hg]
  exact ⟨trivial, hw.1, hd.1, hw.2⟩

/-- C9, at a concrete input: the layer has no version in us-west-2 and version 3
elsewhere; the run from the initial state, in a schedule that interleaves the first
goroutines, exits with status 1 without a write. -/
theorem C9_failed_probe_aborts_witness :
    (0 < initialState.canonicalLayers.length ∧ "us-west-2" ∈ regions ∧
      excluded (initialState.layerAt 0) "us-west-2" = false) ∧
    (main (mapProvider (fun _ r => if r = "us-west-2" then 0 else 3) (fun _ => []))
      [0, 1, 0, 2, 1] [] initialState).2 = 1 ∧
    (main (mapProvider (fun _ r => if r = "us-west-2" then 0 else 3) (fun _ => []))
      [0, 1, 0, 2, 1] [] initialState).1.trace.filter Event.isWrite = [] :=
  have h := C9_failed_probe_aborts
    (mapProvider (fun _ r => if r = "us-west-2" then 0 else 3) (fun _ => [])) [0, 1, 0, 2, 1] []
    initialState
    ⟨0, "us-west-2", by decide, by decide, by decide, fun tr tr1 _ htr1 => by
      have hc := publishedCount_congr [] tr1 "AWSLambdaPowertoolsPythonV2" "us-west-2" htr1
      have h0 : publishedCount tr1 "AWSLambdaPowertoolsPythonV2" "us-west-2" = 0 := by
        rw [hc]
        rfl
      simp [probeFailsAt, mapProvider, initialState, State.layerAt, canonicalLayers, h0]⟩
  ⟨⟨by decide, by decide, by decide⟩, h.2.1, h.2.2.1⟩

/-- C10: in any schedule of the goroutines of `balanceRegions`, let the `j`-th publish
call (`j ≥ 1`) of the goroutine of a pair fail with error `ej`.  Then the goroutine has
returned the publish error; its write events are `j - 1` completed rounds followed by the
failed publish and nothing else (no grant for it, no further publish or grant); its events
stay in the trace, which only grows (there is no delete call), so no published version
of any pair is lost and the `j - 1` versions of this pair stay published;
`balanceRegions` returns an error unless the process has ended in the nil dereference of
the content fetch, and the run exits with a non-zero status (1 for the error, 2 for the
panic). -/
theorem C10_failed_publish_aborts (P : Provider) (sched : List Nat) (s : State)
    (maxVersion : Int) (k : Nat) (G : Goroutine Harmonizer) (j : Nat) (cfgj : Config)
    (inputj : PublishLayerVersionInput) (ej : Error)
    (hG : (balanceRegions.group P sched s maxVersion).goroutines[k]? = some G)
    (hj : 1 ≤ j)
    (hfail : (G.task.events.filter Event.isPublish)[j - 1]? =
      some (.PublishLayerVersion cfgj inputj (.error ej))) :
    (balanceRegions.tasks s.canonicalLayers)[k]? = some (G.task.layer, G.task.region) ∧
    G = .returned G.task (some ("error publishing layer version: " ++ ej)) ∧
    (∃ rs, rs.length + 1 = j ∧
      G.task.events.filter Event.isWrite =
        rounds cfgj G.task.region (s.layerAt G.task.layer) rs ++
          [.PublishLayerVersion cfgj inputj (.error ej)]) ∧
    (∃ ext, (balanceRegions P sched s maxVersion).1.trace =
        (s.trace ++ (balanceRegions.tasks s.canonicalLayers).map fun p => Event.Go p.1 p.2) ++ ext ∧
      G.task.events.Sublist ext) ∧
    (∀ layerName r, publishedCount s.trace layerName r ≤
      publishedCount (balanceRegions P sched s maxVersion).1.trace layerName r) ∧
    publishedCount s.trace (s.layerAt G.task.layer).Name cfgj.Region + (j - 1) ≤
      publishedCount (balanceRegions P sched s maxVersion).1.trace
        (s.layerAt G.task.layer).Name cfgj.Region ∧
    ((∃ e, (balanceRegions P sched s maxVersion).2 = .returned (some e)) ∨
      (balanceRegions P sched s maxVersion).2 = .panicked "nil pointer dereference") ∧
    (∀ sched1 sd, getGreatestVersion P sched1 sd = (s, .returned (.ok maxVersion)) →
      (main P sched1 sched sd).2 = 1 ∨ (main P sched1 sched sd).2 = 2) := by
  obtain ⟨-, hinv, hlog, hmap⟩ := balanceRegions_group_facts P sched s maxVersion
  have hmem : G ∈ (balanceRegions.group P sched s maxVersion).goroutines := List.getElem?_mem hG
  obtain ⟨hret, rs, payload, hlen, -, hw⟩ :=
    Harmonizer.Log.failed_publish _ G (hlog G hmem).1 (j - 1) cfgj inputj ej hfail
  have hsub := (hlog G hmem).2
  have hpre := hinv.2.1
  have hbad := balanceRegions_of_failed P sched s maxVersion G.task _ (hret ▸ hmem)
  have hgo : ∀ layerName r,
      publishedCount (s.go (balanceRegions.tasks s.canonicalLayers)).trace layerName r =
        publishedCount s.trace layerName r := by
    intro layerName r
    simp only [publishedCount, State.go, List.countP_append, Nat.add_right_eq_self,
      List.countP_eq_zero]
    intro e he
    obtain ⟨p, -, rfl⟩ := List.mem_map.1 he
    simp [Event.isPublished]
  refine ⟨?_, hret, ⟨rs, by omega, hw⟩, ⟨_, (List.prefix_iff_eq_append.1 hpre).symm, hsub⟩, ?_, ?_,
    hbad, fun sched1 sd hd => main_of_failed P sched1 sched sd s maxVersion hd hbad⟩
  · have := congrArg (fun l => l[k]?) hmap
    simp only [List.getElem?_map, hG, Option.map_some'] at this
    exact this.symm
  · intro layerName r
    rw [← hgo]
    exact publishedCount_mono _ _ _ _ hpre
  · have h1 := countP_le_of_sublist_drop G.task.events
      (balanceRegions.group P sched s maxVersion).shared.state.trace
      (s.go (balanceRegions.tasks s.canonicalLayers)).trace.length
      (Event.isPublished (s.layerAt G.task.layer).Name cfgj.Region) hsub
    rw [← List.prefix_iff_eq_take.1 hpre] at h1
    have h2 : G.task.events.countP (Event.isPublished (s.layerAt G.task.layer).Name cfgj.Region) =
        j - 1 := by
      have := publishedCount_eq_filter G.task.events (s.layerAt G.task.layer).Name cfgj.Region
      rw [publishedCount] at this
      rw [this, hw, List.countP_append, countP_isPublished_rounds, hlen]
      simp [Event.isPublished]
    have h3 := hgo (s.layerAt G.task.layer).Name cfgj.Region
    simp only [publishedCount] at h3 ⊢
    simp only [balanceRegions]
    omega

set_option maxRecDepth 1000000 in
/-- C10, at a concrete input: every pair at version 3, target 5, the first publish of the
run accepted and every later one refused.  The goroutine of the second pair takes the
guard of its layer first, so the goroutine of the first pair waits for it; the second
publish of the second pair fails: that goroutine has returned the publish error after
one completed round, and `balanceRegions` returns an error. -/
theorem C10_failed_publish_aborts_witness :
    ∃ G, (balanceRegions.group failedPublishProvider [1, 1, 1, 1] initialState 5).goroutines[1]? =
        some G ∧
      (G.task.events.filter Event.isPublish)[2 - 1]? =
        some (.PublishLayerVersion { Region := "ap-east-1" }
          (publishInput "ap-east-1" (initialState.layerAt 0) [9]) (.error "TooManyRequests")) ∧
      G = .returned G.task (some "error publishing layer version: TooManyRequests") ∧
      (G.task.events.filter Event.isWrite).length = 3 ∧
      (balanceRegions failedPublishProvider [1, 1, 1, 1] initialState 5).2 =
        .returned (some "error publishing layer version: TooManyRequests") := by
  have hsome : ((balanceRegions.group failedPublishProvider [1, 1, 1, 1] initialState
      5).goroutines[1]?).isSome = true := rfl
  obtain ⟨G, hG⟩ := Option.isSome_iff_exists.1 hsome
  have hev : ((balanceRegions.group failedPublishProvider [1, 1, 1, 1] initialState
      5).goroutines[1]?).bind (fun G => (G.task.events.filter Event.isPublish)[2 - 1]?) =
      some (.PublishLayerVersion { Region := "ap-east-1" }
        (publishInput "ap-east-1" (initialState.layerAt 0) [9]) (.error "TooManyRequests")) := rfl
  rw [hG] at hev
  have h := C10_failed_publish_aborts failedPublishProvider [1, 1, 1, 1] initialState 5 1 G 2
    { Region := "ap-east-1" } (publishInput "ap-east-1" (initialState.layerAt 0) [9])
    "TooManyRequests" hG (by decide) hev
  obtain ⟨-, h2, ⟨rs, hlen, hw⟩, -, -, -, -, -⟩ := h
  refine ⟨G, hG, hev, h2, ?_, rfl⟩
  have hrs : ∀ (cfg : Config) (region : String) (l : LayerInfo)
      (rs : List (Bytes × PublishLayerVersionOutput)),
      (rounds cfg region l rs).length = 2 * rs.length := by
    intro cfg region l rs
    induction rs with
    | nil => rfl
    | cons x rs ih =>
      obtain ⟨p, o⟩ := x
      simp only [rounds, List.length_cons, ih]
      omega
  rw [hw, List.length_append, hrs]
  simp only [List.length_singleton]
  omega

end LayerBalancer
